import Mathlib

set_option maxHeartbeats 1000000
set_option maxRecDepth 100000

/-! rds-audit-logs-s3: a verification development

A shallow embedding of the log collector (`internal/logcollector`), the audit log
parser (`internal/parser`) and the checkpointed processing loop
(`internal/processor`) of the repository, followed by theorems about them.

Conventions of the embedding

* Go `int64` values are `Int`; the only arithmetic done on them by the code is
  comparison and division by a positive constant, neither of which overflows.
* Go identifiers (file names, checkpoint ids) are `String`; the content of a log
  file is a list of bytes (`List Nat`, each byte a number below 256).
* A Go pointer that may be `nil` is an `Option`; dereferencing `none` is a run-time
  panic, which is an explicit outcome (`Outcome.panic`).
* Remote collaborators (the RDS listing API, the HTTP client, the checkpoint
  database, the S3 writer) are deterministic state machines over an arbitrary world
  state `σ`; the functions of the repository thread that state explicitly.
-/

namespace RdsAuditLogsS3

/-! ## Bytes and results -/

/-- The bytes of an ASCII string literal (one byte per character). A byte is a
natural number below 256; texts that the code treats as raw data are lists of
bytes, `List Nat`. -/
def ascii (s : String) : List Nat := s.toList.map Char.toNat

/-- How a Go function call ends: it returns a value, or the goroutine panics
(a nil pointer dereference). -/
inductive Outcome (α : Type) where
  | returned (a : α)
  | panic
deriving DecidableEq

/-- Equality of the results of a fallible call is decidable. -/
instance instDecidableEqExcept {ε α : Type} [DecidableEq ε] [DecidableEq α] :
    DecidableEq (Except ε α) := fun a b =>
  match a, b with
  | .ok x, .ok y =>
    if h : x = y then isTrue (congrArg Except.ok h)
    else isFalse (fun e => h (Except.ok.inj e))
  | .error x, .error y =>
    if h : x = y then isTrue (congrArg Except.error h)
    else isFalse (fun e => h (Except.error.inj e))
  | .ok _, .error _ => isFalse (fun e => Except.noConfusion e)
  | .error _, .ok _ => isFalse (fun e => Except.noConfusion e)

/-! ## internal/logcollector: the data model -/

/-- Constant `maxRetries` of rdslogcollector.go. -/
def maxRetries : Nat := 5

/-- One entry of the RDS answer to DescribeDBLogFiles (`rds.DescribeDBLogFilesDetails`);
the pointer-typed fields of the SDK are taken as always present. -/
structure DescribeDBLogFilesDetails where
  LastWritten : Int
  LogFileName : String
  Size : Int
deriving DecidableEq

/-- Struct `LogFile` of rdslogcollector.go. `LastWrittenTime` is kept as the number
of seconds since the epoch that `time.Unix` was called with. -/
structure LogFile where
  Size : Int
  LogFileName : String
  LastWritten : Int
  LastWrittenTime : Int
  Path : String
deriving DecidableEq

/-- Whether a character is one of the ASCII digits (the class `\d` of Go regexps). -/
def isDigit (c : Char) : Bool := decide ('0' ≤ c) && decide (c ≤ '9')

/-- Whether the text, from its first character on, is `.log.` followed by one or
more digits and then ends: an anchored match of `\.log\.\d+$`. -/
def matchesRotationSuffix (s : List Char) : Bool :=
  (".log.".toList).isPrefixOf s && !(s.drop 5).isEmpty && (s.drop 5).all isDigit

/-- Method `IsRotatedFile`: `regexp.Match` of the unanchored pattern `\.log\.\d+$`
against the file name: some position of the name starts a match that runs to the
end of the name. The pattern is valid, so the error branch is never taken. -/
def LogFile.IsRotatedFile (l : LogFile) : Bool :=
  l.LogFileName.toList.tails.any matchesRotationSuffix

/-- Insertion of `a`, which stood before every element of the sorted list: an
element `b` moves in front of `a` only when the comparison function of the source
says so, `less(b, a)` = `b.LastWritten < a.LastWritten`. -/
def insertByLastWritten (a : LogFile) : List LogFile → List LogFile
  | [] => [a]
  | b :: l =>
    if b.LastWritten < a.LastWritten then b :: insertByLastWritten a l
    else a :: b :: l

/-- The call `sort.SliceStable(logFiles, less)` with
`less(i, j) = logFiles[i].LastWritten < logFiles[j].LastWritten`: the stable sort
by ascending `LastWritten` (files with equal `LastWritten` keep their order). -/
def sortSliceStable : List LogFile → List LogFile
  | [] => []
  | a :: l => insertByLastWritten a (sortSliceStable l)

/-- The condition of the loop of `findLogFileNewerThanTimestamp`. -/
def qualifies (finishedLogFileTimestamp : Int) (l : LogFile) : Bool :=
  decide (l.LastWritten > finishedLogFileTimestamp) && l.IsRotatedFile

/-- Function `findLogFileNewerThanTimestamp`: sort, then return the first file that
is newer than the timestamp and rotated (`nil, nil` when there is none). The Go
function returns `(*LogFile, error)`; the error is an `Except`. -/
def findLogFileNewerThanTimestamp (logFiles : List LogFile)
    (finishedLogFileTimestamp : Int) : Except String (Option LogFile) :=
  .ok ((sortSliceStable logFiles).find? (qualifies finishedLogFileTimestamp))

/-! ## internal/logcollector: the collaborators and the collector -/

/-- A call that the collector makes, in the order of the calls: the ghost record of
a run. `downloadLogFile` is the entry into the method of that name, `Do` the HTTP
request it sends (host and path of the URL), `Sleep` the pause before a retry. -/
inductive RdsCall where
  | DescribeDBLogFilesPages (dbInstanceIdentifier : String)
  | downloadLogFile (currentLogFile : LogFile)
  | Do (host : String) (path : String)
  | Sleep (seconds : Nat)
deriving DecidableEq

/-- The world of the collector: the state of the remote side and the calls made. -/
structure World (σ : Type) where
  state : σ
  calls : List RdsCall
deriving DecidableEq

/-- A call is added to the record of the world. -/
def World.record {σ : Type} (w : World σ) (c : RdsCall) : World σ :=
  { w with calls := w.calls ++ [c] }

/-- What `buf.ReadFrom(resp)` delivers: the bytes read and the read error, if any. -/
structure ReadResult where
  data : List Nat
  err : Option String
deriving DecidableEq

/-- An `http.Response`: the status code and the body, a reader that is drained
against the state of the remote side at the time of the read. -/
structure Response (σ : Type) where
  StatusCode : Int
  Body : σ → ReadResult × σ

/-- The two remote collaborators of the collector, fields `rds` and `httpClient`.
`DescribeDBLogFilesPages` gives the pages that the paginator of the SDK fetches for
the instance and the error that ends the paging, if any; `Do` answers a GET request
for a host and path. -/
structure RdsClients (σ : Type) where
  DescribeDBLogFilesPages :
    String → σ → (List (List DescribeDBLogFilesDetails) × Option String) × σ
  Do : String → String → σ → Except String (Response σ) × σ

/-- Struct `RdsLogCollector` without its two collaborators. -/
structure RdsLogCollector where
  region : String
  instanceIdentifier : String
  dbType : String
  logType : String
  logFile : String
deriving DecidableEq

/-- Function `NewRdsLogCollector`. -/
def NewRdsLogCollector (region rdsInstanceIdentifier dbType : String) : RdsLogCollector :=
  { region := region, instanceIdentifier := rdsInstanceIdentifier, dbType := dbType,
    logType := "", logFile := "audit/server_audit.log" }

/-- The paginator of the SDK behind `DescribeDBLogFilesPages`: each page is handed to
the callback `fn` together with the flag `lastPage` (no further page follows), and the
paging stops as soon as the callback returns false; the error of the paging is
returned only when the paging got that far. -/
def eachPage {α : Type} (fn : α → List DescribeDBLogFilesDetails → Bool → α × Bool) :
    List (List DescribeDBLogFilesDetails) → Option String → α → α × Option String
  | [], err, acc => (acc, err)
  | page :: rest, err, acc =>
    let r := fn acc page (rest.isEmpty && err.isNone)
    if r.2 then eachPage fn rest err r.1 else (r.1, none)

/-- The callback that `getLogFiles` passes to the paginator: the files of the page
are appended to `logFiles`, and the value returned is `lastPage`. -/
def getLogFilesCallback (logFiles : List LogFile) (output : List DescribeDBLogFilesDetails)
    (lastPage : Bool) : List LogFile × Bool :=
  (logFiles ++ output.map (fun lf =>
      { LastWritten := lf.LastWritten, LastWrittenTime := lf.LastWritten.tdiv 1000,
        LogFileName := lf.LogFileName, Size := lf.Size, Path := "" }),
    lastPage)

/-- One pass through the body of `getLogFiles` up to the test of
`len(matchingLogFiles)`: the listing call and the filter by the name `c.logFile`.
The result is `logFiles` and `matchingLogFiles`, or the error of the listing. -/
def listAndFilter {σ : Type} (cl : RdsClients σ) (c : RdsLogCollector) (w : World σ) :
    Except String (List LogFile × List LogFile) × World σ :=
  let w1 := w.record (.DescribeDBLogFilesPages c.instanceIdentifier)
  let r := cl.DescribeDBLogFilesPages c.instanceIdentifier w1.state
  let w2 : World σ := { w1 with state := r.2 }
  let paged := eachPage getLogFilesCallback r.1.1 r.1.2 []
  match paged.2 with
  | some err => (.error ("error getting db log files: " ++ err), w2)
  | none =>
    (.ok (paged.1,
      paged.1.filter (fun lf => c.logFile.toList.isPrefixOf lf.LogFileName.toList)), w2)

/-- Method `getLogFiles`: list and filter; an empty result is retried while
`retries >= 1`, by the recursive call of the source. -/
def getLogFiles {σ : Type} (cl : RdsClients σ) (c : RdsLogCollector) :
    Nat → World σ → Except String (List LogFile) × World σ
  | retries, w =>
    match listAndFilter cl c w with
    | (.error e, w1) => (.error e, w1)
    | (.ok (logFiles, matchingLogFiles), w1) =>
      if matchingLogFiles.length = 0 then
        match retries with
        | r + 1 => getLogFiles cl c r w1
        | 0 =>
          (.error ("No log file with the given prefix found. Number of log files: " ++
            toString logFiles.length), w1)
      else (.ok matchingLogFiles, w1)

/-- Method `getCurrentLogFileNewerThanTimestamp`. -/
def getCurrentLogFileNewerThanTimestamp {σ : Type} (cl : RdsClients σ) (c : RdsLogCollector)
    (logFileTimestamp : Int) (w : World σ) : Except String (Option LogFile) × World σ :=
  match getLogFiles cl c maxRetries w with
  | (.error e, w1) => (.error ("cannot get log files: " ++ e), w1)
  | (.ok logFiles, w1) => (findLogFileNewerThanTimestamp logFiles logFileTimestamp, w1)

/-- Method `downloadLogFile`: one GET request for the path of the file; an answer
with a status other than 200 is an error. -/
def downloadLogFile {σ : Type} (cl : RdsClients σ) (c : RdsLogCollector)
    (currentLogFile : LogFile) (w : World σ) : Except String (Response σ) × World σ :=
  let host := "https://rds." ++ c.region ++ ".amazonaws.com"
  let path := "/v13/downloadCompleteLogFile/" ++ c.instanceIdentifier ++ "/" ++
    currentLogFile.LogFileName
  let w1 := (w.record (.downloadLogFile currentLogFile)).record (.Do host path)
  let r := cl.Do host path w1.state
  let w2 : World σ := { w1 with state := r.2 }
  match r.1 with
  | .error e => (.error e, w2)
  | .ok resp =>
    if resp.StatusCode ≠ 200 then
      (.error ("could not download log file " ++ currentLogFile.LogFileName ++
        ", status code is " ++ toString resp.StatusCode), w2)
    else (.ok resp, w2)

/-- The four values that `GetLogs` returns: `(io.Reader, bool, int64, error)`. A nil
reader and a nil error are `none`. -/
structure GetLogsResult where
  reader : Option (List Nat)
  ok : Bool
  logFileTimestamp : Int
  err : Option String
deriving DecidableEq

/-- The return statement `return nil, false, 0, err` of `getLogs`. -/
def GetLogsResult.failure (err : String) : GetLogsResult :=
  { reader := none, ok := false, logFileTimestamp := 0, err := some err }

/-- Method `getLogs`: select, download, select again, compare the names, read the
body. The recursive calls `c.getLogs(logFileTimestamp, retries-1)` of the source are
made while `retries >= 1`. Dereferencing `newCurrentLogFile` when the second
selection found no file is the panic outcome. -/
def getLogs {σ : Type} (cl : RdsClients σ) (c : RdsLogCollector) (logFileTimestamp : Int) :
    Nat → World σ → Outcome GetLogsResult × World σ
  | retries, w =>
    match getCurrentLogFileNewerThanTimestamp cl c logFileTimestamp w with
    | (.error e, w1) =>
      (.returned (.failure ("could not get current log file: " ++ e)), w1)
    | (.ok none, w1) =>
      (.returned { reader := none, ok := false, logFileTimestamp := 0, err := none }, w1)
    | (.ok (some currentLogFile), w1) =>
      match downloadLogFile cl c currentLogFile w1 with
      | (.error e, w2) => (.returned (.failure ("could not get log data: " ++ e)), w2)
      | (.ok resp, w2) =>
        match getCurrentLogFileNewerThanTimestamp cl c logFileTimestamp w2 with
        | (.error e, w3) =>
          (.returned (.failure ("could not get current log file: " ++ e)), w3)
        | (.ok none, w3) => (.panic, w3)
        | (.ok (some newCurrentLogFile), w3) =>
          if newCurrentLogFile.LogFileName ≠ currentLogFile.LogFileName then
            match retries with
            | r + 1 => getLogs cl c logFileTimestamp r w3
            | 0 => (.returned (.failure "file was rotated when getting the logs"), w3)
          else
            let read := resp.Body w3.state
            let w4 : World σ := { w3 with state := read.2 }
            match read.1.err with
            | some e =>
              match retries with
              | r + 1 => getLogs cl c logFileTimestamp r (w4.record (.Sleep 1))
              | 0 =>
                (.returned (.failure ("could not read response from log data: " ++ e)), w4)
            | none =>
              (.returned { reader := some read.1.data, ok := true,
                           logFileTimestamp := currentLogFile.LastWritten, err := none }, w4)

/-- Method `GetLogs`. -/
def GetLogs {σ : Type} (cl : RdsClients σ) (c : RdsLogCollector) (logFileTimestamp : Int)
    (w : World σ) : Outcome GetLogsResult × World σ :=
  getLogs cl c logFileTimestamp maxRetries w

/-! ## internal/entity -/

/-- Struct `LogEntryTimestamp` of logentry.go: the hour bucket of a record. -/
structure LogEntryTimestamp where
  Year : Int
  Month : Int
  Day : Int
  Hour : Int
deriving DecidableEq

/-- Function `NewLogEntryTimestamp` of logentry.go. -/
def NewLogEntryTimestamp (year month day hour : Int) : LogEntryTimestamp :=
  { Year := year, Month := month, Day := day, Hour := hour }

/-- Struct `LogEntry` of logentry.go; `LogLine` is the content of its buffer. -/
structure LogEntry where
  Timestamp : LogEntryTimestamp
  LogLine : List Nat
  LogFileTimestamp : Int
deriving DecidableEq

/-- Struct `CheckpointRecord` of the entity package, with the two fields that
processor.go sets and reads. -/
structure CheckpointRecord where
  LogFileTimestamp : Int
  Id : String
deriving DecidableEq

/-! ## The Go standard library, as far as the parser uses it -/

/-- The call `strings.Split(s, sep)` for a separator of one byte: the pieces between
the separators, in order; there is always at least one piece. -/
def splitOn (sep : Nat) : List Nat → List (List Nat)
  | [] => [[]]
  | b :: rest =>
    if b = sep then [] :: splitOn sep rest
    else
      match splitOn sep rest with
      | l :: ls => (b :: l) :: ls
      | [] => [[b]]

/-- Constant `bufio.MaxScanTokenSize`: the size of the largest buffer of a Scanner. -/
def maxScanTokenSize : Nat := 64 * 1024

/-- Function `dropCR` of bufio: a trailing carriage return is removed. -/
def dropCR (l : List Nat) : List Nat :=
  if l.getLast? = some 13 then l.dropLast else l

/-- The texts that `scanner.Text()` yields, in order, while `scanner.Scan()` returns
true, for a `bufio.Scanner` with the default split function `ScanLines` over a reader
that holds `data`. A line ends at a newline or at the end of the data; no text is
yielded for an empty rest after the last newline. A line that does not fit into the
buffer together with its newline (`maxScanTokenSize` bytes or more) makes `Scan`
return false for good (the error `ErrTooLong`, which only `scanner.Err()` shows). -/
def scanLines (data : List Nat) : List (List Nat) :=
  let lines := splitOn 10 data
  let lines := if lines.getLast? = some [] then lines.dropLast else lines
  (lines.takeWhile (fun l => decide (l.length < maxScanTokenSize))).map dropCR

/-- Whether a byte is an ASCII digit. -/
def isDigitByte (b : Nat) : Bool := decide (48 ≤ b) && decide (b ≤ 57)

/-- The loop of `strconv.ParseUint(s, 10, 64)`: the value and whether it is valid;
`none` stands for a syntax error (value 0), `some false` for a range error. -/
def parseUintLoop : List Nat → Nat → Nat × Option Bool
  | [], n => (n, some true)
  | c :: cs, n =>
    if isDigitByte c then
      let d := c - 48
      if n ≥ (2 ^ 64 - 1) / 10 + 1 then (2 ^ 64 - 1, some false)
      else
        let n10 := n * 10 % 2 ^ 64
        let n1 := (n10 + d) % 2 ^ 64
        if n1 < n10 ∨ n1 > 2 ^ 64 - 1 then (2 ^ 64 - 1, some false)
        else parseUintLoop cs n1
    else (0, none)

/-- The call `strconv.ParseUint(s, 10, 64)`. -/
def ParseUint (s : List Nat) : Nat × Option Bool :=
  if s = [] then (0, none) else parseUintLoop s 0

/-- The call `strconv.ParseInt(s, 10, 64)`: the returned value and whether the
returned error is nil. On a syntax error the value is 0, on a range error it is the
nearest `int64`. -/
def ParseInt (s : List Nat) : Int × Bool :=
  match s with
  | [] => (0, false)
  | c :: cs =>
    let neg := decide (c = 45)
    let digits := if c = 43 ∨ c = 45 then cs else c :: cs
    match ParseUint digits with
    | (_, none) => (0, false)
    | (un, some valid) =>
      if !neg ∧ un ≥ 2 ^ 63 then (2 ^ 63 - 1, false)
      else if neg ∧ un > 2 ^ 63 then (-(2 ^ 63), false)
      else (if neg then -(un : Int) else (un : Int), valid)

/-- Function `isLeap` of package time. -/
def isLeap (year : Int) : Bool :=
  decide (year % 4 = 0) && (decide (year % 100 ≠ 0) || decide (year % 400 = 0))

/-- Table `daysBefore` of package time: the number of days of a non-leap year
before the month with the given index (January is 0). -/
def daysBefore (m : Int) : Int :=
  if m ≤ 0 then 0 else if m = 1 then 31 else if m = 2 then 59 else if m = 3 then 90
  else if m = 4 then 120 else if m = 5 then 151 else if m = 6 then 181
  else if m = 7 then 212 else if m = 8 then 243 else if m = 9 then 273
  else if m = 10 then 304 else if m = 11 then 334 else 365

/-- The year and the day of the year (from 0) of a day given as a number of days
since 1970-01-01, by the steps of `absDate` of package time: the cycles of 400, 100
and 4 years and the single years are cut off one after the other. The count starts
at 0001-01-01, which differs from the absolute zero year of the package by a
multiple of 400 years. -/
def absDate (days : Int) : Int × Int :=
  let d0 := days + 719162
  let n400 := d0 / 146097
  let d := d0 % 146097
  let n100 := d / 36524
  let n100 := n100 - n100 / 4
  let d := d - 36524 * n100
  let n4 := d / 1461
  let d := d - 1461 * n4
  let n := d / 365
  let n := n - n / 4
  (1 + 400 * n400 + 100 * n100 + 4 * n4 + n, d - 365 * n)

/-- The month and the day of the month of a day of the year, by the steps of `date`
of package time: the leap day is set aside, the month is estimated as if every month
had 31 days and corrected with the table `daysBefore`. -/
def dateOfYday (year yday : Int) : Int × Int :=
  if isLeap year ∧ yday = 31 + 29 - 1 then (2, 29)
  else
    let day := if isLeap year ∧ yday > 31 + 29 - 1 then yday - 1 else yday
    let month := day / 31
    let e := daysBefore (month + 1)
    if day ≥ e then (month + 2, day - e + 1)
    else (month + 1, day - daysBefore month + 1)

/-- A `time.Time` as far as the parser reads it: the wall clock in its location. -/
structure Time where
  Year : Int
  Month : Int
  Day : Int
  Hour : Int
  Minute : Int
  Second : Int
deriving DecidableEq

/-- The call `time.Unix(sec, 0)`: the time in the location `time.Local` of the
process. `loc` gives the offset of that location from UTC, in seconds east, for an
instant given in seconds since the epoch. -/
def Unix (loc : Int → Int) (sec : Int) : Time :=
  let wall := sec + loc sec
  let yd := absDate (wall / 86400)
  let md := dateOfYday yd.1 yd.2
  let s := wall % 86400
  { Year := yd.1, Month := md.1, Day := md.2,
    Hour := s / 3600, Minute := s % 3600 / 60, Second := s % 60 }

/-- The location UTC: offset zero at every instant. -/
def UTC : Int → Int := fun _ => 0

/-- Function `appendInt` of package time: the decimal text of `x`, zero-padded to
`width` digits, after a minus sign when `x` is negative. -/
def appendInt (x : Int) (width : Nat) : List Nat :=
  let u := x.natAbs
  let sign : List Nat := if x < 0 then [45] else []
  if width = 2 ∧ u < 100 then sign ++ [48 + u / 10, 48 + u % 10]
  else if width = 4 ∧ u < 10000 then
    sign ++ [48 + u / 1000, 48 + u / 100 % 10, 48 + u / 10 % 10, 48 + u % 10]
  else
    let ds := (Nat.toDigits 10 u).map Char.toNat
    sign ++ List.replicate (width - ds.length) 48 ++ ds

/-- The call `t.Format("20060102 15:04:05")`. -/
def Time.Format (t : Time) : List Nat :=
  appendInt t.Year 4 ++ appendInt t.Month 2 ++ appendInt t.Day 2 ++ [32] ++
    appendInt t.Hour 2 ++ [58] ++ appendInt t.Minute 2 ++ [58] ++ appendInt t.Second 2

/-- The error `errBad` of package time, which its helper functions return; `Parse`
replaces it by a `ParseError`. -/
def errBad : String := "bad value for field"

/-- The error `errAtoi` of package time. -/
def errAtoi : String := "time: invalid number"

/-- Function `getnum` of package time: a number of one or two digits (exactly two
when `fixed`) and the rest of the text. -/
def getnum (s : List Nat) (fixed : Bool) : Except String (Int × List Nat) :=
  match s with
  | [] => .error errBad
  | [a] =>
    if !isDigitByte a then .error errBad
    else if fixed then .error errBad
    else .ok (((a - 48 : Nat) : Int), [])
  | a :: b :: rest =>
    if !isDigitByte a then .error errBad
    else if !isDigitByte b then
      if fixed then .error errBad else .ok (((a - 48 : Nat) : Int), b :: rest)
    else .ok ((((a - 48) * 10 + (b - 48) : Nat) : Int), rest)

/-- Function `skip` of package time for a layout text of one byte: a space in the
layout matches any number of spaces, another byte matches itself. -/
def skip (value : List Nat) (layoutByte : Nat) : Except String (List Nat) :=
  if layoutByte = 32 then
    match value with
    | [] => .ok []
    | v :: _ => if v ≠ 32 then .error errBad else .ok (value.dropWhile (fun b => decide (b = 32)))
  else
    match value with
    | [] => .error errBad
    | v :: rest => if v ≠ layoutByte then .error errBad else .ok rest

/-- Function `atoi` of package time on a text without sign: its value when all its
bytes are digits. -/
def atoi (s : List Nat) : Except String Int :=
  if s.all isDigitByte then .ok ((s.foldl (fun n b => n * 10 + (b - 48)) 0 : Nat) : Int)
  else .error errAtoi

/-- Function `daysIn` of package time. -/
def daysIn (month year : Int) : Int :=
  if month = 2 then
    if isLeap year then 29 else 28
  else if month = 4 ∨ month = 6 ∨ month = 9 ∨ month = 11 then 30
  else 31

/-- The digit of index `n` of the constant `lowerhex` of package time. -/
def lowerhex (n : Nat) : Char := "0123456789abcdef".toList.getD n '0'

/-- Function `quote` of package time: the text between double quotes, with a
backslash before a double quote or a backslash, and with every byte below 32 or
above 127 written as a backslash, the letter x and two hexadecimal digits. -/
def quote (s : List Nat) : String :=
  String.mk ([Char.ofNat 34] ++
    s.flatMap (fun c =>
      if c ≥ 128 ∨ c < 32 then [Char.ofNat 92, Char.ofNat 120, lowerhex (c / 16), lowerhex (c % 16)]
      else if c = 34 ∨ c = 92 then [Char.ofNat 92, Char.ofNat c]
      else [Char.ofNat c]) ++
    [Char.ofNat 34])

/-- Type `ParseError` of package time: the error that `Parse` returns. -/
structure ParseError where
  Layout : List Nat
  Value : List Nat
  LayoutElem : List Nat
  ValueElem : List Nat
  Message : String

/-- Method `Error` of `ParseError`: the text of the error, which is what the verb
`%v` prints. -/
def ParseError.Error (e : ParseError) : String :=
  if e.Message = "" then
    "parsing time " ++ quote e.Value ++ " as " ++ quote e.Layout ++ ": cannot parse " ++
      quote e.ValueElem ++ " as " ++ quote e.LayoutElem
  else
    "parsing time " ++ quote e.Value ++ e.Message

/-- The call `time.Parse("20060102 15:04:05", value)`: the fields of the layout are
read one after the other (a year of exactly four digits, a two-digit month and day,
spaces, an hour of one or two digits, two-digit minute and second), each checked
against its range, and nothing may follow. The result is in UTC, so its `Year()`,
`Month()`, `Day()` and `Hour()` are the fields read. A failure is a `ParseError`
with the layout, the whole value, the element of the layout being read and the rest
of the value at that element; a field out of its range, text after the seconds and
a day that the month does not have carry a message, a field that cannot be read
carries none. The optional fraction of a second that `Parse` accepts after the
seconds is not part of the embedding: no text made by `Time.Format` has one. -/
def Parse (avalue : List Nat) : Except ParseError Time :=
  let alayout := ascii "20060102 15:04:05"
  let bad : String → List Nat → ParseError :=
    fun stdstr hold => ⟨alayout, avalue, ascii stdstr, hold, ""⟩
  let outOfRange : String → List Nat → String → ParseError :=
    fun stdstr value field => ⟨alayout, avalue, ascii stdstr, value, ": " ++ field ++ " out of range"⟩
  if avalue.length < 4 ∨ !isDigitByte (avalue.headD 0) then .error (bad "2006" avalue) else
  match atoi (avalue.take 4) with
  | .error _ => .error (bad "2006" avalue)
  | .ok year =>
  match getnum (avalue.drop 4) true with
  | .error _ => .error (bad "01" (avalue.drop 4))
  | .ok (month, value) =>
  if month ≤ 0 ∨ 12 < month then .error (outOfRange "01" value "month") else
  match getnum value true with
  | .error _ => .error (bad "02" value)
  | .ok (day, value1) =>
  match skip value1 32 with
  | .error _ => .error (bad " " value1)
  | .ok value2 =>
  match getnum value2 false with
  | .error _ => .error (bad "15" value2)
  | .ok (hour, value3) =>
  if hour < 0 ∨ 24 ≤ hour then .error (outOfRange "15" value3 "hour") else
  match skip value3 58 with
  | .error _ => .error (bad ":" value3)
  | .ok value4 =>
  match getnum value4 true with
  | .error _ => .error (bad "04" value4)
  | .ok (min, value5) =>
  if min < 0 ∨ 60 ≤ min then .error (outOfRange "04" value5 "minute") else
  match skip value5 58 with
  | .error _ => .error (bad ":" value5)
  | .ok value6 =>
  match getnum value6 true with
  | .error _ => .error (bad "05" value6)
  | .ok (sec, value7) =>
  if sec < 0 ∨ 60 ≤ sec then .error (outOfRange "05" value7 "second") else
  if value7 ≠ [] then
    .error ⟨alayout, avalue, [], value7, ": extra text: " ++ quote value7⟩ else
  if day < 1 ∨ day > daysIn month year then
    .error ⟨alayout, avalue, [], value7, ": day out of range"⟩ else
  .ok { Year := year, Month := month, Day := day, Hour := hour, Minute := min, Second := sec }

/-! ## internal/parser -/

/-- The body of the loop of `ParseEntries` from `strings.Split` to `newTS`: the hour
bucket of one non-empty line, or the error that ends the parse. The error of
`strconv.ParseInt` is dropped by the source (`timestamp, _ :=`), so an unreadable
first field counts as timestamp 0; the division is the truncating one of Go. -/
def lineTimestamp (loc : Int → Int) (txt : List Nat) : Except String LogEntryTimestamp :=
  let record := splitOn 44 txt
  if record.length < 2 then .error "could not parse data" else
  let timestamp := (ParseInt (record.headD [])).1
  let epochSeconds := timestamp.tdiv 1000000
  let t := Unix loc epochSeconds
  let formatTime := t.Format
  match Parse formatTime with
  | .error err => .error ("could not parse time: " ++ err.Error)
  | .ok ts => .ok { Year := ts.Year, Month := ts.Month, Day := ts.Day, Hour := ts.Hour }

/-- The loop of `ParseEntries` over the texts of the scanner, with the two variables
`entries` and `currentEntry` of the source as accumulators; at the end of the texts
`currentEntry` is appended whatever it is. -/
def parseLoop (loc : Int → Int) (logFileTimestamp : Int) :
    List (List Nat) → List (Option LogEntry) → Option LogEntry →
      Except String (List (Option LogEntry))
  | [], entries, currentEntry => .ok (entries ++ [currentEntry])
  | txt :: rest, entries, currentEntry =>
    if txt = [] then parseLoop loc logFileTimestamp rest entries currentEntry
    else
      match lineTimestamp loc txt with
      | .error e => .error e
      | .ok newTS =>
        let closed : List (Option LogEntry) × Option LogEntry :=
          match currentEntry with
          | some cur =>
            if cur.Timestamp ≠ newTS then (entries ++ [some cur], none)
            else (entries, some cur)
          | none => (entries, none)
        let cur : LogEntry :=
          match closed.2 with
          | some cur => cur
          | none => { Timestamp := newTS, LogLine := [], LogFileTimestamp := logFileTimestamp }
        parseLoop loc logFileTimestamp rest closed.1
          (some { cur with LogLine := cur.LogLine ++ txt ++ [10] })

/-- Method `AuditLogParser.ParseEntries`: the records of a log file, as the list of
pointers the source returns (`none` is a nil pointer), or the error. `loc` is the
location `time.Local` of the process. -/
def ParseEntries (loc : Int → Int) (data : List Nat) (logFileTimestamp : Int) :
    Except String (List (Option LogEntry)) :=
  parseLoop loc logFileTimestamp (scanLines data) [] none

/-! ## internal/processor -/

/-- The collaborators of a `Processor`: the interfaces `logcollector.LogCollector`,
`database.Database`, `s3writer.Writer` and `parser.Parser`, each a state machine over
the world `σ`. An error is `some` message, a nil error is `none`. -/
structure Collaborators (σ : Type) where
  ValidateAndPrepareRDSInstance : σ → Option String × σ
  GetCheckpoint : String → σ → Except String (Option CheckpointRecord) × σ
  GetLogs : Int → σ → Outcome GetLogsResult × σ
  ParseEntries : List Nat → Int → Except String (List (Option LogEntry))
  WriteLogEntry : LogEntry → σ → Option String × σ
  StoreCheckpoint : CheckpointRecord → σ → Option String × σ

/-- A call of `Process` to a collaborator together with its answer: the ghost record
of a run, in the order of the calls. -/
inductive Event where
  | ValidateAndPrepareRDSInstance (err : Option String)
  | GetCheckpoint (id : String) (res : Except String (Option CheckpointRecord))
  | GetLogs (logFileTimestamp : Int) (res : Outcome GetLogsResult)
  | WriteLogEntry (data : LogEntry) (err : Option String)
  | StoreCheckpoint (checkpoint : CheckpointRecord) (err : Option String)
deriving DecidableEq

/-- How a run of `Process` ends: `none` when the loop is still running after the
given number of iterations, otherwise the returned error (`none` for nil) or the
panic. -/
abbrev ProcessResult := Option (Outcome (Option String))

/-- The loop `for _, entry := range logEntries` of `Process`: each pointer is
dereferenced and the record written; the first failing write ends the run. The
result is `.returned none` when the loop ran to its end. -/
def writeEntries {σ : Type} (c : Collaborators σ) :
    List (Option LogEntry) → σ → Outcome (Option String) × List Event × σ
  | [], s => (.returned none, [], s)
  | none :: _, s => (.panic, [], s)
  | some entry :: rest, s =>
    let r := c.WriteLogEntry entry s
    match r.1 with
    | some err =>
      (.returned (some ("could not write log entry: " ++ err)),
        [.WriteLogEntry entry (some err)], r.2)
    | none =>
      let t := writeEntries c rest r.2
      (t.1, .WriteLogEntry entry none :: t.2.1, t.2.2)

/-- The loop `for { ... }` of `Process`, for at most `fuel` iterations, started with
the value of `currentLogFileTimestamp`. The result is the end of the run, the calls
made and the last state of the world. -/
def processLoop {σ : Type} (c : Collaborators σ) (id : String) :
    Nat → Int → σ → ProcessResult × List Event × σ
  | 0, _, s => (none, [], s)
  | fuel + 1, currentLogFileTimestamp, s =>
    let g := c.GetLogs currentLogFileTimestamp s
    let ev := Event.GetLogs currentLogFileTimestamp g.1
    match g.1 with
    | .panic => (some .panic, [ev], g.2)
    | .returned res =>
      match res.err with
      | some err =>
        (some (.returned (some ("could not start logcollector: " ++ err))), [ev], g.2)
      | none =>
        if !res.ok then (some (.returned none), [ev], g.2)
        else
          match res.reader with
          | none => (some .panic, [ev], g.2)
          | some logLines =>
            match c.ParseEntries logLines res.logFileTimestamp with
            | .error err =>
              (some (.returned (some ("could not parse entries: " ++ err))), [ev], g.2)
            | .ok logEntries =>
              let wr := writeEntries c logEntries g.2
              match wr.1 with
              | .panic => (some .panic, ev :: wr.2.1, wr.2.2)
              | .returned (some err) => (some (.returned (some err)), ev :: wr.2.1, wr.2.2)
              | .returned none =>
                let checkpoint : CheckpointRecord :=
                  { LogFileTimestamp := res.logFileTimestamp, Id := id }
                let st := c.StoreCheckpoint checkpoint wr.2.2
                let evs := ev :: wr.2.1 ++ [Event.StoreCheckpoint checkpoint st.1]
                match st.1 with
                | some err =>
                  (some (.returned (some ("could not save marker: " ++ err))), evs, st.2)
                | none =>
                  let t := processLoop c id fuel res.logFileTimestamp st.2
                  (t.1, evs ++ t.2.1, t.2.2)

/-- Method `Processor.Process` for a processor with the given collaborators and
`RdsInstanceIdentifier`, run for at most `fuel` iterations of its loop. -/
def Process {σ : Type} (c : Collaborators σ) (RdsInstanceIdentifier : String) (fuel : Nat)
    (s : σ) : ProcessResult × List Event × σ :=
  let v := c.ValidateAndPrepareRDSInstance s
  let ev1 := Event.ValidateAndPrepareRDSInstance v.1
  match v.1 with
  | some err => (some (.returned (some ("error validating RDS instance: " ++ err))), [ev1], v.2)
  | none =>
    let id := RdsInstanceIdentifier ++ ":" ++ "audit"
    let g := c.GetCheckpoint id v.2
    let ev2 := Event.GetCheckpoint id g.1
    match g.1 with
    | .error err => (some (.returned (some ("could not get marker: " ++ err))), [ev1, ev2], g.2)
    | .ok checkpointRecord =>
      let currentLogFileTimestamp : Int :=
        match checkpointRecord with
        | some r => r.LogFileTimestamp
        | none => 0
      let t := processLoop c id fuel currentLogFileTimestamp g.2
      (t.1, ev1 :: ev2 :: t.2.1, t.2.2)

/-- The collaborators of a processor other than the log collector and the parser:
the readiness check, the checkpoint database and the S3 writer. -/
structure Backends (σ : Type) where
  ValidateAndPrepareRDSInstance : σ → Option String × σ
  GetCheckpoint : String → σ → Except String (Option CheckpointRecord) × σ
  WriteLogEntry : LogEntry → σ → Option String × σ
  StoreCheckpoint : CheckpointRecord → σ → Option String × σ

/-- The collaborators of the processor that `main` builds: `GetLogs` is the method of
`RdsLogCollector` over the two remote clients, `ParseEntries` the method of
`AuditLogParser`; the backends work on the remote state and make no call of the
collector. -/
def rdsCollaborators {σ : Type} (cl : RdsClients σ) (c : RdsLogCollector)
    (loc : Int → Int) (b : Backends σ) : Collaborators (World σ) :=
  { ValidateAndPrepareRDSInstance := fun w =>
      let r := b.ValidateAndPrepareRDSInstance w.state
      (r.1, { w with state := r.2 })
    GetCheckpoint := fun id w =>
      let r := b.GetCheckpoint id w.state
      (r.1, { w with state := r.2 })
    GetLogs := fun logFileTimestamp w => GetLogs cl c logFileTimestamp w
    ParseEntries := ParseEntries loc
    WriteLogEntry := fun data w =>
      let r := b.WriteLogEntry data w.state
      (r.1, { w with state := r.2 })
    StoreCheckpoint := fun checkpoint w =>
      let r := b.StoreCheckpoint checkpoint w.state
      (r.1, { w with state := r.2 }) }

/-! ## Package fmt, as far as the writer uses it -/

/-- The digit loop of `fmtInteger` of package fmt for base 10: while `u >= 10` the last
digit of `u` is put in front of the buffer and `u` is divided by 10, then the digit
that is left is put in front. `fuel` bounds the number of turns; `u + 1` is enough. -/
def fmtDigits : Nat → Nat → List Char → List Char
  | 0, _, buf => buf
  | fuel + 1, u, buf =>
    if u ≥ 10 then fmtDigits fuel (u / 10) (Nat.digitChar (u % 10) :: buf)
    else Nat.digitChar u :: buf

/-- Function `fmtInteger` of package fmt for a signed integer in base 10 under the verb
`%d` (`zeroWidth` = 0) or `%0Nd` (`zeroWidth` = N): the digits of the absolute value,
zeros in front of them up to the precision, which is the width less one when the
number is negative, and then the sign. The text is never shorter than the width, so
the later padding with blanks adds nothing. -/
def fmtInteger (n : Int) (zeroWidth : Nat) : List Char :=
  let negative := decide (n < 0)
  let u := n.natAbs
  let prec := if negative then zeroWidth - 1 else zeroWidth
  let digits := fmtDigits (u + 1) u []
  let padded := List.replicate (prec - digits.length) '0' ++ digits
  if negative then '-' :: padded else padded

/-! ## internal/s3writer -/

/-- The fields of `s3manager.UploadInput` that the writer sets; the body is the content
that the uploader reads. -/
structure UploadInput where
  Bucket : String
  Key : String
  Body : List Nat
deriving DecidableEq

/-- Struct `s3Writer` without its uploader. -/
structure s3Writer where
  bucketName : String
  s3Prefix : String
deriving DecidableEq

/-- Function `generateKey` of s3writer.go. -/
def generateKey (s3Prefix : String) (ts : LogEntryTimestamp) (logFileTimestamp : Int) : String :=
  let datePart := "year=" ++ String.mk (fmtInteger ts.Year 4) ++ "/month=" ++
    String.mk (fmtInteger ts.Month 2) ++ "/day=" ++ String.mk (fmtInteger ts.Day 2) ++
    "/hour=" ++ String.mk (fmtInteger ts.Hour 2)
  let filename := String.mk (fmtInteger logFileTimestamp 0) ++ ".log"
  s3Prefix ++ "/" ++ datePart ++ "/" ++ filename

/-- Method `s3Writer.upload`: one call of `Upload` of the uploader, a state machine over
the world `σ` that answers with its error (`none` for nil). -/
def s3Writer.upload {σ : Type} (s : s3Writer) (uploader : UploadInput → σ → Option String × σ)
    (key : String) (data : List Nat) (st : σ) : Option String × σ :=
  let r := uploader { Bucket := s.bucketName, Key := key, Body := data } st
  match r.1 with
  | some err => (some ("failed to upload file, " ++ err), r.2)
  | none => (none, r.2)

/-- Method `s3Writer.WriteLogEntry`. -/
def s3Writer.WriteLogEntry {σ : Type} (s : s3Writer)
    (uploader : UploadInput → σ → Option String × σ) (data : LogEntry) (st : σ) :
    Option String × σ :=
  let key := generateKey s.s3Prefix data.Timestamp data.LogFileTimestamp
  let r := s.upload uploader key data.LogLine st
  match r.1 with
  | some err => (some ("could not upload file to S3: " ++ err), r.2)
  | none => (none, r.2)

/-! ## Vocabulary of the statements -/

/-- What the selection returns, stated on the given list. -/
def SelectSpec (w : Int) (logFiles : List LogFile) (r : Option LogFile) : Prop :=
  (r = none ↔ ∀ f ∈ logFiles, ¬ (f.IsRotatedFile = true ∧ f.LastWritten > w)) ∧
  ∀ f, r = some f →
    f.IsRotatedFile = true ∧ f.LastWritten > w ∧
    (∀ g ∈ logFiles, g.IsRotatedFile = true → g.LastWritten > w →
      f.LastWritten ≤ g.LastWritten) ∧
    ∃ pre post, logFiles = pre ++ f :: post ∧
      ∀ g ∈ pre, ¬ (g.IsRotatedFile = true ∧ g.LastWritten > w ∧
        g.LastWritten = f.LastWritten)

/-- The seconds since the epoch that the loop of `ParseEntries` computes for a line:
the first comma-separated field read by `strconv.ParseInt`, divided by 1000000. -/
def lineSeconds (txt : List Nat) : Int :=
  ((ParseInt ((splitOn 44 txt).headD [])).1).tdiv 1000000

/-- The hour bucket of a time: its year, month, day and hour. -/
def hourBucket (t : Time) : LogEntryTimestamp :=
  { Year := t.Year, Month := t.Month, Day := t.Day, Hour := t.Hour }

/-- A line that the loop of `ParseEntries` accepts: it has a comma, and the year of
its time in the location of the process has at most four digits and is not
negative (the condition under which `time.Parse` reads back what `Format` wrote). -/
def WellFormedLine (loc : Int → Int) (txt : List Nat) : Prop :=
  44 ∈ txt ∧ 0 ≤ (Unix loc (lineSeconds txt)).Year ∧ (Unix loc (lineSeconds txt)).Year ≤ 9999

instance (loc : Int → Int) (txt : List Nat) : Decidable (WellFormedLine loc txt) := by
  unfold WellFormedLine
  infer_instance

/-- The number that a text of decimal digits denotes. -/
def decimalValue (field : List Nat) : Nat :=
  field.foldl (fun n b => n * 10 + (b - 48)) 0

/-- The lines of a file as the parser sees them: the pieces between the newline
bytes, each without one trailing carriage return, the empty ones left out. -/
def contentLines (data : List Nat) : List (List Nat) :=
  ((splitOn 10 data).map dropCR).filter (fun l => decide (l ≠ []))

/-- The bucket that the loop of `ParseEntries` computes for a line (a default value
where the loop fails on the line). -/
def bucketOf (loc : Int → Int) (txt : List Nat) : LogEntryTimestamp :=
  match lineTimestamp loc txt with
  | .ok b => b
  | .error _ => { Year := 0, Month := 0, Day := 0, Hour := 0 }

/-- The bucket of each maximal run of equal neighbours of a list of buckets, in
order. -/
def runHeads : List LogEntryTimestamp → List LogEntryTimestamp
  | [] => []
  | [a] => [a]
  | a :: b :: l => if a = b then runHeads (b :: l) else a :: runHeads (b :: l)

/-- The number of places of a list of buckets where a bucket differs from the next
one. -/
def adjacentChanges : List LogEntryTimestamp → Nat
  | [] => 0
  | [_] => 0
  | a :: b :: l => (if a = b then 0 else 1) + adjacentChanges (b :: l)

/-- The lines of a record that is still open, followed by the lines that come after
it: the groups of lines that the loop of `ParseEntries` forms, in order. A line
with another bucket than the open group closes it and opens the next group. -/
def extendGroups (loc : Int → Int) (bucket : LogEntryTimestamp) (cur : List (List Nat)) :
    List (List Nat) → List (LogEntryTimestamp × List (List Nat))
  | [] => [(bucket, cur)]
  | l :: rest =>
    if bucket ≠ bucketOf loc l then
      (bucket, cur) :: extendGroups loc (bucketOf loc l) [l] rest
    else extendGroups loc bucket (cur ++ [l]) rest

/-- The groups of lines that the loop of `ParseEntries` forms from the lines of a
file: one group per maximal run of lines with the same bucket. -/
def lineGroups (loc : Int → Int) : List (List Nat) → List (LogEntryTimestamp × List (List Nat))
  | [] => []
  | l :: rest => extendGroups loc (bucketOf loc l) [l] rest

/-- The content of a record made of the given lines: each line followed by one
newline byte. -/
def joinLines (ls : List (List Nat)) : List Nat :=
  (ls.map (fun l => l ++ [10])).flatten

/-- The record of a group of lines. -/
def groupEntry (logFileTimestamp : Int) (g : LogEntryTimestamp × List (List Nat)) : LogEntry :=
  { Timestamp := g.1, LogLine := joinLines g.2, LogFileTimestamp := logFileTimestamp }

/-- A file of five lines whose timestamps (microseconds since the epoch) fall in the
hours 7, 7, 8, 8 and 9 of 2020-07-14 (UTC). -/
def fiveLines : List Nat :=
  ascii ("1594710325000000,a\n1594710326000000,b\n1594713926000000,c\n" ++
    "1594713927000000,d\n1594717527000000,e\n")

/-- What a successful `getLogs` went through in its last attempt. -/
def CheckedDownload {σ : Type} (cl : RdsClients σ) (c : RdsLogCollector) (ts : Int)
    (w : World σ) (r : GetLogsResult) (out : World σ) : Prop :=
  ∃ (w0 w1 w2 w3 : World σ) (f g : LogFile) (resp : Response σ),
    w.calls <+: w0.calls ∧
    getCurrentLogFileNewerThanTimestamp cl c ts w0 = (.ok (some f), w1) ∧
    downloadLogFile cl c f w1 = (.ok resp, w2) ∧
    getCurrentLogFileNewerThanTimestamp cl c ts w2 = (.ok (some g), w3) ∧
    g.LogFileName = f.LogFileName ∧
    (resp.Body w3.state).1.err = none ∧
    r = { reader := some (resp.Body w3.state).1.data, ok := true,
          logFileTimestamp := f.LastWritten, err := none } ∧
    out = { w3 with state := (resp.Body w3.state).2 }

/-- The calls of the second world are those of the first followed by further calls,
and every file handed to `downloadLogFile` among the further calls is rotated and
newer than the timestamp. -/
def CallsGrow {σ : Type} (ts : Int) (w w' : World σ) : Prop :=
  ∃ new, w'.calls = w.calls ++ new ∧
    ∀ f, RdsCall.downloadLogFile f ∈ new → f.IsRotatedFile = true ∧ f.LastWritten > ts

/-- What `getLogs` guarantees for a number of retries. -/
def GetLogsSpec {σ : Type} (cl : RdsClients σ) (c : RdsLogCollector) (ts : Int)
    (retries : Nat) (w : World σ) : Prop :=
  CallsGrow ts w (getLogs cl c ts retries w).2 ∧
  ∀ r, (getLogs cl c ts retries w).1 = .returned r → r.ok = true →
    CheckedDownload cl c ts w r (getLogs cl c ts retries w).2

/-- The listing of the test `TestGetLogsWithTimestampRotatedInBetween` before the
rotation. -/
def listingBeforeRotation : List DescribeDBLogFilesDetails :=
  [{ LastWritten := 1595262837000, LogFileName := "audit/server_audit.log", Size := 901862 },
   { LastWritten := 1595259824000, LogFileName := "audit/server_audit.log.1", Size := 1000159 },
   { LastWritten := 1595256406000, LogFileName := "audit/server_audit.log.2", Size := 1000011 }]

/-- The listing of the same test after the rotation. -/
def listingAfterRotation : List DescribeDBLogFilesDetails :=
  [{ LastWritten := 1595265641000, LogFileName := "audit/server_audit.log", Size := 901862 },
   { LastWritten := 1595262837000, LogFileName := "audit/server_audit.log.1", Size := 901862 },
   { LastWritten := 1595259824000, LogFileName := "audit/server_audit.log.2", Size := 1000159 },
   { LastWritten := 1595256406000, LogFileName := "audit/server_audit.log.3", Size := 1000011 }]

/-- The remote side of that test. The state counts the listings answered: the first
listing is the one before the rotation, every later one the one after it, each in
one page. Every download is answered with status 200 and a body of one line. -/
def rotatingClients : RdsClients Nat :=
  { DescribeDBLogFilesPages := fun _ n =>
      (([if n = 0 then listingBeforeRotation else listingAfterRotation], none), n + 1)
    Do := fun _ _ n =>
      (.ok { StatusCode := 200
             Body := fun s => ({ data := ascii "1594710325000000,a\n", err := none }, s) }, n) }

/-- The collector of the tests. -/
def testCollector : RdsLogCollector :=
  NewRdsLogCollector "eu-central-1" "my-rds-instance" "mysql"

/-- The timestamps passed to `StoreCheckpoint`, in the order of the calls. -/
def storedTimestamps (tr : List Event) : List Int :=
  tr.filterMap (fun e =>
    match e with
    | .StoreCheckpoint checkpoint _ => some checkpoint.LogFileTimestamp
    | _ => none)

/-- What a run of the loop over the collector keeps, for the timestamp it was
started with. -/
def RdsLoopInv {σ : Type} (ts : Int) (w : World σ)
    (run : ProcessResult × List Event × World σ) : Prop :=
  CallsGrow ts w run.2.2 ∧
  (∀ t r, Event.GetLogs t (.returned r) ∈ run.2.1 → r.ok = true → r.logFileTimestamp > ts) ∧
  (storedTimestamps run.2.1).Pairwise (fun x y => x < y) ∧
  ∀ v ∈ storedTimestamps run.2.1, ts < v

/-- Backends for the examples: the readiness check succeeds, the database answers
every `GetCheckpoint` with a record of the given timestamp, and every write and every
`StoreCheckpoint` succeeds. -/
def checkpointBackends (T : Int) : Backends Nat :=
  { ValidateAndPrepareRDSInstance := fun s => (none, s)
    GetCheckpoint := fun id s => (.ok (some { LogFileTimestamp := T, Id := id }), s)
    WriteLogEntry := fun _ s => (none, s)
    StoreCheckpoint := fun _ s => (none, s) }

/-- The value of `currentLogFileTimestamp` with which `Process` enters its loop: the
timestamp of the checkpoint record, or 0 when there is no record. -/
def startTimestamp (checkpointRecord : Option CheckpointRecord) : Int :=
  match checkpointRecord with
  | some r => r.LogFileTimestamp
  | none => 0

/-- The call that writes a record with success. -/
def writeOk (x : LogEntry) : Event := Event.WriteLogEntry x none

/-- The calls of a sequence of completed iterations of the loop of `Process`, the
first of which is entered with the given timestamp. An iteration is given by the
answer of `GetLogs` and the records written: it is the call of `GetLogs` with the
current timestamp, the successful writes of the records in order, and the successful
`StoreCheckpoint` of the timestamp of the answer, which is the current timestamp of
the next iteration. -/
def iterationsTrace (id : String) : Int → List (GetLogsResult × List LogEntry) → List Event
  | _, [] => []
  | w, (r, recs) :: rest =>
    Event.GetLogs w (.returned r) :: recs.map writeOk ++
      [Event.StoreCheckpoint { LogFileTimestamp := r.logFileTimestamp, Id := id } none] ++
      iterationsTrace id r.logFileTimestamp rest

/-- The current timestamp after a sequence of completed iterations. -/
def lastTimestamp : Int → List (GetLogsResult × List LogEntry) → Int
  | w, [] => w
  | _, (r, _) :: rest => lastTimestamp r.logFileTimestamp rest

/-- An iteration that ran to its end: `GetLogs` answered ok without error and with a
reader, and the records written are all the records that `ParseEntries` returned for
that body and timestamp. -/
def CompletedIteration {σ : Type} (c : Collaborators σ)
    (it : GetLogsResult × List LogEntry) : Prop :=
  it.1.ok = true ∧ it.1.err = none ∧
    ∃ body, it.1.reader = some body ∧
      c.ParseEntries body it.1.logFileTimestamp = .ok (it.2.map some)

/-- The ways in which the loop of `Process` ends, entered for the last time with
the current timestamp `w`: the result of the run and the calls of the last
iteration. -/
inductive LastIteration {σ : Type} (c : Collaborators σ) (id : String) (w : Int) :
    ProcessResult → List Event → Prop where
  | outOfFuel : LastIteration c id w none []
  | getLogsPanic : LastIteration c id w (some .panic) [Event.GetLogs w .panic]
  | getLogsError (r : GetLogsResult) (err : String) (herr : r.err = some err) :
      LastIteration c id w (some (.returned (some ("could not start logcollector: " ++ err))))
        [Event.GetLogs w (.returned r)]
  | noMoreLogs (r : GetLogsResult) (herr : r.err = none) (hok : r.ok = false) :
      LastIteration c id w (some (.returned none)) [Event.GetLogs w (.returned r)]
  | nilReader (r : GetLogsResult) (herr : r.err = none) (hok : r.ok = true)
      (hreader : r.reader = none) :
      LastIteration c id w (some .panic) [Event.GetLogs w (.returned r)]
  | parseError (r : GetLogsResult) (body : List Nat) (err : String) (herr : r.err = none)
      (hok : r.ok = true) (hreader : r.reader = some body)
      (hparse : c.ParseEntries body r.logFileTimestamp = .error err) :
      LastIteration c id w (some (.returned (some ("could not parse entries: " ++ err))))
        [Event.GetLogs w (.returned r)]
  | nilEntry (r : GetLogsResult) (body : List Nat) (written : List LogEntry)
      (rest : List (Option LogEntry)) (herr : r.err = none) (hok : r.ok = true)
      (hreader : r.reader = some body)
      (hparse : c.ParseEntries body r.logFileTimestamp =
        .ok (written.map some ++ none :: rest)) :
      LastIteration c id w (some .panic) (Event.GetLogs w (.returned r) :: written.map writeOk)
  | writeFailed (r : GetLogsResult) (body : List Nat) (written : List LogEntry)
      (entry : LogEntry) (rest : List (Option LogEntry)) (err : String)
      (herr : r.err = none) (hok : r.ok = true) (hreader : r.reader = some body)
      (hparse : c.ParseEntries body r.logFileTimestamp =
        .ok (written.map some ++ some entry :: rest)) :
      LastIteration c id w (some (.returned (some ("could not write log entry: " ++ err))))
        (Event.GetLogs w (.returned r) :: written.map writeOk ++
          [Event.WriteLogEntry entry (some err)])
  | storeFailed (r : GetLogsResult) (body : List Nat) (recs : List LogEntry) (err : String)
      (herr : r.err = none) (hok : r.ok = true) (hreader : r.reader = some body)
      (hparse : c.ParseEntries body r.logFileTimestamp = .ok (recs.map some)) :
      LastIteration c id w (some (.returned (some ("could not save marker: " ++ err))))
        (Event.GetLogs w (.returned r) :: recs.map writeOk ++
          [Event.StoreCheckpoint { LogFileTimestamp := r.logFileTimestamp, Id := id }
            (some err)])

/-- The ways in which a run of `Process` goes: the result and the calls made. -/
inductive ProcessRun {σ : Type} (c : Collaborators σ) (rid : String) :
    ProcessResult → List Event → Prop where
  | validateFailed (err : String) :
      ProcessRun c rid (some (.returned (some ("error validating RDS instance: " ++ err))))
        [Event.ValidateAndPrepareRDSInstance (some err)]
  | getCheckpointFailed (err : String) :
      ProcessRun c rid (some (.returned (some ("could not get marker: " ++ err))))
        [Event.ValidateAndPrepareRDSInstance none,
         Event.GetCheckpoint (rid ++ ":" ++ "audit") (.error err)]
  | loop (ck : Option CheckpointRecord) (its : List (GetLogsResult × List LogEntry))
      (res : ProcessResult) (last : List Event)
      (hits : ∀ it ∈ its, CompletedIteration c it)
      (hlast : LastIteration c (rid ++ ":" ++ "audit")
        (lastTimestamp (startTimestamp ck) its) res last) :
      ProcessRun c rid res
        (Event.ValidateAndPrepareRDSInstance none ::
          Event.GetCheckpoint (rid ++ ":" ++ "audit") (.ok ck) ::
          (iterationsTrace (rid ++ ":" ++ "audit") (startTimestamp ck) its ++ last))

/-- The answers of the calls of `GetLogs` in a run, in the order of the calls. -/
def getLogsAnswers (tr : List Event) : List (Outcome GetLogsResult) :=
  tr.filterMap (fun e =>
    match e with
    | .GetLogs _ res => some res
    | _ => none)

/-- No call in the list is a write that failed. -/
def NoFailedWrite (tr : List Event) : Prop :=
  ∀ e ∈ tr, ∀ x err, e ≠ Event.WriteLogEntry x (some err)

/-- Collaborators for the examples, over a state that counts the calls of `GetLogs`:
the readiness check succeeds, `GetCheckpoint` answers with the given record,
`GetLogs` gives the answers of the script one after the other and then
`(nil, false, 0, nil)`, the parser is `AuditLogParser` in UTC, the writer fails on the
records that `failWrite` marks, and `StoreCheckpoint` succeeds. -/
def scriptedCollaborators (checkpoint : Option CheckpointRecord) (script : List GetLogsResult)
    (failWrite : LogEntry → Bool) : Collaborators Nat :=
  { ValidateAndPrepareRDSInstance := fun s => (none, s)
    GetCheckpoint := fun _ s => (.ok checkpoint, s)
    GetLogs := fun _ n =>
      (.returned (script.getD n { reader := none, ok := false, logFileTimestamp := 0,
                                  err := none }), n + 1)
    ParseEntries := ParseEntries UTC
    WriteLogEntry := fun e s => (if failWrite e then some "upload failed" else none, s)
    StoreCheckpoint := fun _ s => (none, s) }

/-- The script of two files for the examples: a first file with one line in hour 7 and
one in hour 8 and timestamp 2, a second file with one line in hour 9 and timestamp 3. -/
def twoFiles : List GetLogsResult :=
  [{ reader := some (ascii "1594710325000000,a\n1594713926000000,c"), ok := true,
     logFileTimestamp := 2, err := none },
   { reader := some (ascii "1594717527000000,e"), ok := true, logFileTimestamp := 3,
     err := none }]

/-- The answer of `GetLogs` for a file with the given body and timestamp: a reader of
the body, ok = true, the timestamp, no error. -/
def fileResult (f : List Nat × Int) : GetLogsResult :=
  { reader := some f.1, ok := true, logFileTimestamp := f.2, err := none }

/-- The bodies and timestamps of the two files of `twoFiles`. -/
def twoBodies : List (List Nat × Int) :=
  [(ascii "1594710325000000,a\n1594713926000000,c", 2), (ascii "1594717527000000,e", 3)]

/-- The answer `(nil, false, 0, nil)` of `GetLogs`: no more logs. -/
def noMoreLogs : GetLogsResult :=
  { reader := none, ok := false, logFileTimestamp := 0, err := none }

/-- A script of three files for the examples: a file with one line in hour 7 and
timestamp 2, a file with one line in each of the hours 8, 9 and 10 and timestamp 3, a
file with one line in hour 11 and timestamp 4. -/
def threeFiles : List GetLogsResult :=
  [fileResult (ascii "1594710325000000,a", 2),
   fileResult (ascii "1594713926000000,c\n1594717527000000,e\n1594721128000000,g", 3),
   fileResult (ascii "1594724729000000,i", 4)]

/-- The non-empty lines of a file: the non-empty pieces between the newline bytes, in
order. -/
def nonEmptyLines (data : List Nat) : List (List Nat) :=
  (splitOn 10 data).filter (fun l => decide (l ≠ []))

/-- The file with all empty lines removed: its non-empty lines, separated by one
newline byte. -/
def removeEmptyLines (data : List Nat) : List Nat :=
  List.intercalate [10] (nonEmptyLines data)

/-- The remote side of the tests `TestGetLogsZeroTimestamp` and
`TestGetLogsWithTimestamp`: every listing is the same, in one page, and a download is
answered with status 200 and a body of one line for the two rotated files and with
status 404 for any other path. -/
def stableClients : RdsClients Nat :=
  { DescribeDBLogFilesPages := fun _ n => (([listingBeforeRotation], none), n + 1)
    Do := fun _ path n =>
      (.ok { StatusCode :=
               if path = "/v13/downloadCompleteLogFile/my-rds-instance/audit/server_audit.log.2" ∨
                  path = "/v13/downloadCompleteLogFile/my-rds-instance/audit/server_audit.log.1"
               then 200 else 404
             Body := fun s => ({ data := ascii "1594710325000000,a\n", err := none }, s) }, n) }

/-- A remote side whose listing never has a file of the audit log: every listing is
one page with the error log only. -/
def noAuditClients : RdsClients Nat :=
  { DescribeDBLogFilesPages := fun _ n =>
      (([[{ LastWritten := 1595262600000, LogFileName := "error/mysql-error.log", Size := 0 }]],
        none), n + 1)
    Do := fun _ _ n =>
      (.ok { StatusCode := 200
             Body := fun s => ({ data := [], err := none }, s) }, n) }

/-- Whether a call is the entry into `downloadLogFile`: one download attempt. -/
def RdsCall.isDownload : RdsCall → Bool
  | .downloadLogFile _ => true
  | _ => false

/-- Whether a call is a listing call. -/
def RdsCall.isListing : RdsCall → Bool
  | .DescribeDBLogFilesPages _ => true
  | _ => false

/-- Whether a call is a pause before a retry. -/
def RdsCall.isSleep : RdsCall → Bool
  | .Sleep _ => true
  | _ => false

/-- What a run of `getLogs` with the given number of retries spends: the calls it adds
hold at most `retries + 1` download attempts, at most `2 * (maxRetries + 1)` listing
calls per download attempt, and at most `retries` pauses. -/
def WithinBudget {σ : Type} (retries : Nat) (w w' : World σ) : Prop :=
  ∃ new, w'.calls = w.calls ++ new ∧
    new.countP RdsCall.isDownload ≤ retries + 1 ∧
    new.countP RdsCall.isListing ≤ 2 * (maxRetries + 1) * (retries + 1) ∧
    new.countP RdsCall.isSleep ≤ retries

/-- A remote side on which every download attempt of one `GetLogs` fails. The state
counts the listings answered. Each of the first six listings names another rotated
file, so that the first three attempts see a rotation; the later listings all name
the same file, and the reading of every body fails. -/
def failingClients : RdsClients Nat :=
  { DescribeDBLogFilesPages := fun _ n =>
      (([[{ LastWritten := 1595259824000,
            LogFileName := "audit/server_audit.log." ++ toString (min n 6), Size := 1 }]],
        none), n + 1)
    Do := fun _ _ n =>
      (.ok { StatusCode := 200
             Body := fun s => ({ data := ascii "1594710325000000,a\n",
                                 err := some "unexpected EOF" }, s) }, n) }

/-- The shape of what `getLogs` returns: either bytes with ok = true and no error, or
no bytes with ok = false and the timestamp 0. -/
def ResultShape (r : GetLogsResult) : Prop :=
  (r.ok = true ∧ r.err = none ∧ ∃ data, r.reader = some data) ∨
  (r.ok = false ∧ r.reader = none ∧ r.logFileTimestamp = 0)

/-- The `LogFile` that the callback of `getLogFiles` builds from an entry of the
listing: name, size and `LastWritten` are taken over. -/
def toLogFile (lf : DescribeDBLogFilesDetails) : LogFile :=
  { LastWritten := lf.LastWritten, LastWrittenTime := lf.LastWritten.tdiv 1000,
    LogFileName := lf.LogFileName, Size := lf.Size, Path := "" }

/-- The test `strings.HasPrefix(name, c.logFile)` of `getLogFiles`. -/
def hasLogFilePrefix (c : RdsLogCollector) (name : String) : Bool :=
  c.logFile.toList.isPrefixOf name.toList

/-- The world after the given number of list-and-filter attempts of `getLogFiles`, made
one after the other. -/
def attemptWorld {σ : Type} (cl : RdsClients σ) (c : RdsLogCollector) :
    Nat → World σ → World σ
  | 0, w => w
  | n + 1, w => attemptWorld cl c n (listAndFilter cl c w).2

/-- The listing of the test `TestGetLogFiles`: three files of the audit log and four
other files. -/
def mixedListing : List DescribeDBLogFilesDetails :=
  [{ LastWritten := 1595262837000, LogFileName := "audit/server_audit.log", Size := 901862 },
   { LastWritten := 1595259824000, LogFileName := "audit/server_audit.log.1", Size := 1000159 },
   { LastWritten := 1595256406000, LogFileName := "audit/server_audit.log.2", Size := 1000011 },
   { LastWritten := 1595261400000, LogFileName := "error/mysql-error-running.log", Size := 228 },
   { LastWritten := 1595236200000, LogFileName := "error/mysql-error-running.log.10",
     Size := 227 },
   { LastWritten := 1595262600000, LogFileName := "error/mysql-error.log", Size := 0 },
   { LastWritten := 1594656137000, LogFileName := "mysqlUpgrade", Size := 3337 }]

/-- The remote side of the test `TestGetLogFiles`: every listing is `mixedListing` in
one page. -/
def mixedClients : RdsClients Nat :=
  { DescribeDBLogFilesPages := fun _ n => (([mixedListing], none), n + 1)
    Do := fun _ _ n => (.error "no download", n) }

/-- The remote side of the test `TestGetLogFilesWithRetry`: the first listing is empty,
every later one has the active file and one rotated file, each in one page. -/
def retryClients : RdsClients Nat :=
  { DescribeDBLogFilesPages := fun _ n =>
      (([if n = 0 then [] else listingBeforeRotation.take 2], none), n + 1)
    Do := fun _ _ n => (.error "no download", n) }

/-- A remote side that delivers the listing of the tests in two pages: the active file
and the newer rotated file in the first page, the older rotated file in the second. -/
def pagedClients : RdsClients Nat :=
  { DescribeDBLogFilesPages := fun _ n =>
      (([listingBeforeRotation.take 2, listingBeforeRotation.drop 2], none), n + 1)
    Do := fun _ _ n =>
      (.ok { StatusCode := 200
             Body := fun s => ({ data := ascii "1594710325000000,a\n", err := none }, s) }, n) }

/-- A log file with the given name, for the examples. -/
def fileNamed (name : String) : LogFile :=
  { Size := 0, LogFileName := name, LastWritten := 0, LastWrittenTime := 0, Path := "" }

/-- Collaborators whose readiness check fails; the others are those of the examples. -/
def unreadyCollaborators : Collaborators Nat :=
  { scriptedCollaborators none twoFiles (fun _ => false) with
    ValidateAndPrepareRDSInstance := fun s => (some "could not find db instance: db", s + 1) }

/-- A remote side from which the rotated files vanish: the first listing is the one of
the tests, every later listing has the active file only. Every download is answered
with status 200 and a body of one line. -/
def vanishingClients : RdsClients Nat :=
  { DescribeDBLogFilesPages := fun _ n =>
      (([if n = 0 then listingBeforeRotation else listingBeforeRotation.take 1], none), n + 1)
    Do := fun _ _ n =>
      (.ok { StatusCode := 200
             Body := fun s => ({ data := ascii "1594710325000000,a\n", err := none }, s) }, n) }

/-- The decimal numeral of a number with zeros in front up to the given width, which
is what `{n:0w}` denotes: for a number that is not negative the digits with zeros in
front up to `width` digits; for a negative number the sign counts in the width. -/
def zeroPadded (width : Nat) (n : Int) : String :=
  if 0 ≤ n then
    String.mk (List.replicate (width - (toString n.toNat).length) '0') ++ toString n.toNat
  else
    "-" ++ (String.mk (List.replicate (width - 1 - (toString n.natAbs).length) '0') ++
      toString n.natAbs)

/-- The key of a record as the spec gives it:
`{s3Prefix}/year={Y:04}/month={M:02}/day={D:02}/hour={H:02}/{logFileTimestamp}.log`. -/
def keyOfRecord (s3Prefix : String) (ts : LogEntryTimestamp) (logFileTimestamp : Int) : String :=
  s3Prefix ++ "/year=" ++ zeroPadded 4 ts.Year ++ "/month=" ++ zeroPadded 2 ts.Month ++
    "/day=" ++ zeroPadded 2 ts.Day ++ "/hour=" ++ zeroPadded 2 ts.Hour ++ "/" ++
    toString logFileTimestamp ++ ".log"

/-- The writer of the test `TestWriteLogEntry`. -/
def testWriter : s3Writer :=
  { bucketName := "my-bucket", s3Prefix := "my-rds-instance/audit-logs" }

/-- An uploader for the examples, over the list of the inputs uploaded so far: the
upload fails when the body is empty and succeeds otherwise. -/
def recordingUploader (input : UploadInput) (st : List UploadInput) :
    Option String × List UploadInput :=
  (if input.Body = [] then some "empty body" else none, st ++ [input])

/-- The number that a text of decimal digit characters denotes. -/
def charsValue (l : List Char) : Nat :=
  l.foldl (fun v ch => v * 10 + (ch.toNat - 48)) 0

/-- The lines of each bucket are consecutive: once the run of a bucket has ended, that
bucket does not come again in the list. -/
def ContiguousRuns : List LogEntryTimestamp → Prop
  | [] => True
  | a :: l => a ∉ l.dropWhile (fun b => decide (b = a)) ∧ ContiguousRuns l

instance : DecidablePred ContiguousRuns := fun l => by
  induction l with
  | nil => exact isTrue trivial
  | cons a l ih =>
    unfold ContiguousRuns
    exact @instDecidableAnd _ _ inferInstance ih

/-- A file of three lines whose timestamps fall in the hours 7, 8 and 7 of 2020-07-14
(UTC): the third line is older than the second. -/
def unorderedLines : List Nat :=
  ascii "1594710325000000,a\n1594713926000000,c\n1594710326000000,b\n"

/-- The files handed to `downloadLogFile`, in the order of the calls. -/
def downloadedFiles (calls : List RdsCall) : List LogFile :=
  calls.filterMap (fun x =>
    match x with
    | .downloadLogFile f => some f
    | _ => none)

/-- The files that `getLogFiles` takes from a listing of one page: the entries with the
prefix of the audit log, as `LogFile` values, in the order of the listing. -/
def catalogFiles (c : RdsLogCollector) (page : List DescribeDBLogFilesDetails) : List LogFile :=
  (page.map toLogFile).filter (fun lf => hasLogFilePrefix c lf.LogFileName)

/-- The files of a catalog that are rotated and have `LastWritten` greater than the
timestamp, in the order in which `findLogFileNewerThanTimestamp` sorts them: by
ascending `LastWritten`. -/
def filesToProcess (c : RdsLogCollector) (page : List DescribeDBLogFilesDetails) (T : Int) :
    List LogFile :=
  (sortSliceStable (catalogFiles c page)).filter (qualifies T)

/-- Every download of the file succeeds: whatever the state of the remote side, the GET
request for the path of the file is answered with status 200, the reading of the body
gives no error, and `ParseEntries` gives records for the body and the `LastWritten` of
the file, without error and without a nil pointer. -/
def DownloadSucceeds {σ : Type} (cl : RdsClients σ) (c : RdsLogCollector) (loc : Int → Int)
    (f : LogFile) : Prop :=
  ∀ st : σ, ∃ resp : Response σ,
    (cl.Do ("https://rds." ++ c.region ++ ".amazonaws.com")
      ("/v13/downloadCompleteLogFile/" ++ c.instanceIdentifier ++ "/" ++ f.LogFileName)
      st).1 = .ok resp ∧
    resp.StatusCode = 200 ∧
    ∀ st2 : σ, (resp.Body st2).1.err = none ∧
      ∃ recs : List LogEntry,
        ParseEntries loc (resp.Body st2).1.data f.LastWritten = .ok (recs.map some)

/-- A remote side with two rotated files of the same `LastWritten`: every listing is one
page with the active file and the two rotated files, and every download is answered
with status 200 and a body of one line. -/
def tiedClients : RdsClients Nat :=
  { DescribeDBLogFilesPages := fun _ n =>
      (([[{ LastWritten := 1595262837000, LogFileName := "audit/server_audit.log",
            Size := 901862 },
          { LastWritten := 1595259824000, LogFileName := "audit/server_audit.log.1",
            Size := 1000159 },
          { LastWritten := 1595259824000, LogFileName := "audit/server_audit.log.2",
            Size := 1000011 }]], none), n + 1)
    Do := fun _ _ n =>
      (.ok { StatusCode := 200
             Body := fun s => ({ data := ascii "1594710325000000,a\n", err := none }, s) }, n) }

/-! # Theorems -/

/-! ## Selection of the next log file -/

theorem find_insertByLastWritten (q : LogFile → Bool) (a : LogFile) :
    ∀ s : List LogFile, s.Pairwise (fun x y => x.LastWritten ≤ y.LastWritten) →
      (insertByLastWritten a s).find? q =
        if q a then
          (match s.find? q with
           | some g => if g.LastWritten < a.LastWritten then some g else some a
           | none => some a)
        else s.find? q
  | [], _ => by cases h : q a <;> simp [insertByLastWritten, List.find?, h]
  | b :: t, hs => by
    have hbt := (List.pairwise_cons.mp hs).1
    have ih := find_insertByLastWritten q a t (List.pairwise_cons.mp hs).2
    by_cases hba : b.LastWritten < a.LastWritten
    · simp only [insertByLastWritten, hba, if_true, List.find?_cons]
      cases hqb : q b
      · simp only [ih]
      · cases hqa : q a <;> simp [hba]
    · simp only [insertByLastWritten, hba, if_false, List.find?_cons]
      cases hqa : q a
      · simp
      · simp only [if_true]
        cases hqb : q b
        · simp only
          cases hf : t.find? q with
          | none => rfl
          | some g =>
            have hg : g ∈ t := List.mem_of_find?_eq_some hf
            have := hbt g hg
            have : ¬ g.LastWritten < a.LastWritten := by omega
            simp [this]
        · simp [hba]

theorem pairwise_insertByLastWritten (a : LogFile) :
    ∀ s : List LogFile, s.Pairwise (fun x y => x.LastWritten ≤ y.LastWritten) →
      (insertByLastWritten a s).Pairwise (fun x y => x.LastWritten ≤ y.LastWritten)
  | [], _ => by simp [insertByLastWritten]
  | b :: t, hs => by
    have hbt := (List.pairwise_cons.mp hs).1
    have ih := pairwise_insertByLastWritten a t (List.pairwise_cons.mp hs).2
    by_cases hba : b.LastWritten < a.LastWritten
    · simp only [insertByLastWritten, hba, if_true]
      refine List.pairwise_cons.mpr ⟨?_, ih⟩
      intro x hx
      have hmem : ∀ s : List LogFile, x ∈ insertByLastWritten a s → x = a ∨ x ∈ s := by
        intro s
        induction s with
        | nil => simp [insertByLastWritten]
        | cons c s ihs =>
          simp only [insertByLastWritten]
          split
          · intro h
            rcases List.mem_cons.mp h with h | h
            · exact Or.inr (h ▸ List.mem_cons_self _ _)
            · rcases ihs h with h | h
              · exact Or.inl h
              · exact Or.inr (List.mem_cons_of_mem _ h)
          · intro h
            rcases List.mem_cons.mp h with h | h
            · exact Or.inl h
            · exact Or.inr h
      rcases hmem t hx with h | h
      · subst h; omega
      · exact hbt x h
    · simp only [insertByLastWritten, hba, if_false]
      refine List.pairwise_cons.mpr ⟨?_, hs⟩
      intro x hx
      rcases List.mem_cons.mp hx with h | h
      · subst h; omega
      · have := hbt x h; omega

theorem pairwise_sortSliceStable :
    ∀ l : List LogFile,
      (sortSliceStable l).Pairwise (fun x y => x.LastWritten ≤ y.LastWritten)
  | [] => by simp [sortSliceStable]
  | a :: l => pairwise_insertByLastWritten a _ (pairwise_sortSliceStable l)

/-- The file found in the sorted list, by recursion over the given list. -/
theorem find_sortSliceStable_cons (q : LogFile → Bool) (a : LogFile) (l : List LogFile) :
    (sortSliceStable (a :: l)).find? q =
      if q a then
        (match (sortSliceStable l).find? q with
         | some g => if g.LastWritten < a.LastWritten then some g else some a
         | none => some a)
      else (sortSliceStable l).find? q :=
  find_insertByLastWritten q a _ (pairwise_sortSliceStable l)

theorem qualifies_iff (w : Int) (f : LogFile) :
    qualifies w f = true ↔ f.IsRotatedFile = true ∧ f.LastWritten > w := by
  simp [qualifies, and_comm]

theorem selectSpec_find (w : Int) :
    ∀ l : List LogFile, SelectSpec w l ((sortSliceStable l).find? (qualifies w))
  | [] => by simp [SelectSpec, sortSliceStable]
  | a :: l => by
    have ih := selectSpec_find w l
    rw [find_sortSliceStable_cons]
    obtain ⟨ihn, ihs⟩ := ih
    cases hqa : qualifies w a
    · -- a does not qualify
      have hna : ¬ (a.IsRotatedFile = true ∧ a.LastWritten > w) := by
        rw [← qualifies_iff]; simp [hqa]
      simp only [Bool.false_eq_true, if_false]
      refine ⟨?_, ?_⟩
      · rw [ihn]
        constructor
        · intro h f hf
          rcases List.mem_cons.mp hf with h1 | h1
          · subst h1; exact hna
          · exact h f h1
        · intro h f hf
          exact h f (List.mem_cons_of_mem _ hf)
      · intro f hf
        obtain ⟨h1, h2, h3, pre, post, h4, h5⟩ := ihs f hf
        refine ⟨h1, h2, ?_, a :: pre, post, by simp [h4], ?_⟩
        · intro g hg hr hw
          rcases List.mem_cons.mp hg with h | h
          · subst h; exact absurd ⟨hr, hw⟩ hna
          · exact h3 g h hr hw
        · intro g hg
          rcases List.mem_cons.mp hg with h | h
          · subst h; exact fun h => hna ⟨h.1, h.2.1⟩
          · exact h5 g h
    · have ha := (qualifies_iff w a).mp hqa
      simp only [if_true]
      cases hf : (sortSliceStable l).find? (qualifies w) with
      | none =>
        have hnone := ihn.mp hf
        refine ⟨⟨fun h => Option.noConfusion h, fun h => absurd ha (h a (List.mem_cons_self _ _))⟩, ?_⟩
        intro f hfe
        simp only [Option.some.injEq] at hfe
        subst hfe
        refine ⟨ha.1, ha.2, ?_, [], l, rfl, by simp⟩
        intro g hg hr hw
        rcases List.mem_cons.mp hg with h | h
        · subst h; exact le_refl _
        · exact absurd ⟨hr, hw⟩ (hnone g h)
      | some g =>
        obtain ⟨h1, h2, h3, pre, post, h4, h5⟩ := ihs g hf
        by_cases hlt : g.LastWritten < a.LastWritten
        · simp only [hlt, if_true]
          refine ⟨⟨fun h => Option.noConfusion h, fun h => absurd ha (h a (List.mem_cons_self _ _))⟩, ?_⟩
          intro f hfe
          simp only [Option.some.injEq] at hfe
          subst hfe
          refine ⟨h1, h2, ?_, a :: pre, post, by simp [h4], ?_⟩
          · intro x hx hr hw
            rcases List.mem_cons.mp hx with h | h
            · subst h; omega
            · exact h3 x h hr hw
          · intro x hx
            rcases List.mem_cons.mp hx with h | h
            · subst h; intro h; omega
            · exact h5 x h
        · simp only [hlt, if_false]
          refine ⟨⟨fun h => Option.noConfusion h, fun h => absurd ha (h a (List.mem_cons_self _ _))⟩, ?_⟩
          intro f hfe
          simp only [Option.some.injEq] at hfe
          subst hfe
          refine ⟨ha.1, ha.2, ?_, [], l, rfl, by simp⟩
          intro x hx hr hw
          rcases List.mem_cons.mp hx with h | h
          · subst h; exact le_refl _
          · have := h3 x h hr hw; omega

/-- C1. `findLogFileNewerThanTimestamp` never returns an error. It returns no file
exactly when no file of the list is rotated and has `LastWritten` above the
watermark; otherwise it returns a file of the list that is rotated, has
`LastWritten` above the watermark and has the least `LastWritten` among the files
that are so, and no such file with the same `LastWritten` stands before it in the
given list. -/
theorem findLogFileNewerThanTimestamp_selects (logFiles : List LogFile) (w : Int) :
    ∃ r : Option LogFile,
      findLogFileNewerThanTimestamp logFiles w = .ok r ∧
      (r = none ↔ ∀ f ∈ logFiles, ¬ (f.IsRotatedFile = true ∧ f.LastWritten > w)) ∧
      ∀ f, r = some f →
        f.IsRotatedFile = true ∧ f.LastWritten > w ∧
        (∀ g ∈ logFiles, g.IsRotatedFile = true → g.LastWritten > w →
          f.LastWritten ≤ g.LastWritten) ∧
        ∃ pre post, logFiles = pre ++ f :: post ∧
          ∀ g ∈ pre, ¬ (g.IsRotatedFile = true ∧ g.LastWritten > w ∧
            g.LastWritten = f.LastWritten) :=
  ⟨_, rfl, selectSpec_find w logFiles⟩

/-! ## The calendar -/

theorem isLeap_iff (y : Int) :
    isLeap y = true ↔ (y % 4 = 0 ∧ (y % 100 ≠ 0 ∨ y % 400 = 0)) := by
  simp [isLeap]

theorem absDate_arith (d0 n400 d n100 m100 d1 n4 d2 n m : Int)
    (h1 : n400 = d0 / 146097) (h2 : d = d0 % 146097) (h3 : n100 = d / 36524)
    (h4 : m100 = n100 - n100 / 4) (h5 : d1 = d - 36524 * m100) (h6 : n4 = d1 / 1461)
    (h7 : d2 = d1 - 1461 * n4) (h8 : n = d2 / 365) (h9 : m = n - n / 4) :
    0 ≤ d2 - 365 * m ∧ d2 - 365 * m ≤ 365 ∧
      (d2 - 365 * m = 365 →
        ((1 + 400 * n400 + 100 * m100 + 4 * n4 + m) % 4 = 0 ∧
          ((1 + 400 * n400 + 100 * m100 + 4 * n4 + m) % 100 ≠ 0 ∨
            (1 + 400 * n400 + 100 * m100 + 4 * n4 + m) % 400 = 0))) := by
  have hd : 0 ≤ d ∧ d < 146097 := by omega
  have c100 : n100 = 0 ∨ n100 = 1 ∨ n100 = 2 ∨ n100 = 3 ∨ n100 = 4 := by omega
  have hd1 : 0 ≤ d1 ∧ d1 ≤ 36524 := by
    rcases c100 with h | h | h | h | h <;> subst h <;> omega
  have hd2 : 0 ≤ d2 ∧ d2 ≤ 1460 := by omega
  have cn : n = 0 ∨ n = 1 ∨ n = 2 ∨ n = 3 ∨ n = 4 := by omega
  have hn4 : 0 ≤ n4 ∧ n4 ≤ 24 := by omega
  rcases c100 with h | h | h | h | h <;> rcases cn with g | g | g | g | g <;>
    subst h <;> subst g <;> omega

theorem absDate_yday (days : Int) :
    0 ≤ (absDate days).2 ∧ (absDate days).2 ≤ 365 ∧
      ((absDate days).2 = 365 → isLeap (absDate days).1 = true) := by
  rw [isLeap_iff]
  exact absDate_arith _ _ _ _ _ _ _ _ _ _ rfl rfl rfl rfl rfl rfl rfl rfl rfl


theorem monthDay_valid (day : Int) (hd0 : 0 ≤ day) (hd1 : day ≤ 364) :
    let r : Int × Int :=
      if day ≥ daysBefore (day / 31 + 1) then (day / 31 + 2, day - daysBefore (day / 31 + 1) + 1)
      else (day / 31 + 1, day - daysBefore (day / 31) + 1)
    1 ≤ r.1 ∧ r.1 ≤ 12 ∧ 1 ≤ r.2 ∧
      r.2 ≤ (if r.1 = 2 then 28
        else if r.1 = 4 ∨ r.1 = 6 ∨ r.1 = 9 ∨ r.1 = 11 then 30 else 31) ∧
      (59 ≤ day → r.1 ≠ 2) := by
  have hm : day / 31 = 0 ∨ day / 31 = 1 ∨ day / 31 = 2 ∨ day / 31 = 3 ∨ day / 31 = 4 ∨
      day / 31 = 5 ∨ day / 31 = 6 ∨ day / 31 = 7 ∨ day / 31 = 8 ∨ day / 31 = 9 ∨
      day / 31 = 10 ∨ day / 31 = 11 := by omega
  rcases hm with h | h | h | h | h | h | h | h | h | h | h | h <;>
    simp only [h, daysBefore] <;> norm_num <;> split <;> simp <;> omega

theorem daysIn_ge (m y : Int) :
    (if m = 2 then (28 : Int)
      else if m = 4 ∨ m = 6 ∨ m = 9 ∨ m = 11 then 30 else 31) ≤ daysIn m y := by
  unfold daysIn
  split
  · split <;> omega
  · exact le_refl _

theorem dateOfYday_valid (year yday : Int) (h0 : 0 ≤ yday) (h1 : yday ≤ 365)
    (h2 : yday = 365 → isLeap year = true) :
    1 ≤ (dateOfYday year yday).1 ∧ (dateOfYday year yday).1 ≤ 12 ∧
      1 ≤ (dateOfYday year yday).2 ∧
      (dateOfYday year yday).2 ≤ daysIn (dateOfYday year yday).1 year := by
  unfold dateOfYday
  by_cases hl : isLeap year = true
  · by_cases h59 : yday = 31 + 29 - 1
    · simp [hl, h59, daysIn]
    · by_cases hgt : yday > 31 + 29 - 1
      · simp only [hl, h59, hgt, and_false, and_self, if_false, if_true]
        have := monthDay_valid (yday - 1) (by omega) (by omega)
        obtain ⟨a, b, c, d, _⟩ := this
        exact ⟨a, b, c, le_trans d (daysIn_ge _ _)⟩
      · simp only [hl, h59, hgt, and_false, if_false]
        have := monthDay_valid yday (by omega) (by omega)
        obtain ⟨a, b, c, d, _⟩ := this
        exact ⟨a, b, c, le_trans d (daysIn_ge _ _)⟩
  · have hy : yday ≤ 364 := by
      by_contra hc
      exact hl (h2 (by omega))
    simp only [hl, false_and, if_false]
    have := monthDay_valid yday (by omega) (by omega)
    obtain ⟨a, b, c, d, _⟩ := this
    exact ⟨a, b, c, le_trans d (daysIn_ge _ _)⟩

theorem Unix_valid (loc : Int → Int) (sec : Int) :
    1 ≤ (Unix loc sec).Month ∧ (Unix loc sec).Month ≤ 12 ∧
      1 ≤ (Unix loc sec).Day ∧ (Unix loc sec).Day ≤ daysIn (Unix loc sec).Month (Unix loc sec).Year ∧
      0 ≤ (Unix loc sec).Hour ∧ (Unix loc sec).Hour < 24 ∧
      0 ≤ (Unix loc sec).Minute ∧ (Unix loc sec).Minute < 60 ∧
      0 ≤ (Unix loc sec).Second ∧ (Unix loc sec).Second < 60 := by
  obtain ⟨h0, h1, h2⟩ := absDate_yday ((sec + loc sec) / 86400)
  obtain ⟨a, b, c, d⟩ := dateOfYday_valid _ _ h0 h1 h2
  refine ⟨a, b, c, d, ?_⟩
  simp only [Unix]
  omega

/-! ## Format and Parse -/

theorem isDigitByte_iff (b : Nat) : isDigitByte b = true ↔ 48 ≤ b ∧ b ≤ 57 := by
  simp [isDigitByte]

theorem isDigitByte_add (a : Nat) (ha : a < 10) : isDigitByte (48 + a) = true := by
  rw [isDigitByte_iff]; omega

theorem getnum_two (a b : Nat) (ha : a < 10) (hb : b < 10) (rest : List Nat) (f : Bool) :
    getnum ((48 + a) :: (48 + b) :: rest) f = .ok (((a * 10 + b : Nat) : Int), rest) := by
  simp [getnum, isDigitByte_add a ha, isDigitByte_add b hb]

theorem Parse_Format (t : Time)
    (hy : 0 ≤ t.Year ∧ t.Year ≤ 9999) (hm : 1 ≤ t.Month ∧ t.Month ≤ 12)
    (hd : 1 ≤ t.Day ∧ t.Day ≤ daysIn t.Month t.Year)
    (hh : 0 ≤ t.Hour ∧ t.Hour < 24) (hmin : 0 ≤ t.Minute ∧ t.Minute < 60)
    (hs : 0 ≤ t.Second ∧ t.Second < 60) :
    Parse t.Format = .ok t := by
  obtain ⟨y, mo, d, h, mi, s⟩ := t
  simp only at hy hm hd hh hmin hs
  have hd31 : d ≤ 31 := by
    have : daysIn mo y ≤ 31 := by
      unfold daysIn; split
      · split <;> omega
      · split <;> omega
    omega
  obtain ⟨y, rfl⟩ := Int.eq_ofNat_of_zero_le hy.1
  obtain ⟨mo, rfl⟩ := Int.eq_ofNat_of_zero_le (le_trans (by decide) hm.1)
  obtain ⟨d, rfl⟩ := Int.eq_ofNat_of_zero_le (le_trans (by decide) hd.1)
  obtain ⟨h, rfl⟩ := Int.eq_ofNat_of_zero_le hh.1
  obtain ⟨mi, rfl⟩ := Int.eq_ofNat_of_zero_le hmin.1
  obtain ⟨s, rfl⟩ := Int.eq_ofNat_of_zero_le hs.1
  have e4 : appendInt (y : Int) 4 =
      [48 + y / 1000, 48 + y / 100 % 10, 48 + y / 10 % 10, 48 + y % 10] := by
    have : y < 10000 := by omega
    simp [appendInt, this]
  have e2 : ∀ n : Nat, n < 100 → appendInt (n : Int) 2 = [48 + n / 10, 48 + n % 10] := by
    intro n hn
    simp [appendInt, hn]
  simp only [Time.Format, e4, e2 mo (by omega), e2 d (by omega), e2 h (by omega),
    e2 mi (by omega), e2 s (by omega)]
  have hat : atoi [48 + y / 1000, 48 + y / 100 % 10, 48 + y / 10 % 10, 48 + y % 10]
      = .ok (y : Int) := by
    have a1 := isDigitByte_add (y / 1000) (by omega)
    have a2 := isDigitByte_add (y / 100 % 10) (by omega)
    have a3 := isDigitByte_add (y / 10 % 10) (by omega)
    have a4 := isDigitByte_add (y % 10) (by omega)
    simp only [atoi, List.all_cons, List.all_nil, a1, a2, a3, a4, Bool.and_self, if_true,
      List.foldl_cons, List.foldl_nil]
    congr 1
    norm_cast
    omega
  simp only [List.cons_append, List.nil_append, List.append_assoc]
  have hskip32 : ∀ (b : Nat) (rest : List Nat), b < 10 →
      skip (32 :: (48 + b) :: rest) 32 = .ok ((48 + b) :: rest) := by
    intro b rest hb
    have : ¬ (48 + b = 32) := by omega
    simp [skip, List.dropWhile, this]
  have hskip58 : ∀ (rest : List Nat), skip (58 :: rest) 58 = .ok rest := by
    intro rest
    simp [skip]
  have hlen : ¬ ((17 : Nat) < 4) := by decide
  unfold Parse
  simp only [List.length_cons, List.length_nil, List.headD_cons,
    isDigitByte_add (y / 1000) (by omega), List.take_succ_cons, List.take_zero,
    List.drop_succ_cons, List.drop_zero, hat,
    getnum_two (mo / 10) (mo % 10) (by omega) (by omega),
    getnum_two (d / 10) (d % 10) (by omega) (by omega),
    getnum_two (h / 10) (h % 10) (by omega) (by omega),
    getnum_two (mi / 10) (mi % 10) (by omega) (by omega),
    getnum_two (s / 10) (s % 10) (by omega) (by omega),
    hskip32 (h / 10) _ (by omega), hskip58]
  have q1 : mo / 10 * 10 + mo % 10 = mo := by omega
  have q2 : d / 10 * 10 + d % 10 = d := by omega
  have q3 : h / 10 * 10 + h % 10 = h := by omega
  have q4 : mi / 10 * 10 + mi % 10 = mi := by omega
  have q5 : s / 10 * 10 + s % 10 = s := by omega
  have r1 : ¬ ((mo : Int) ≤ 0 ∨ 12 < (mo : Int)) := by omega
  have r2 : ¬ ((h : Int) < 0 ∨ 24 ≤ (h : Int)) := by omega
  have r3 : ¬ ((mi : Int) < 0 ∨ 60 ≤ (mi : Int)) := by omega
  have r4 : ¬ ((s : Int) < 0 ∨ 60 ≤ (s : Int)) := by omega
  have r5 : ¬ ((d : Int) < 1 ∨ (d : Int) > daysIn mo y) := by omega
  simp only [q1, q2, q3, q4, q5, if_neg r1, if_neg r2, if_neg r3, if_neg r4, if_neg r5, ne_eq,
    not_true_eq_false, if_false]
  simp


/-- The error of `Parse` on the text that `Format` writes for the first second of
the year 10000: the year is read from the first four digits, the month from the
next two, which are zeros. -/
theorem Parse_year_10000 :
    (Unix UTC 253402300800).Format = ascii "100000101 00:00:00" ∧
    (Parse (ascii "100000101 00:00:00")).mapError ParseError.Error =
      .error "parsing time \"100000101 00:00:00\": month out of range" := by
  constructor <;> decide!

/-- The error of `Parse` on the text that `Format` writes for a year before the year
0: the text starts with a minus sign, which is no digit of a year. -/
theorem Parse_year_negative :
    (Unix UTC (-62167219201)).Format = ascii "-00011231 23:59:59" ∧
    (Parse (ascii "-00011231 23:59:59")).mapError ParseError.Error =
      .error ("parsing time \"-00011231 23:59:59\" as \"20060102 15:04:05\": " ++
        "cannot parse \"-00011231 23:59:59\" as \"2006\"") := by
  constructor <;> decide!

theorem Parse_Format_Unix (loc : Int → Int) (sec : Int)
    (hy : 0 ≤ (Unix loc sec).Year ∧ (Unix loc sec).Year ≤ 9999) :
    Parse (Unix loc sec).Format = .ok (Unix loc sec) := by
  obtain ⟨a, b, c, d, e, f, g, h, i, j⟩ := Unix_valid loc sec
  exact Parse_Format _ hy ⟨a, b⟩ ⟨c, d⟩ ⟨e, f⟩ ⟨g, h⟩ ⟨i, j⟩

/-! ## Lines and fields -/

theorem splitOn_ne_nil (sep : Nat) : ∀ l : List Nat, splitOn sep l ≠ []
  | [] => by simp [splitOn]
  | b :: rest => by
    unfold splitOn
    split
    · simp
    · split <;> simp

theorem splitOn_cons_sep (sep : Nat) (rest : List Nat) :
    splitOn sep (sep :: rest) = [] :: splitOn sep rest := by
  simp [splitOn]

theorem splitOn_cons_ne (sep b : Nat) (rest : List Nat) (h : b ≠ sep) :
    splitOn sep (b :: rest) =
      (b :: (splitOn sep rest).headD []) :: (splitOn sep rest).tail := by
  have hne := splitOn_ne_nil sep rest
  rw [splitOn]
  simp only [h, if_false]
  cases hs : splitOn sep rest with
  | nil => exact absurd hs hne
  | cons a t => simp

theorem splitOn_length (sep : Nat) :
    ∀ l : List Nat, (splitOn sep l).length = 1 + l.count sep
  | [] => by simp [splitOn]
  | b :: rest => by
    have ih := splitOn_length sep rest
    have hne := splitOn_ne_nil sep rest
    by_cases h : b = sep
    · subst h
      rw [splitOn_cons_sep]
      simp [ih]
      omega
    · have hc : (b :: rest).count sep = rest.count sep := by
        simp [List.count_cons, h]
      rw [hc, ← ih, splitOn_cons_ne sep b rest h]
      cases hs : splitOn sep rest with
      | nil => exact absurd hs hne
      | cons a t => simp

theorem splitOn_length_lt_two (sep : Nat) (l : List Nat) :
    (splitOn sep l).length < 2 ↔ sep ∉ l := by
  rw [splitOn_length, ← List.count_eq_zero]
  omega

/-- A well-formed line gets the hour bucket of its time in the location of the
process. -/
theorem lineTimestamp_wellFormed (loc : Int → Int) (txt : List Nat)
    (h : WellFormedLine loc txt) :
    lineTimestamp loc txt = .ok (hourBucket (Unix loc (lineSeconds txt))) := by
  obtain ⟨hc, hy⟩ := h
  have hlen : ¬ (splitOn 44 txt).length < 2 := by
    rw [splitOn_length_lt_two]; exact fun h => h hc
  have hp := Parse_Format_Unix loc (lineSeconds txt) hy
  unfold lineSeconds at hp
  simp only [lineTimestamp, hlen, if_false, hp, hourBucket, lineSeconds]

theorem lineTimestamp_no_comma (loc : Int → Int) (txt : List Nat) (h : 44 ∉ txt) :
    lineTimestamp loc txt = .error "could not parse data" := by
  have hlen : (splitOn 44 txt).length < 2 := (splitOn_length_lt_two 44 txt).mpr h
  simp only [lineTimestamp, hlen, if_true]

theorem bucketOf_wellFormed (loc : Int → Int) (txt : List Nat) (h : WellFormedLine loc txt) :
    bucketOf loc txt = hourBucket (Unix loc (lineSeconds txt)) := by
  simp only [bucketOf, lineTimestamp_wellFormed loc txt h]

/-! ## The loop of ParseEntries -/

theorem parseLoop_filter (loc : Int → Int) (ts : Int) :
    ∀ (toks : List (List Nat)) (entries : List (Option LogEntry)) (cur : Option LogEntry),
      parseLoop loc ts toks entries cur =
        parseLoop loc ts (toks.filter (fun l => decide (l ≠ []))) entries cur
  | [], _, _ => rfl
  | l :: rest, entries, cur => by
    by_cases h : l = []
    · subst h
      rw [parseLoop]
      simp only [if_true, List.filter_cons, ne_eq, not_true_eq_false, decide_False,
        Bool.false_eq_true, if_false]
      exact parseLoop_filter loc ts rest entries cur
    · have hd : decide (l ≠ []) = true := by simp [h]
      rw [List.filter_cons, hd, if_pos rfl, parseLoop, parseLoop]
      simp only [h, if_false]
      cases lineTimestamp loc l with
      | error e => rfl
      | ok b => exact parseLoop_filter loc ts rest _ _

theorem joinLines_append (a b : List (List Nat)) :
    joinLines (a ++ b) = joinLines a ++ joinLines b := by
  simp [joinLines]

theorem joinLines_singleton (l : List Nat) : joinLines [l] = l ++ [10] := by
  simp [joinLines]

theorem parseLoop_open (loc : Int → Int) (ts : Int) :
    ∀ (toks : List (List Nat)),
      (∀ l ∈ toks, l ≠ [] ∧ ∃ b, lineTimestamp loc l = .ok b) →
      ∀ (entries : List (Option LogEntry)) (bucket : LogEntryTimestamp)
        (cur : List (List Nat)),
        parseLoop loc ts toks entries (some (groupEntry ts (bucket, cur))) =
          .ok (entries ++
            (extendGroups loc bucket cur toks).map (fun g => some (groupEntry ts g)))
  | [], _, entries, bucket, cur => by
    simp [parseLoop, extendGroups]
  | l :: rest, h, entries, bucket, cur => by
    obtain ⟨hne, b, hb⟩ := h l (List.mem_cons_self _ _)
    have hrest : ∀ x ∈ rest, x ≠ [] ∧ ∃ b, lineTimestamp loc x = .ok b :=
      fun x hx => h x (List.mem_cons_of_mem _ hx)
    have hbo : bucketOf loc l = b := by simp [bucketOf, hb]
    rw [parseLoop]
    simp only [hne, if_false, hb, extendGroups, hbo]
    by_cases hc : bucket = b
    · subst hc
      have := parseLoop_open loc ts rest hrest entries bucket (cur ++ [l])
      simp only [groupEntry, joinLines_append, joinLines_singleton] at this
      simp only [groupEntry, ne_eq, not_true_eq_false, if_false, List.append_assoc]
      simpa [List.append_assoc] using this
    · have := parseLoop_open loc ts rest hrest (entries ++ [some (groupEntry ts (bucket, cur))]) b [l]
      simp only [groupEntry, joinLines_singleton] at this
      simp only [groupEntry, ne_eq, hc, not_false_eq_true, if_true, List.map_cons]
      simpa [List.append_assoc] using this

theorem parseLoop_start (loc : Int → Int) (ts : Int) (toks : List (List Nat))
    (h : ∀ l ∈ toks, l ≠ [] ∧ ∃ b, lineTimestamp loc l = .ok b) :
    parseLoop loc ts toks [] none =
      .ok (if toks = [] then [none]
        else (lineGroups loc toks).map (fun g => some (groupEntry ts g))) := by
  cases toks with
  | nil => simp [parseLoop]
  | cons l rest =>
    obtain ⟨hne, b, hb⟩ := h l (List.mem_cons_self _ _)
    have hrest : ∀ x ∈ rest, x ≠ [] ∧ ∃ b, lineTimestamp loc x = .ok b :=
      fun x hx => h x (List.mem_cons_of_mem _ hx)
    have hbo : bucketOf loc l = b := by simp [bucketOf, hb]
    have := parseLoop_open loc ts rest hrest [] b [l]
    simp only [groupEntry, joinLines_singleton] at this
    rw [parseLoop]
    simp only [hne, if_false, hb, lineGroups, hbo]
    simpa using this

theorem parseLoop_ok_accepts (loc : Int → Int) (ts : Int) :
    ∀ (toks : List (List Nat)) (entries : List (Option LogEntry)) (cur : Option LogEntry)
      (r : List (Option LogEntry)),
      parseLoop loc ts toks entries cur = .ok r →
      ∀ l ∈ toks, l ≠ [] → ∃ b, lineTimestamp loc l = .ok b
  | [], _, _, _ => by simp
  | l :: rest, entries, cur, r => by
    intro h x hx hxne
    rw [parseLoop] at h
    by_cases hl : l = []
    · simp only [hl, if_true] at h
      rcases List.mem_cons.mp hx with h1 | h1
      · exact absurd (h1.trans hl) hxne
      · exact parseLoop_ok_accepts loc ts rest _ _ r h x h1 hxne
    · simp only [hl, if_false] at h
      cases hb : lineTimestamp loc l with
      | error e => simp [hb] at h
      | ok b =>
        simp only [hb] at h
        rcases List.mem_cons.mp hx with h1 | h1
        · exact ⟨b, h1 ▸ hb⟩
        · exact parseLoop_ok_accepts loc ts rest _ _ r h x h1 hxne

theorem dropCR_nil : dropCR [] = [] := by simp [dropCR]

theorem scanLines_of_short (data : List Nat)
    (hshort : ∀ l ∈ splitOn 10 data, l.length < maxScanTokenSize) :
    (scanLines data).filter (fun l => decide (l ≠ [])) = contentLines data := by
  unfold scanLines contentLines
  by_cases hl : (splitOn 10 data).getLast? = some []
  · simp only [hl, if_true]
    have hsplit : (splitOn 10 data).dropLast ++ [[]] = splitOn 10 data :=
      List.dropLast_append_getLast? [] (by simp [hl])
    have htw : (splitOn 10 data).dropLast.takeWhile
        (fun l => decide (l.length < maxScanTokenSize)) = (splitOn 10 data).dropLast := by
      rw [List.takeWhile_eq_self_iff]
      intro x hx
      simpa using hshort x (List.mem_of_mem_dropLast hx)
    rw [htw]
    conv_rhs => rw [← hsplit]
    simp [dropCR_nil]
  · simp only [hl, if_false]
    have htw : (splitOn 10 data).takeWhile
        (fun l => decide (l.length < maxScanTokenSize)) = splitOn 10 data := by
      rw [List.takeWhile_eq_self_iff]
      intro x hx
      simpa using hshort x hx
    rw [htw]

/-! ## The groups of lines -/

theorem extendGroups_flatten (loc : Int → Int) :
    ∀ (toks : List (List Nat)) (b : LogEntryTimestamp) (cur : List (List Nat)),
      ((extendGroups loc b cur toks).map (fun g => g.2)).flatten = cur ++ toks
  | [], b, cur => by simp [extendGroups]
  | l :: rest, b, cur => by
    rw [extendGroups]
    split
    · simp [extendGroups_flatten loc rest (bucketOf loc l) [l]]
    · simp [extendGroups_flatten loc rest b (cur ++ [l])]

theorem extendGroups_bucket (loc : Int → Int) :
    ∀ (toks : List (List Nat)) (b : LogEntryTimestamp) (cur : List (List Nat)),
      cur ≠ [] → (∀ l ∈ cur, bucketOf loc l = b) →
      ∀ g ∈ extendGroups loc b cur toks, g.2 ≠ [] ∧ ∀ l ∈ g.2, bucketOf loc l = g.1
  | [], b, cur, hne, hcur, g, hg => by
    simp only [extendGroups, List.mem_singleton] at hg
    subst hg
    exact ⟨hne, hcur⟩
  | l :: rest, b, cur, hne, hcur, g, hg => by
    rw [extendGroups] at hg
    split at hg
    · rcases List.mem_cons.mp hg with h | h
      · subst h; exact ⟨hne, hcur⟩
      · exact extendGroups_bucket loc rest (bucketOf loc l) [l] (by simp)
          (by simp) g h
    · rename_i hb
      have hb : b = bucketOf loc l := by simpa using hb
      refine extendGroups_bucket loc rest b (cur ++ [l]) (by simp) ?_ g hg
      intro x hx
      rcases List.mem_append.mp hx with h | h
      · exact hcur x h
      · simp only [List.mem_singleton] at h
        subst h; exact hb.symm

theorem extendGroups_heads (loc : Int → Int) :
    ∀ (toks : List (List Nat)) (b : LogEntryTimestamp) (cur : List (List Nat)),
      (extendGroups loc b cur toks).map (fun g => g.1) =
        runHeads (b :: toks.map (bucketOf loc))
  | [], b, cur => by simp [extendGroups, runHeads]
  | l :: rest, b, cur => by
    rw [extendGroups]
    simp only [List.map_cons, runHeads]
    by_cases h : b = bucketOf loc l
    · simp only [h, ne_eq, not_true_eq_false, if_false, if_true]
      have := extendGroups_heads loc rest (bucketOf loc l) (cur ++ [l])
      rw [← h] at this ⊢
      simpa [h] using this
    · simp only [h, ne_eq, not_false_eq_true, if_true, if_false, List.map_cons]
      rw [extendGroups_heads loc rest (bucketOf loc l) [l]]

theorem lineGroups_heads (loc : Int → Int) (toks : List (List Nat)) :
    (lineGroups loc toks).map (fun g => g.1) = runHeads (toks.map (bucketOf loc)) := by
  cases toks with
  | nil => simp [lineGroups, runHeads]
  | cons l rest => simp [lineGroups, extendGroups_heads]

theorem lineGroups_flatten (loc : Int → Int) (toks : List (List Nat)) :
    ((lineGroups loc toks).map (fun g => g.2)).flatten = toks := by
  cases toks with
  | nil => simp [lineGroups]
  | cons l rest => simp [lineGroups, extendGroups_flatten]

theorem lineGroups_bucket (loc : Int → Int) (toks : List (List Nat)) :
    ∀ g ∈ lineGroups loc toks, g.2 ≠ [] ∧ ∀ l ∈ g.2, bucketOf loc l = g.1 := by
  cases toks with
  | nil => simp [lineGroups]
  | cons l rest =>
    intro g hg
    exact extendGroups_bucket loc rest (bucketOf loc l) [l] (by simp) (by simp) g hg

theorem runHeads_length :
    ∀ (a : LogEntryTimestamp) (l : List LogEntryTimestamp),
      (runHeads (a :: l)).length = 1 + adjacentChanges (a :: l)
  | a, [] => by simp [runHeads, adjacentChanges]
  | a, b :: l => by
    have ih := runHeads_length b l
    simp only [runHeads, adjacentChanges]
    split
    · rw [ih]; omega
    · simp only [List.length_cons, ih]; omega

theorem runHeads_head? :
    ∀ (a : LogEntryTimestamp) (l : List LogEntryTimestamp),
      (runHeads (a :: l)).head? = some a
  | a, [] => by simp [runHeads]
  | a, b :: l => by
    simp only [runHeads]
    split
    · rename_i h
      rw [runHeads_head? b l, h]
    · simp

theorem runHeads_chain :
    ∀ (l : List LogEntryTimestamp), (runHeads l).Chain' (fun x y => x ≠ y)
  | [] => by simp [runHeads]
  | [a] => by simp [runHeads]
  | a :: b :: l => by
    have ih := runHeads_chain (b :: l)
    simp only [runHeads]
    split
    · exact ih
    · rename_i h
      rw [List.chain'_cons']
      refine ⟨?_, ih⟩
      intro y hy
      rw [runHeads_head? b l] at hy
      simp only [Option.mem_def, Option.some.injEq] at hy
      subst hy
      exact h

/-! ## Decimal timestamps -/

theorem parseUintLoop_decimal :
    ∀ (field : List Nat) (n : Nat), (∀ c ∈ field, isDigitByte c = true) →
      field.foldl (fun n b => n * 10 + (b - 48)) n < 2 ^ 64 →
      parseUintLoop field n = (field.foldl (fun n b => n * 10 + (b - 48)) n, some true)
  | [], n, _, _ => by simp [parseUintLoop]
  | c :: cs, n, hd, hlt => by
    have hc := hd c (List.mem_cons_self _ _)
    have hcs : ∀ x ∈ cs, isDigitByte x = true := fun x hx => hd x (List.mem_cons_of_mem _ hx)
    simp only [List.foldl_cons] at hlt ⊢
    have hmono : ∀ (l : List Nat) (m : Nat), m ≤ l.foldl (fun n b => n * 10 + (b - 48)) m := by
      intro l
      induction l with
      | nil => intro m; exact le_refl _
      | cons a t ih =>
        intro m
        simp only [List.foldl_cons]
        exact le_trans (by omega) (ih (m * 10 + (a - 48)))
    have h1 : n * 10 + (c - 48) < 2 ^ 64 := lt_of_le_of_lt (hmono cs _) hlt
    have ih := parseUintLoop_decimal cs (n * 10 + (c - 48)) hcs hlt
    rw [parseUintLoop]
    have hn : ¬ (n ≥ (2 ^ 64 - 1) / 10 + 1) := by omega
    have e1 : n * 10 % 2 ^ 64 = n * 10 := Nat.mod_eq_of_lt (by omega)
    have e2 : (n * 10 + (c - 48)) % 2 ^ 64 = n * 10 + (c - 48) := Nat.mod_eq_of_lt h1
    have hov : ¬ (n * 10 + (c - 48) < n * 10 ∨ n * 10 + (c - 48) > 2 ^ 64 - 1) := by omega
    simp only [hc, if_true, hn, if_false, e1, e2, hov, ih]

/-- The value of a text of decimal digits. -/
theorem ParseInt_decimal (field : List Nat) (hne : field ≠ [])
    (hd : ∀ c ∈ field, isDigitByte c = true)
    (hlt : field.foldl (fun n b => n * 10 + (b - 48)) 0 < 2 ^ 63) :
    (ParseInt field).1 = ((field.foldl (fun n b => n * 10 + (b - 48)) 0 : Nat) : Int) := by
  cases field with
  | nil => exact absurd rfl hne
  | cons c cs =>
    have hc := hd c (List.mem_cons_self _ _)
    have hc' : 48 ≤ c ∧ c ≤ 57 := (isDigitByte_iff c).mp hc
    have h43 : ¬ (c = 43 ∨ c = 45) := by omega
    have h45 : ¬ (c = 45) := by omega
    have hl := parseUintLoop_decimal (c :: cs) 0 hd (lt_trans hlt (by decide))
    have hge : ¬ ((c :: cs).foldl (fun n b => n * 10 + (b - 48)) 0 ≥ 2 ^ 63) := by omega
    have h43' : ¬ (c = 43) := by omega
    simp only [ParseInt, h43, if_false, ParseUint, List.cons_ne_nil, hl, h45, decide_False,
      Bool.not_false, true_and, Bool.false_eq_true, false_and, hge, h43', or_self]

theorem splitOn_append_sep (sep : Nat) :
    ∀ (l rest : List Nat), sep ∉ l →
      splitOn sep (l ++ sep :: rest) = l :: splitOn sep rest
  | [], rest, _ => by simp [splitOn_cons_sep]
  | b :: l, rest, h => by
    have hb : b ≠ sep := fun e => h (e ▸ List.mem_cons_self _ _)
    have hl : sep ∉ l := fun e => h (List.mem_cons_of_mem _ e)
    rw [List.cons_append, splitOn_cons_ne sep b _ hb, splitOn_append_sep sep l rest hl]
    simp

theorem lineSeconds_decimal (field rest : List Nat) (hne : field ≠ [])
    (hd : ∀ c ∈ field, isDigitByte c = true)
    (hlt : decimalValue field < 2 ^ 63) :
    lineSeconds (field ++ 44 :: rest) = (decimalValue field : Int) / 1000000 := by
  unfold decimalValue at hlt ⊢
  have hno : 44 ∉ field := by
    intro h
    have := (isDigitByte_iff 44).mp (hd 44 h)
    omega
  rw [lineSeconds, splitOn_append_sep 44 field rest hno, List.headD_cons,
    ParseInt_decimal field hne hd hlt]
  exact Int.tdiv_eq_ediv (Int.ofNat_nonneg _) (by decide)

/-! ## ParseEntries -/

theorem contentLines_ne_nil (data : List Nat) : ∀ l ∈ contentLines data, l ≠ [] := by
  intro l hl
  simp only [contentLines, List.mem_filter, decide_eq_true_eq] at hl
  exact hl.2

theorem ParseEntries_of_accepted (loc : Int → Int) (data : List Nat) (ts : Int)
    (hshort : ∀ l ∈ splitOn 10 data, l.length < maxScanTokenSize)
    (hacc : ∀ l ∈ contentLines data, ∃ b, lineTimestamp loc l = .ok b) :
    ParseEntries loc data ts =
      .ok (if contentLines data = [] then [none]
        else (lineGroups loc (contentLines data)).map (fun g => some (groupEntry ts g))) := by
  rw [ParseEntries, parseLoop_filter, scanLines_of_short data hshort]
  exact parseLoop_start loc ts _ (fun l hl => ⟨contentLines_ne_nil data l hl, hacc l hl⟩)

theorem ParseEntries_ok_accepts (loc : Int → Int) (data : List Nat) (ts : Int)
    (hshort : ∀ l ∈ splitOn 10 data, l.length < maxScanTokenSize)
    (entries : List (Option LogEntry)) (h : ParseEntries loc data ts = .ok entries) :
    ∀ l ∈ contentLines data, ∃ b, lineTimestamp loc l = .ok b := by
  rw [ParseEntries, parseLoop_filter, scanLines_of_short data hshort] at h
  intro l hl
  exact parseLoop_ok_accepts loc ts _ _ _ _ h l hl (contentLines_ne_nil data l hl)

theorem map_bucketOf_wellFormed (loc : Int → Int) (ls : List (List Nat))
    (hwf : ∀ l ∈ ls, WellFormedLine loc l) :
    ls.map (bucketOf loc) = ls.map (fun l => hourBucket (Unix loc (lineSeconds l))) :=
  List.map_congr_left (fun l hl => bucketOf_wellFormed loc l (hwf l hl))

theorem ParseEntries_of_wellFormed (loc : Int → Int) (data : List Nat) (ts : Int)
    (hshort : ∀ l ∈ splitOn 10 data, l.length < maxScanTokenSize)
    (hwf : ∀ l ∈ contentLines data, WellFormedLine loc l)
    (hne : contentLines data ≠ []) :
    ParseEntries loc data ts =
      .ok (((lineGroups loc (contentLines data)).map (groupEntry ts)).map some) := by
  rw [ParseEntries_of_accepted loc data ts hshort
    (fun l hl => ⟨_, lineTimestamp_wellFormed loc l (hwf l hl)⟩)]
  simp [hne]

/-- C6, as amended. For an input with at least one non-empty line, in which every
line is shorter than 65536 bytes and every non-empty line is well formed (it has a
comma, and the year of its timestamp lies in 0..9999), `ParseEntries` returns without
error one record per maximal run of lines with equal hour bucket, in the order of
the lines: the number of records is 1 plus the number of neighbouring lines whose
buckets differ, the records carry the buckets of the runs in order, and neighbouring
records never have equal buckets. -/
theorem ParseEntries_one_record_per_run (loc : Int → Int) (data : List Nat) (ts : Int)
    (hshort : ∀ l ∈ splitOn 10 data, l.length < maxScanTokenSize)
    (hwf : ∀ l ∈ contentLines data, WellFormedLine loc l)
    (hne : contentLines data ≠ []) :
    ∃ records : List LogEntry,
      ParseEntries loc data ts = .ok (records.map some) ∧
      records.length = 1 + adjacentChanges
        ((contentLines data).map (fun l => hourBucket (Unix loc (lineSeconds l)))) ∧
      records.map (fun r => r.Timestamp) =
        runHeads ((contentLines data).map (fun l => hourBucket (Unix loc (lineSeconds l)))) ∧
      (records.map (fun r => r.Timestamp)).Chain' (fun x y => x ≠ y) := by
  refine ⟨(lineGroups loc (contentLines data)).map (groupEntry ts),
    ParseEntries_of_wellFormed loc data ts hshort hwf hne, ?_⟩
  have hb := map_bucketOf_wellFormed loc (contentLines data) hwf
  have hheads : ((lineGroups loc (contentLines data)).map (groupEntry ts)).map
      (fun r => r.Timestamp) =
      runHeads ((contentLines data).map (fun l => hourBucket (Unix loc (lineSeconds l)))) := by
    rw [← hb, ← lineGroups_heads, List.map_map]
    rfl
  refine ⟨?_, hheads, ?_⟩
  · have hlen := congrArg List.length hheads
    rw [List.length_map] at hlen
    rw [hlen]
    cases hc : contentLines data with
    | nil => exact absurd hc hne
    | cons a t => exact runHeads_length _ _
  · rw [hheads]
    exact runHeads_chain _

/-- C7, as amended. For an input with at least one non-empty line, in which every
line is shorter than 65536 bytes and every non-empty line is well formed,
`ParseEntries` returns records without error, and the contents of the records,
concatenated in order, are exactly the non-empty lines of the input in file order,
each without one trailing carriage return and followed by one newline byte. -/
theorem ParseEntries_content (loc : Int → Int) (data : List Nat) (ts : Int)
    (hshort : ∀ l ∈ splitOn 10 data, l.length < maxScanTokenSize)
    (hwf : ∀ l ∈ contentLines data, WellFormedLine loc l)
    (hne : contentLines data ≠ []) :
    ∃ records : List LogEntry,
      ParseEntries loc data ts = .ok (records.map some) ∧
      (records.map (fun r => r.LogLine)).flatten = joinLines (contentLines data) := by
  refine ⟨(lineGroups loc (contentLines data)).map (groupEntry ts),
    ParseEntries_of_wellFormed loc data ts hshort hwf hne, ?_⟩
  have hf := lineGroups_flatten loc (contentLines data)
  have : ((lineGroups loc (contentLines data)).map (groupEntry ts)).map (fun r => r.LogLine) =
      ((lineGroups loc (contentLines data)).map (fun g => g.2)).map joinLines := by
    simp [List.map_map, groupEntry, Function.comp_def]
  rw [this]
  conv_rhs => rw [← hf]
  simp only [joinLines, List.map_flatten, List.flatten_flatten, List.map_map]
  rfl

/-- C8, as amended. Whenever `ParseEntries` returns records for an input whose lines
are all shorter than 65536 bytes, the records partition the non-empty lines of the
input in order (each record holds the lines of one group), and a record that holds a
line whose first comma-separated field is the decimal integer t (below 2^63, with
the year of its instant in 0..9999) has the bucket (year, month, day, hour) that the
instant floor(t / 1000000) seconds after the epoch has in the location of the
process, `time.Local`. The bucket depends on that calendar hour only, so lines in
the same local hour get equal buckets. -/
theorem ParseEntries_bucket_of_line (loc : Int → Int) (data : List Nat) (ts : Int)
    (entries : List (Option LogEntry))
    (hshort : ∀ l ∈ splitOn 10 data, l.length < maxScanTokenSize)
    (h : ParseEntries loc data ts = .ok entries) :
    ∃ groups : List (List (List Nat)),
      groups.flatten = contentLines data ∧
      List.Forall₂
        (fun (r : LogEntry) (g : List (List Nat)) =>
          r.LogLine = joinLines g ∧
          ∀ l ∈ g, ∀ field rest : List Nat, l = field ++ 44 :: rest → field ≠ [] →
            (∀ c ∈ field, isDigitByte c = true) → decimalValue field < 2 ^ 63 →
            0 ≤ (Unix loc ((decimalValue field : Int) / 1000000)).Year →
            (Unix loc ((decimalValue field : Int) / 1000000)).Year ≤ 9999 →
            r.Timestamp = hourBucket (Unix loc ((decimalValue field : Int) / 1000000)))
        (entries.filterMap id) groups := by
  have hacc := ParseEntries_ok_accepts loc data ts hshort entries h
  rw [ParseEntries_of_accepted loc data ts hshort hacc] at h
  have he := (Except.ok.inj h).symm
  subst he
  by_cases hc : contentLines data = []
  · exact ⟨[], by simp [hc], by simp [hc]⟩
  · refine ⟨(lineGroups loc (contentLines data)).map (fun g => g.2),
      lineGroups_flatten loc _, ?_⟩
    simp only [hc, if_false, List.filterMap_map, Function.comp_def, id, List.filterMap_some]
    have hfm : ∀ L : List (LogEntryTimestamp × List (List Nat)),
        List.filterMap (fun x => some (groupEntry ts x)) L = L.map (groupEntry ts) := by
      intro L
      induction L with
      | nil => rfl
      | cons a t ih => simp [List.filterMap_cons, ih]
    rw [hfm, List.forall₂_map_left_iff, List.forall₂_map_right_iff, List.forall₂_same]
    intro g hg
    refine ⟨rfl, ?_⟩
    intro l hl field rest hfr hne hd hlt hy0 hy1
    have hb := (lineGroups_bucket loc _ g hg).2 l hl
    have hs := lineSeconds_decimal field rest hne hd hlt
    have hwf : WellFormedLine loc l := by
      subst hfr
      refine ⟨by simp, ?_, ?_⟩
      · rw [hs]; exact hy0
      · rw [hs]; exact hy1
    have := bucketOf_wellFormed loc l hwf
    rw [hfr, hs] at this
    simp only [groupEntry]
    rw [← hb, hfr]
    exact this

/-- C10. For an input without any non-empty line (no byte at all, or newline bytes
only) `ParseEntries` returns no error and a list of one element, the nil pointer:
not the empty list of records. -/
theorem ParseEntries_blank (loc : Int → Int) (data : List Nat) (ts : Int)
    (hblank : ∀ l ∈ splitOn 10 data, l = []) :
    ParseEntries loc data ts = .ok [none] := by
  have hshort : ∀ l ∈ splitOn 10 data, l.length < maxScanTokenSize := by
    intro l hl
    rw [hblank l hl]
    decide
  have hc : contentLines data = [] := by
    unfold contentLines
    rw [List.filter_eq_nil_iff]
    intro l hl
    obtain ⟨x, hx, rfl⟩ := List.mem_map.mp hl
    rw [hblank x hx]
    simp [dropCR_nil]
  rw [ParseEntries_of_accepted loc data ts hshort (by simp [hc])]
  simp [hc]

theorem scanLines_long_first (l rest : List Nat) (hnl : 10 ∉ l)
    (hlong : maxScanTokenSize ≤ l.length) : scanLines (l ++ 10 :: rest) = [] := by
  unfold scanLines
  rw [splitOn_append_sep 10 l rest hnl]
  have hne := splitOn_ne_nil 10 rest
  cases hs : splitOn 10 rest with
  | nil => exact absurd hs hne
  | cons a t =>
    have hnot : ¬ l.length < maxScanTokenSize := by omega
    have hdl : (l :: a :: t).dropLast = l :: (a :: t).dropLast := rfl
    have key : ∀ tl : List (List Nat), List.map dropCR (List.takeWhile
        (fun l => decide (l.length < maxScanTokenSize)) (l :: tl)) = [] := by
      intro tl
      simp [List.takeWhile_cons, hnot]
    show List.map dropCR (List.takeWhile _ (if _ then _ else _)) = []
    split
    · rw [hdl]; exact key _
    · exact key _

/-- Witness of C6: the file `fiveLines` (hours 7, 7, 8, 8, 9) gives three records
with the hours 7, 8 and 9. -/
theorem ParseEntries_one_record_per_run_witness :
    (∀ l ∈ splitOn 10 fiveLines, l.length < maxScanTokenSize) ∧
    (∀ l ∈ contentLines fiveLines, WellFormedLine UTC l) ∧
    contentLines fiveLines ≠ [] ∧
    runHeads ((contentLines fiveLines).map (fun l => hourBucket (Unix UTC (lineSeconds l)))) =
      [NewLogEntryTimestamp 2020 7 14 7, NewLogEntryTimestamp 2020 7 14 8,
       NewLogEntryTimestamp 2020 7 14 9] ∧
    ∃ records : List LogEntry,
      ParseEntries UTC fiveLines 1 = .ok (records.map some) ∧
      records.length = 1 + adjacentChanges
        ((contentLines fiveLines).map (fun l => hourBucket (Unix UTC (lineSeconds l)))) ∧
      records.map (fun r => r.Timestamp) =
        runHeads ((contentLines fiveLines).map (fun l => hourBucket (Unix UTC (lineSeconds l)))) ∧
      (records.map (fun r => r.Timestamp)).Chain' (fun x y => x ≠ y) :=
  ⟨by decide, by decide, by decide, by decide,
    ParseEntries_one_record_per_run UTC fiveLines 1 (by decide) (by decide) (by decide)⟩

/-- Counterexample to C6 as stated: a line with two comma-separated fields, the
first a decimal number of microseconds that `strconv.ParseInt` reads without error,
for which `ParseEntries` returns no record but an error: the words
`could not parse time: ` of the source followed by the text of the error of
`time.Parse` (the instant lies in the year 10000). -/
theorem ParseEntries_year_10000_fails :
    ParseInt (ascii "253402300800000000") = (253402300800000000, true) ∧
    splitOn 44 (ascii "253402300800000000,x") = [ascii "253402300800000000", ascii "x"] ∧
    ∃ e : String, ParseEntries UTC (ascii "253402300800000000,x") 0 =
      .error ("could not parse time: " ++ e) :=
  ⟨by decide, by decide, "parsing time \"100000101 00:00:00\": month out of range", by decide!⟩

/-- Witness of C7: the records of the file `fiveLines` hold exactly its five lines. -/
theorem ParseEntries_content_witness :
    (∀ l ∈ splitOn 10 fiveLines, l.length < maxScanTokenSize) ∧
    (∀ l ∈ contentLines fiveLines, WellFormedLine UTC l) ∧
    contentLines fiveLines ≠ [] ∧
    joinLines (contentLines fiveLines) = fiveLines ∧
    ∃ records : List LogEntry,
      ParseEntries UTC fiveLines 1 = .ok (records.map some) ∧
      (records.map (fun r => r.LogLine)).flatten = joinLines (contentLines fiveLines) :=
  ⟨by decide, by decide, by decide, by decide,
    ParseEntries_content UTC fiveLines 1 (by decide) (by decide) (by decide)⟩

/-- Counterexample to C7 as stated, in three inputs whose non-empty lines all have a
comma. A line that ends in a carriage return is stored without it. A line of 65536
bytes ends the scan: neither it nor the line after it reaches a record, and the
result is the single nil pointer. A line with a timestamp in the year 10000 makes
the parse fail: the result is the error of `time.Parse` after the words
`could not parse time: ` of the source, and no record. -/
theorem ParseEntries_alters_or_loses_lines :
    ParseEntries UTC (ascii "0,x\r\n") 0 =
      .ok [some { Timestamp := NewLogEntryTimestamp 1970 1 1 0, LogLine := ascii "0,x\n",
                  LogFileTimestamp := 0 }] ∧
    ParseEntries UTC (List.replicate 65536 44 ++ 10 :: ascii "0,x\n") 0 = .ok [none] ∧
    ∃ e : String, ParseEntries UTC (ascii "0,x\n253402300800000000,y\n") 0 =
      .error ("could not parse time: " ++ e) := by
  refine ⟨by decide!, ?_, "parsing time \"100000101 00:00:00\": month out of range", by decide!⟩
  have h := scanLines_long_first (List.replicate 65536 44) (ascii "0,x\n")
    (fun hm => absurd (List.eq_of_mem_replicate hm) (by decide))
    (by rw [List.length_replicate]; decide)
  rw [ParseEntries, h]
  rfl

/-- Witness of C8: the records of the file `fiveLines`. -/
theorem ParseEntries_bucket_of_line_witness :
    (∀ l ∈ splitOn 10 fiveLines, l.length < maxScanTokenSize) ∧
    ParseEntries UTC fiveLines 1 = .ok
      [some { Timestamp := NewLogEntryTimestamp 2020 7 14 7,
              LogLine := ascii "1594710325000000,a\n1594710326000000,b\n",
              LogFileTimestamp := 1 },
       some { Timestamp := NewLogEntryTimestamp 2020 7 14 8,
              LogLine := ascii "1594713926000000,c\n1594713927000000,d\n",
              LogFileTimestamp := 1 },
       some { Timestamp := NewLogEntryTimestamp 2020 7 14 9,
              LogLine := ascii "1594717527000000,e\n",
              LogFileTimestamp := 1 }] ∧
    ∃ groups : List (List (List Nat)),
      groups.flatten = contentLines fiveLines ∧
      List.Forall₂
        (fun (r : LogEntry) (g : List (List Nat)) =>
          r.LogLine = joinLines g ∧
          ∀ l ∈ g, ∀ field rest : List Nat, l = field ++ 44 :: rest → field ≠ [] →
            (∀ c ∈ field, isDigitByte c = true) → decimalValue field < 2 ^ 63 →
            0 ≤ (Unix UTC ((decimalValue field : Int) / 1000000)).Year →
            (Unix UTC ((decimalValue field : Int) / 1000000)).Year ≤ 9999 →
            r.Timestamp = hourBucket (Unix UTC ((decimalValue field : Int) / 1000000)))
        (List.filterMap id
          [some { Timestamp := NewLogEntryTimestamp 2020 7 14 7,
                  LogLine := ascii "1594710325000000,a\n1594710326000000,b\n",
                  LogFileTimestamp := 1 },
           some { Timestamp := NewLogEntryTimestamp 2020 7 14 8,
                  LogLine := ascii "1594713926000000,c\n1594713927000000,d\n",
                  LogFileTimestamp := 1 },
           some { Timestamp := NewLogEntryTimestamp 2020 7 14 9,
                  LogLine := ascii "1594717527000000,e\n",
                  LogFileTimestamp := 1 }]) groups :=
  ⟨by decide, by decide!, ParseEntries_bucket_of_line UTC fiveLines 1 _ (by decide) (by decide!)⟩

/-- Counterexample to C8 as stated: in a process whose location is one hour east of
UTC, the line with timestamp 0 gets the bucket of hour 1, while the UTC calendar of
the instant 0 has hour 0; and in a location half an hour east of UTC two lines of
the same UTC hour (00:00 and 00:30) land in two records. -/
theorem ParseEntries_bucket_is_local :
    ParseEntries (fun _ => 3600) (ascii "0,x") 0 =
      .ok [some { Timestamp := NewLogEntryTimestamp 1970 1 1 1, LogLine := ascii "0,x\n",
                  LogFileTimestamp := 0 }] ∧
    hourBucket (Unix UTC 0) = NewLogEntryTimestamp 1970 1 1 0 ∧
    ParseEntries (fun _ => 1800) (ascii "0,x\n1800000000,y") 0 =
      .ok [some { Timestamp := NewLogEntryTimestamp 1970 1 1 0, LogLine := ascii "0,x\n",
                  LogFileTimestamp := 0 },
           some { Timestamp := NewLogEntryTimestamp 1970 1 1 1,
                  LogLine := ascii "1800000000,y\n", LogFileTimestamp := 0 }] ∧
    hourBucket (Unix UTC 0) = hourBucket (Unix UTC 1800) :=
  ⟨by decide!, by decide, by decide!, by decide⟩

/-- C9. The line of the test `TestWriteLogEntrySingleLine`, whose first field is the
text `20200714 07:05:25`, is put into a record with the bucket (1970, 1, 1, 0), not
(2020, 7, 14, 7): `strconv.ParseInt` cannot read the field, its error is dropped and
the timestamp counts as 0. Three such lines of the hours 10, 11 and 12 end in one
record with that bucket, not in three records. (Location UTC.) -/
theorem ParseEntries_text_timestamp :
    ParseEntries UTC
      (ascii "20200714 07:05:25,ip-172-27-1-97,rdsadmin,localhost,26,47141561040897,QUERY,mysql,SELECT,0")
      1595332052 =
      .ok [some { Timestamp := NewLogEntryTimestamp 1970 1 1 0,
                  LogLine := ascii "20200714 07:05:25,ip-172-27-1-97,rdsadmin,localhost,26,47141561040897,QUERY,mysql,SELECT,0\n",
                  LogFileTimestamp := 1595332052 }] ∧
    ParseEntries UTC
      (ascii ("20200714 10:30:02,ip-172-27-1-97,admin,10.120.182.212,33303,0,CONNECT,rdslogstest,,0\n" ++
        "20200714 11:30:04,ip-172-27-1-97,admin,10.120.182.212,33304,0,CONNECT,rdslogstest,,0\n" ++
        "20200714 12:30:03,ip-172-27-1-97,rdsadmin,localhost,26,161171,QUERY,mysql,SELECT,0\n"))
      1595332052 =
      .ok [some { Timestamp := NewLogEntryTimestamp 1970 1 1 0,
                  LogLine := ascii ("20200714 10:30:02,ip-172-27-1-97,admin,10.120.182.212,33303,0,CONNECT,rdslogstest,,0\n" ++
                    "20200714 11:30:04,ip-172-27-1-97,admin,10.120.182.212,33304,0,CONNECT,rdslogstest,,0\n" ++
                    "20200714 12:30:03,ip-172-27-1-97,rdsadmin,localhost,26,161171,QUERY,mysql,SELECT,0\n"),
                  LogFileTimestamp := 1595332052 }] :=
  ⟨by decide!, by decide!⟩

/-- Witness of C10: the empty input and an input of two newline bytes. -/
theorem ParseEntries_blank_witness :
    ((∀ l ∈ splitOn 10 [], l = []) ∧ ParseEntries UTC [] 7 = .ok [none]) ∧
    ((∀ l ∈ splitOn 10 [10, 10], l = []) ∧ ParseEntries UTC [10, 10] 7 = .ok [none]) :=
  ⟨⟨by decide, ParseEntries_blank UTC [] 7 (by decide)⟩,
   ⟨by decide, ParseEntries_blank UTC [10, 10] 7 (by decide)⟩⟩

/-- One attempt of `getLogs` that reaches the comparison of the two names. -/
theorem getLogs_attempt {σ : Type} (cl : RdsClients σ) (c : RdsLogCollector) (ts : Int)
    (retries : Nat) (w w1 w2 w3 : World σ) (f g : LogFile) (resp : Response σ)
    (h1 : getCurrentLogFileNewerThanTimestamp cl c ts w = (.ok (some f), w1))
    (h2 : downloadLogFile cl c f w1 = (.ok resp, w2))
    (h3 : getCurrentLogFileNewerThanTimestamp cl c ts w2 = (.ok (some g), w3)) :
    getLogs cl c ts retries w =
      if g.LogFileName ≠ f.LogFileName then
        (match retries with
         | r + 1 => getLogs cl c ts r w3
         | 0 => (.returned (.failure "file was rotated when getting the logs"), w3))
      else
        (match (resp.Body w3.state).1.err with
         | some e =>
           (match retries with
            | r + 1 =>
              getLogs cl c ts r
                (({ w3 with state := (resp.Body w3.state).2 } : World σ).record (.Sleep 1))
            | 0 =>
              (.returned (.failure ("could not read response from log data: " ++ e)),
                { w3 with state := (resp.Body w3.state).2 }))
         | none =>
           (.returned { reader := some (resp.Body w3.state).1.data, ok := true,
                        logFileTimestamp := f.LastWritten, err := none },
             { w3 with state := (resp.Body w3.state).2 })) := by
  cases retries <;> rw [getLogs] <;> simp only [h1, h2, h3]

/-! ## The calls of the collector -/

theorem listAndFilter_calls {σ : Type} (cl : RdsClients σ) (c : RdsLogCollector)
    (w : World σ) :
    (listAndFilter cl c w).2.calls =
      w.calls ++ [RdsCall.DescribeDBLogFilesPages c.instanceIdentifier] := by
  unfold listAndFilter
  simp only [World.record]
  split <;> rfl

theorem getLogFiles_calls {σ : Type} (cl : RdsClients σ) (c : RdsLogCollector) :
    ∀ (retries : Nat) (w : World σ),
      ∃ new, (getLogFiles cl c retries w).2.calls = w.calls ++ new ∧
        ∀ x ∈ new, x = RdsCall.DescribeDBLogFilesPages c.instanceIdentifier := by
  intro retries
  induction retries with
  | zero =>
    intro w
    refine ⟨[RdsCall.DescribeDBLogFilesPages c.instanceIdentifier], ?_, by simp⟩
    rw [getLogFiles, ← listAndFilter_calls cl c w]
    split
    · rename_i h; rw [h]
    · rename_i h; rw [h]; split <;> rfl
  | succ r ih =>
    intro w
    rw [getLogFiles]
    split
    · rename_i e w1 h
      refine ⟨[RdsCall.DescribeDBLogFilesPages c.instanceIdentifier], ?_, by simp⟩
      rw [← listAndFilter_calls cl c w, h]
    · rename_i lf mlf w1 h
      have hc : w1.calls = w.calls ++ [RdsCall.DescribeDBLogFilesPages c.instanceIdentifier] := by
        rw [← listAndFilter_calls cl c w, h]
      split
      · obtain ⟨new, h1, h2⟩ := ih w1
        refine ⟨RdsCall.DescribeDBLogFilesPages c.instanceIdentifier :: new, ?_, ?_⟩
        · rw [h1, hc]; simp
        · intro x hx
          rcases List.mem_cons.mp hx with h | h
          · exact h
          · exact h2 x h
      · exact ⟨_, hc, by simp⟩

theorem getCurrent_calls {σ : Type} (cl : RdsClients σ) (c : RdsLogCollector) (ts : Int)
    (w : World σ) :
    ∃ new, (getCurrentLogFileNewerThanTimestamp cl c ts w).2.calls = w.calls ++ new ∧
      ∀ x ∈ new, x = RdsCall.DescribeDBLogFilesPages c.instanceIdentifier := by
  obtain ⟨new, h1, h2⟩ := getLogFiles_calls cl c maxRetries w
  refine ⟨new, ?_, h2⟩
  unfold getCurrentLogFileNewerThanTimestamp
  split
  · rename_i h; rw [h] at h1; exact h1
  · rename_i h; rw [h] at h1; exact h1

theorem getCurrent_qualifies {σ : Type} (cl : RdsClients σ) (c : RdsLogCollector) (ts : Int)
    (w w1 : World σ) (f : LogFile)
    (h : getCurrentLogFileNewerThanTimestamp cl c ts w = (.ok (some f), w1)) :
    f.IsRotatedFile = true ∧ f.LastWritten > ts := by
  unfold getCurrentLogFileNewerThanTimestamp at h
  split at h
  · simp at h
  · rename_i lfs w2 hg
    simp only [findLogFileNewerThanTimestamp, Prod.mk.injEq, Except.ok.injEq] at h
    exact (qualifies_iff ts f).mp (List.find?_some h.1)

theorem downloadLogFile_calls {σ : Type} (cl : RdsClients σ) (c : RdsLogCollector)
    (f : LogFile) (w : World σ) :
    (downloadLogFile cl c f w).2.calls =
      w.calls ++ [RdsCall.downloadLogFile f,
        RdsCall.Do ("https://rds." ++ c.region ++ ".amazonaws.com")
          ("/v13/downloadCompleteLogFile/" ++ c.instanceIdentifier ++ "/" ++ f.LogFileName)] := by
  unfold downloadLogFile
  simp only [World.record]
  split
  · simp
  · split <;> simp

theorem getLogs_select_error {σ : Type} (cl : RdsClients σ) (c : RdsLogCollector) (ts : Int)
    (retries : Nat) (w w1 : World σ) (e : String)
    (h1 : getCurrentLogFileNewerThanTimestamp cl c ts w = (.error e, w1)) :
    getLogs cl c ts retries w =
      (.returned (.failure ("could not get current log file: " ++ e)), w1) := by
  cases retries <;> rw [getLogs] <;> simp only [h1]

theorem getLogs_select_none {σ : Type} (cl : RdsClients σ) (c : RdsLogCollector) (ts : Int)
    (retries : Nat) (w w1 : World σ)
    (h1 : getCurrentLogFileNewerThanTimestamp cl c ts w = (.ok none, w1)) :
    getLogs cl c ts retries w =
      (.returned { reader := none, ok := false, logFileTimestamp := 0, err := none }, w1) := by
  cases retries <;> rw [getLogs] <;> simp only [h1]

theorem getLogs_download_error {σ : Type} (cl : RdsClients σ) (c : RdsLogCollector) (ts : Int)
    (retries : Nat) (w w1 w2 : World σ) (f : LogFile) (e : String)
    (h1 : getCurrentLogFileNewerThanTimestamp cl c ts w = (.ok (some f), w1))
    (h2 : downloadLogFile cl c f w1 = (.error e, w2)) :
    getLogs cl c ts retries w =
      (.returned (.failure ("could not get log data: " ++ e)), w2) := by
  cases retries <;> rw [getLogs] <;> simp only [h1, h2]

theorem getLogs_reselect_error {σ : Type} (cl : RdsClients σ) (c : RdsLogCollector) (ts : Int)
    (retries : Nat) (w w1 w2 w3 : World σ) (f : LogFile) (resp : Response σ) (e : String)
    (h1 : getCurrentLogFileNewerThanTimestamp cl c ts w = (.ok (some f), w1))
    (h2 : downloadLogFile cl c f w1 = (.ok resp, w2))
    (h3 : getCurrentLogFileNewerThanTimestamp cl c ts w2 = (.error e, w3)) :
    getLogs cl c ts retries w =
      (.returned (.failure ("could not get current log file: " ++ e)), w3) := by
  cases retries <;> rw [getLogs] <;> simp only [h1, h2, h3]

/-- The second selection finds no file: the nil pointer is dereferenced. -/
theorem getLogs_reselect_none {σ : Type} (cl : RdsClients σ) (c : RdsLogCollector) (ts : Int)
    (retries : Nat) (w w1 w2 w3 : World σ) (f : LogFile) (resp : Response σ)
    (h1 : getCurrentLogFileNewerThanTimestamp cl c ts w = (.ok (some f), w1))
    (h2 : downloadLogFile cl c f w1 = (.ok resp, w2))
    (h3 : getCurrentLogFileNewerThanTimestamp cl c ts w2 = (.ok none, w3)) :
    getLogs cl c ts retries w = (.panic, w3) := by
  cases retries <;> rw [getLogs] <;> simp only [h1, h2, h3]

theorem CallsGrow.refl {σ : Type} (ts : Int) (w : World σ) : CallsGrow ts w w :=
  ⟨[], by simp, by simp⟩

theorem CallsGrow.of_calls_eq {σ : Type} (ts : Int) (w w' : World σ)
    (h : w'.calls = w.calls) : CallsGrow ts w w' :=
  ⟨[], by simp [h], by simp⟩

theorem CallsGrow.trans {σ : Type} {ts : Int} {a b c : World σ}
    (h1 : CallsGrow ts a b) (h2 : CallsGrow ts b c) : CallsGrow ts a c := by
  obtain ⟨n1, e1, p1⟩ := h1
  obtain ⟨n2, e2, p2⟩ := h2
  refine ⟨n1 ++ n2, by rw [e2, e1, List.append_assoc], ?_⟩
  intro f hf
  rcases List.mem_append.mp hf with h | h
  · exact p1 f h
  · exact p2 f h

theorem CallsGrow.prefix {σ : Type} {ts : Int} {a b : World σ}
    (h : CallsGrow ts a b) : a.calls <+: b.calls := by
  obtain ⟨n, e, _⟩ := h
  exact ⟨n, e.symm⟩

theorem getCurrent_grows {σ : Type} (cl : RdsClients σ) (c : RdsLogCollector) (ts : Int)
    (w : World σ) : CallsGrow ts w (getCurrentLogFileNewerThanTimestamp cl c ts w).2 := by
  obtain ⟨new, h1, h2⟩ := getCurrent_calls cl c ts w
  refine ⟨new, h1, ?_⟩
  intro f hf
  have := h2 _ hf
  cases this

theorem downloadLogFile_grows {σ : Type} (cl : RdsClients σ) (c : RdsLogCollector) (ts : Int)
    (f : LogFile) (w : World σ) (hq : f.IsRotatedFile = true ∧ f.LastWritten > ts) :
    CallsGrow ts w (downloadLogFile cl c f w).2 := by
  refine ⟨_, downloadLogFile_calls cl c f w, ?_⟩
  intro g hg
  simp only [List.mem_cons, RdsCall.downloadLogFile.injEq, List.mem_singleton,
    List.not_mem_nil, or_false] at hg
  rcases hg with h | h
  · rw [h]; exact hq
  · cases h

theorem CheckedDownload.of_grows {σ : Type} {cl : RdsClients σ} {c : RdsLogCollector}
    {ts : Int} {w w' out : World σ} {r : GetLogsResult} (hg : w.calls <+: w'.calls)
    (h : CheckedDownload cl c ts w' r out) : CheckedDownload cl c ts w r out := by
  obtain ⟨w0, w1, w2, w3, f, g, resp, hp, rest⟩ := h
  exact ⟨w0, w1, w2, w3, f, g, resp, hg.trans hp, rest⟩

theorem getLogs_spec_step {σ : Type} (cl : RdsClients σ) (c : RdsLogCollector) (ts : Int)
    (retries : Nat)
    (hrec : ∀ r, retries = r + 1 → ∀ w : World σ, GetLogsSpec cl c ts r w) :
    ∀ w : World σ, GetLogsSpec cl c ts retries w := by
  intro w
  unfold GetLogsSpec
  have g1 := getCurrent_grows cl c ts w
  rcases h1 : getCurrentLogFileNewerThanTimestamp cl c ts w with ⟨res1, w1⟩
  rw [h1] at g1
  match res1, h1 with
  | .error e, h1 =>
    rw [getLogs_select_error cl c ts retries w w1 e h1]
    exact ⟨g1, fun r hr hok => by cases hr; cases hok⟩
  | .ok none, h1 =>
    rw [getLogs_select_none cl c ts retries w w1 h1]
    exact ⟨g1, fun r hr hok => by cases hr; cases hok⟩
  | .ok (some f), h1 =>
    have hq := getCurrent_qualifies cl c ts w w1 f h1
    have g2 := downloadLogFile_grows cl c ts f w1 hq
    rcases h2 : downloadLogFile cl c f w1 with ⟨res2, w2⟩
    rw [h2] at g2
    match res2, h2 with
    | .error e, h2 =>
      rw [getLogs_download_error cl c ts retries w w1 w2 f e h1 h2]
      exact ⟨g1.trans g2, fun r hr hok => by cases hr; cases hok⟩
    | .ok resp, h2 =>
      have g3 := getCurrent_grows cl c ts w2
      rcases h3 : getCurrentLogFileNewerThanTimestamp cl c ts w2 with ⟨res3, w3⟩
      rw [h3] at g3
      have g13 : CallsGrow ts w w3 := (g1.trans g2).trans g3
      match res3, h3 with
      | .error e, h3 =>
        rw [getLogs_reselect_error cl c ts retries w w1 w2 w3 f resp e h1 h2 h3]
        exact ⟨g13, fun r hr hok => by cases hr; cases hok⟩
      | .ok none, h3 =>
        rw [getLogs_reselect_none cl c ts retries w w1 w2 w3 f resp h1 h2 h3]
        exact ⟨g13, fun r hr _ => by cases hr⟩
      | .ok (some g), h3 =>
        rw [getLogs_attempt cl c ts retries w w1 w2 w3 f g resp h1 h2 h3]
        by_cases hn : g.LogFileName ≠ f.LogFileName
        · rw [if_pos hn]
          cases retries with
          | zero => exact ⟨g13, fun r hr hok => by cases hr; cases hok⟩
          | succ n =>
            obtain ⟨a, b⟩ := hrec n rfl w3
            exact ⟨g13.trans a, fun r hr hok => (b r hr hok).of_grows g13.prefix⟩
        · rw [if_neg hn]
          have hn' : g.LogFileName = f.LogFileName := not_not.mp hn
          have g14 : CallsGrow ts w ({ w3 with state := (resp.Body w3.state).2 } : World σ) :=
            g13.trans (CallsGrow.of_calls_eq ts _ _ rfl)
          cases he : (resp.Body w3.state).1.err with
          | some e =>
            cases retries with
            | zero => exact ⟨g14, fun r hr hok => by cases hr; cases hok⟩
            | succ n =>
              have g15 : CallsGrow ts w
                  (({ w3 with state := (resp.Body w3.state).2 } : World σ).record
                    (RdsCall.Sleep 1)) :=
                g14.trans ⟨[RdsCall.Sleep 1], rfl, by simp⟩
              obtain ⟨a, b⟩ := hrec n rfl
                (({ w3 with state := (resp.Body w3.state).2 } : World σ).record (RdsCall.Sleep 1))
              exact ⟨g15.trans a, fun r hr hok => (b r hr hok).of_grows g15.prefix⟩
          | none =>
            refine ⟨g14, fun r hr hok => ?_⟩
            simp only [Outcome.returned.injEq] at hr
            exact ⟨w, w1, w2, w3, f, g, resp, List.prefix_refl _, h1, h2, h3, hn', he,
              hr.symm, rfl⟩

theorem getLogs_spec {σ : Type} (cl : RdsClients σ) (c : RdsLogCollector) (ts : Int) :
    ∀ (retries : Nat) (w : World σ), GetLogsSpec cl c ts retries w := by
  intro retries
  induction retries with
  | zero => exact getLogs_spec_step cl c ts 0 (fun r h => by cases h)
  | succ n ih =>
    exact getLogs_spec_step cl c ts (n + 1) (fun r h => by cases h; exact ih)

/-- C2. When `GetLogs` returns ok = true, its last attempt selected a file, downloaded
it, selected again with the same watermark a file of the same name, and read the
body of that download without error: the bytes returned are that body and the
timestamp returned is the `LastWritten` of the file selected before the download.
And an attempt whose second selection gives another name uses nothing of its
download: `getLogs` is the next attempt (selection and download anew) while a retry
is left, and the error otherwise. -/
theorem GetLogs_returns_checked_download {σ : Type} (cl : RdsClients σ)
    (c : RdsLogCollector) (ts : Int) (w w' : World σ) (r : GetLogsResult)
    (h : GetLogs cl c ts w = (.returned r, w')) (hok : r.ok = true) :
    (∃ (w0 w1 w2 w3 : World σ) (f g : LogFile) (resp : Response σ),
      w.calls <+: w0.calls ∧
      getCurrentLogFileNewerThanTimestamp cl c ts w0 = (.ok (some f), w1) ∧
      downloadLogFile cl c f w1 = (.ok resp, w2) ∧
      getCurrentLogFileNewerThanTimestamp cl c ts w2 = (.ok (some g), w3) ∧
      g.LogFileName = f.LogFileName ∧
      (resp.Body w3.state).1.err = none ∧
      r = { reader := some (resp.Body w3.state).1.data, ok := true,
            logFileTimestamp := f.LastWritten, err := none } ∧
      w' = { w3 with state := (resp.Body w3.state).2 }) ∧
    (∀ (retries : Nat) (w0 w1 w2 w3 : World σ) (f g : LogFile) (resp : Response σ),
      getCurrentLogFileNewerThanTimestamp cl c ts w0 = (.ok (some f), w1) →
      downloadLogFile cl c f w1 = (.ok resp, w2) →
      getCurrentLogFileNewerThanTimestamp cl c ts w2 = (.ok (some g), w3) →
      g.LogFileName ≠ f.LogFileName →
      getLogs cl c ts retries w0 =
        match retries with
        | n + 1 => getLogs cl c ts n w3
        | 0 => (.returned (.failure "file was rotated when getting the logs"), w3)) := by
  constructor
  · have hs := (getLogs_spec cl c ts maxRetries w).2 r
    unfold GetLogs at h
    rw [h] at hs
    exact hs rfl hok
  · intro retries w0 w1 w2 w3 f g resp h1 h2 h3 hn
    have e := getLogs_attempt cl c ts retries w0 w1 w2 w3 f g resp h1 h2 h3
    rw [if_pos hn] at e
    rw [e]

/-- Witness of C2: the run of the test `TestGetLogsWithTimestampRotatedInBetween`. The
first attempt downloads the file named `audit/server_audit.log.1`, the second
selection gives `audit/server_audit.log.2`, and the second attempt returns the body
of its own download with the timestamp 1595259824000. -/
theorem GetLogs_returns_checked_download_witness :
    GetLogs rotatingClients testCollector 1595256406000 { state := 0, calls := [] } =
      (.returned { reader := some (ascii "1594710325000000,a\n"), ok := true,
                   logFileTimestamp := 1595259824000, err := none },
        (GetLogs rotatingClients testCollector 1595256406000 { state := 0, calls := [] }).2) ∧
    ((GetLogs rotatingClients testCollector 1595256406000 { state := 0, calls := [] }).2.calls.map
        (fun x => match x with
          | .Do _ path => path
          | _ => "")) =
      ["", "", "/v13/downloadCompleteLogFile/my-rds-instance/audit/server_audit.log.1", "", "",
       "", "/v13/downloadCompleteLogFile/my-rds-instance/audit/server_audit.log.2", ""] ∧
    ∃ (w0 w1 w2 w3 : World Nat) (f g : LogFile) (resp : Response Nat),
      ([] : List RdsCall) <+: w0.calls ∧
      getCurrentLogFileNewerThanTimestamp rotatingClients testCollector 1595256406000 w0 =
        (.ok (some f), w1) ∧
      downloadLogFile rotatingClients testCollector f w1 = (.ok resp, w2) ∧
      getCurrentLogFileNewerThanTimestamp rotatingClients testCollector 1595256406000 w2 =
        (.ok (some g), w3) ∧
      g.LogFileName = f.LogFileName ∧
      (resp.Body w3.state).1.err = none ∧
      ({ reader := some (ascii "1594710325000000,a\n"), ok := true,
         logFileTimestamp := 1595259824000, err := none } : GetLogsResult) =
        { reader := some (resp.Body w3.state).1.data, ok := true,
          logFileTimestamp := f.LastWritten, err := none } ∧
      (GetLogs rotatingClients testCollector 1595256406000 { state := 0, calls := [] }).2 =
        { w3 with state := (resp.Body w3.state).2 } :=
  ⟨Prod.ext (by decide!) rfl, by decide!,
    (GetLogs_returns_checked_download rotatingClients testCollector 1595256406000
      { state := 0, calls := [] } _ _ (Prod.ext (by decide!) rfl) rfl).1⟩

/-! ## The processing loop over the collector -/

theorem CallsGrow.weaken {σ : Type} {t t' : Int} {a b : World σ} (h : CallsGrow t' a b)
    (hle : t ≤ t') : CallsGrow t a b := by
  obtain ⟨n, e, p⟩ := h
  exact ⟨n, e, fun f hf => ⟨(p f hf).1, lt_of_le_of_lt hle (p f hf).2⟩⟩

theorem getLogs_ok_newer {σ : Type} (cl : RdsClients σ) (c : RdsLogCollector) (ts : Int)
    (retries : Nat) (w : World σ) (r : GetLogsResult)
    (h : (getLogs cl c ts retries w).1 = .returned r) (hok : r.ok = true) :
    r.logFileTimestamp > ts := by
  obtain ⟨w0, w1, w2, w3, f, g, resp, _, h1, _, _, _, _, hr, _⟩ :=
    (getLogs_spec cl c ts retries w).2 r h hok
  rw [hr]
  exact (getCurrent_qualifies cl c ts w0 w1 f h1).2

/-- The events of `writeEntries` are calls of `WriteLogEntry`. -/
theorem writeEntries_events {σ : Type} (c : Collaborators σ) :
    ∀ (entries : List (Option LogEntry)) (s : σ),
      ∀ e ∈ (writeEntries c entries s).2.1, ∃ x err, e = Event.WriteLogEntry x err
  | [], s => by simp [writeEntries]
  | none :: rest, s => by simp [writeEntries]
  | some entry :: rest, s => by
    rw [writeEntries]
    split
    · intro e he
      simp only [List.mem_singleton] at he
      exact ⟨_, _, he⟩
    · intro e he
      rcases List.mem_cons.mp he with h | h
      · exact ⟨_, _, h⟩
      · exact writeEntries_events c rest _ e h

theorem writeEntries_rds_calls {σ : Type} (cl : RdsClients σ) (c : RdsLogCollector)
    (loc : Int → Int) (b : Backends σ) :
    ∀ (entries : List (Option LogEntry)) (w : World σ),
      (writeEntries (rdsCollaborators cl c loc b) entries w).2.2.calls = w.calls
  | [], w => by simp [writeEntries]
  | none :: rest, w => by simp [writeEntries]
  | some entry :: rest, w => by
    rw [writeEntries]
    split
    · rfl
    · exact writeEntries_rds_calls cl c loc b rest _

theorem storedTimestamps_of_writes (tr : List Event)
    (h : ∀ e ∈ tr, ∃ x err, e = Event.WriteLogEntry x err) : storedTimestamps tr = [] := by
  unfold storedTimestamps
  rw [List.filterMap_eq_nil_iff]
  intro e he
  obtain ⟨x, err, rfl⟩ := h e he
  rfl

theorem RdsLoopInv.of_writes {σ : Type} (ts : Int) (w w' : World σ) (res : ProcessResult)
    (out : Outcome GetLogsResult) (tr : List Event)
    (hc : CallsGrow ts w w')
    (ho : ∀ r, out = .returned r → r.ok = true → r.logFileTimestamp > ts)
    (ht : ∀ e ∈ tr, ∃ x err, e = Event.WriteLogEntry x err) :
    RdsLoopInv ts w (res, Event.GetLogs ts out :: tr, w') := by
  refine ⟨hc, ?_, ?_, ?_⟩
  · intro t r hm hok
    rcases List.mem_cons.mp hm with h | h
    · simp only [Event.GetLogs.injEq] at h
      exact ho r h.2.symm hok
    · obtain ⟨x, err, hx⟩ := ht _ h
      cases hx
  · have : storedTimestamps (Event.GetLogs ts out :: tr) = [] := by
      have := storedTimestamps_of_writes tr ht
      unfold storedTimestamps at this ⊢
      rw [List.filterMap_cons]
      exact this
    rw [this]
    exact List.Pairwise.nil
  · have : storedTimestamps (Event.GetLogs ts out :: tr) = [] := by
      have := storedTimestamps_of_writes tr ht
      unfold storedTimestamps at this ⊢
      rw [List.filterMap_cons]
      exact this
    rw [this]
    simp

theorem storedTimestamps_iteration (ts : Int) (out : Outcome GetLogsResult) (tr rest : List Event)
    (ck : CheckpointRecord) (err : Option String)
    (ht : ∀ e ∈ tr, ∃ x err, e = Event.WriteLogEntry x err) :
    storedTimestamps (Event.GetLogs ts out :: tr ++ [Event.StoreCheckpoint ck err] ++ rest) =
      ck.LogFileTimestamp :: storedTimestamps rest := by
  have h1 := storedTimestamps_of_writes tr ht
  unfold storedTimestamps at h1 ⊢
  rw [List.cons_append, List.cons_append, List.filterMap_cons, List.append_assoc,
    List.filterMap_append, h1]
  simp

theorem RdsLoopInv.of_iteration {σ : Type} (ts : Int) (w w1 w2 : World σ)
    (res : ProcessResult) (r : GetLogsResult) (tr rest : List Event) (id : String)
    (err : Option String)
    (hc : CallsGrow ts w w1)
    (ho : r.ok = true → r.logFileTimestamp > ts) (hok : r.ok = true)
    (ht : ∀ e ∈ tr, ∃ x err, e = Event.WriteLogEntry x err)
    (hrest : RdsLoopInv r.logFileTimestamp w1 (res, rest, w2)) :
    RdsLoopInv ts w
      (res, Event.GetLogs ts (.returned r) :: tr ++
        [Event.StoreCheckpoint { LogFileTimestamp := r.logFileTimestamp, Id := id } err] ++ rest,
        w2) := by
  have hlt := ho hok
  obtain ⟨c1, c2, c3, c4⟩ := hrest
  refine ⟨hc.trans (c1.weaken (le_of_lt hlt)), ?_, ?_, ?_⟩
  · intro t r' hm hok'
    simp only [List.cons_append, List.mem_cons, List.mem_append, List.mem_singleton,
      List.append_assoc, List.not_mem_nil, false_or, List.nil_append] at hm
    rcases hm with h | h | h | h
    · simp only [Event.GetLogs.injEq, Outcome.returned.injEq] at h
      rw [h.2]; exact hlt
    · obtain ⟨x, e, hx⟩ := ht _ h
      cases hx
    · cases h
    · exact lt_trans hlt (c2 t r' h hok')
  · rw [storedTimestamps_iteration ts _ tr rest _ err ht]
    exact List.Pairwise.cons (fun v hv => c4 v hv) c3
  · rw [storedTimestamps_iteration ts _ tr rest _ err ht]
    intro v hv
    rcases List.mem_cons.mp hv with h | h
    · rw [h]; exact hlt
    · exact lt_trans hlt (c4 v h)

/-- The loop keeps its invariant for any collaborators whose `GetLogs` does and whose
writer and database make no call of the collector. -/
theorem processLoop_inv {σ : Type} (C : Collaborators (World σ)) (id : String)
    (hG : ∀ ts w, CallsGrow ts w (C.GetLogs ts w).2 ∧
      ∀ r, (C.GetLogs ts w).1 = .returned r → r.ok = true → r.logFileTimestamp > ts)
    (hW : ∀ e w, (C.WriteLogEntry e w).2.calls = w.calls)
    (hS : ∀ ck w, (C.StoreCheckpoint ck w).2.calls = w.calls) :
    ∀ (fuel : Nat) (ts : Int) (w : World σ), RdsLoopInv ts w (processLoop C id fuel ts w) := by
  have hWE : ∀ (entries : List (Option LogEntry)) (w : World σ),
      (writeEntries C entries w).2.2.calls = w.calls := by
    intro entries
    induction entries with
    | nil => intro w; simp [writeEntries]
    | cons a rest ih =>
      intro w
      cases a with
      | none => simp [writeEntries]
      | some entry =>
        rw [writeEntries]
        split
        · exact hW entry w
        · exact (ih _).trans (hW entry w)
  intro fuel
  induction fuel with
  | zero =>
    intro ts w
    exact ⟨CallsGrow.refl ts w, by simp [processLoop], by simp [processLoop, storedTimestamps],
      by simp [processLoop, storedTimestamps]⟩
  | succ n ih =>
    intro ts w
    have hg := (hG ts w).1
    have hn := (hG ts w).2
    have hnil : ∀ e ∈ ([] : List Event), ∃ x err, e = Event.WriteLogEntry x err := by simp
    rw [processLoop]
    simp only []
    split
    · exact RdsLoopInv.of_writes ts w _ _ _ [] hg hn hnil
    · rename_i out res hres
      split
      · exact RdsLoopInv.of_writes ts w _ _ _ [] hg hn hnil
      · split
        · exact RdsLoopInv.of_writes ts w _ _ _ [] hg hn hnil
        · rename_i hok
          have hok' : res.ok = true := by simpa using hok
          split
          · exact RdsLoopInv.of_writes ts w _ _ _ [] hg hn hnil
          · split
            · exact RdsLoopInv.of_writes ts w _ _ _ [] hg hn hnil
            · rename_i logLines _ logEntries hparse
              have hwe := writeEntries_events C logEntries (C.GetLogs ts w).2
              have hwc := hWE logEntries (C.GetLogs ts w).2
              have hg2 := hg.trans (CallsGrow.of_calls_eq ts _ _ hwc)
              split
              · exact RdsLoopInv.of_writes ts w _ _ _ _ hg2 hn hwe
              · exact RdsLoopInv.of_writes ts w _ _ _ _ hg2 hn hwe
              · have hg3 := hg2.trans (CallsGrow.of_calls_eq ts _ _
                  (hS { LogFileTimestamp := res.logFileTimestamp, Id := id }
                    (writeEntries C logEntries (C.GetLogs ts w).2).2.2))
                rw [hres]
                split
                · rename_i err herr
                  have := RdsLoopInv.of_iteration ts w _ _ (some (.returned (some
                    ("could not save marker: " ++ err)))) res _ [] id
                    (C.StoreCheckpoint { LogFileTimestamp := res.logFileTimestamp, Id := id }
                      (writeEntries C logEntries (C.GetLogs ts w).2).2.2).1
                    hg3 (hn res hres) hok' hwe
                    ⟨CallsGrow.refl _ _, by simp, by simp [storedTimestamps],
                      by simp [storedTimestamps]⟩
                  simpa using this
                · exact RdsLoopInv.of_iteration ts w _ _ _ res _ _ id _ hg3 (hn res hres) hok'
                    hwe (ih _ _)

theorem processLoop_rds {σ : Type} (cl : RdsClients σ) (c : RdsLogCollector)
    (loc : Int → Int) (b : Backends σ) (id : String) (fuel : Nat) (ts : Int) (w : World σ) :
    RdsLoopInv ts w (processLoop (rdsCollaborators cl c loc b) id fuel ts w) :=
  processLoop_inv (rdsCollaborators cl c loc b) id
    (fun ts w => ⟨(getLogs_spec cl c ts maxRetries w).1,
      getLogs_ok_newer cl c ts maxRetries w⟩)
    (fun _ _ => rfl) (fun _ _ => rfl) fuel ts w

/-- C4. A run of `Process` over the `RdsLogCollector`, started with no call made yet in
a world whose readiness check succeeds and whose database answers `GetCheckpoint` with
the checkpoint `ck` (timestamp T, or 0 when there is no record): every file handed to
`downloadLogFile` is rotated and has `LastWritten` above T, every file that `GetLogs`
returns for processing has a timestamp above T, and the timestamps passed to
`StoreCheckpoint` are strictly increasing and above T. This holds for every number
of iterations and every behaviour of the remote side and the backends. -/
theorem Process_watermark_increases {σ : Type} (cl : RdsClients σ) (c : RdsLogCollector)
    (loc : Int → Int) (b : Backends σ) (rid : String) (fuel : Nat) (s : σ)
    (ck : Option CheckpointRecord)
    (hv : (b.ValidateAndPrepareRDSInstance s).1 = none)
    (hck : (b.GetCheckpoint (rid ++ ":" ++ "audit") (b.ValidateAndPrepareRDSInstance s).2).1 =
      .ok ck) :
    (∀ f, RdsCall.downloadLogFile f ∈
        (Process (rdsCollaborators cl c loc b) rid fuel { state := s, calls := [] }).2.2.calls →
      f.IsRotatedFile = true ∧
        f.LastWritten > (startTimestamp ck)) ∧
    (∀ t r, Event.GetLogs t (.returned r) ∈
        (Process (rdsCollaborators cl c loc b) rid fuel { state := s, calls := [] }).2.1 →
      r.ok = true →
      r.logFileTimestamp > (startTimestamp ck)) ∧
    (storedTimestamps
      (Process (rdsCollaborators cl c loc b) rid fuel { state := s, calls := [] }).2.1).Pairwise
        (fun x y => x < y) ∧
    ∀ v ∈ storedTimestamps
        (Process (rdsCollaborators cl c loc b) rid fuel { state := s, calls := [] }).2.1,
      (startTimestamp ck) < v := by
  have hP : Process (rdsCollaborators cl c loc b) rid fuel { state := s, calls := [] } =
      ((processLoop (rdsCollaborators cl c loc b) (rid ++ ":" ++ "audit") fuel
          (startTimestamp ck)
          { state := (b.GetCheckpoint (rid ++ ":" ++ "audit")
              (b.ValidateAndPrepareRDSInstance s).2).2, calls := [] }).1,
        Event.ValidateAndPrepareRDSInstance none ::
          Event.GetCheckpoint (rid ++ ":" ++ "audit") (.ok ck) ::
          (processLoop (rdsCollaborators cl c loc b) (rid ++ ":" ++ "audit") fuel
            (startTimestamp ck)
            { state := (b.GetCheckpoint (rid ++ ":" ++ "audit")
                (b.ValidateAndPrepareRDSInstance s).2).2, calls := [] }).2.1,
        (processLoop (rdsCollaborators cl c loc b) (rid ++ ":" ++ "audit") fuel
            (startTimestamp ck)
            { state := (b.GetCheckpoint (rid ++ ":" ++ "audit")
                (b.ValidateAndPrepareRDSInstance s).2).2, calls := [] }).2.2) := by
    simp only [Process, rdsCollaborators, hv, hck]
    cases ck <;> rfl
  rw [hP]
  obtain ⟨⟨new, hnew, hdl⟩, h2, h3, h4⟩ := processLoop_rds cl c loc b (rid ++ ":" ++ "audit") fuel
    (startTimestamp ck)
    { state := (b.GetCheckpoint (rid ++ ":" ++ "audit")
        (b.ValidateAndPrepareRDSInstance s).2).2, calls := [] }
  have hst : ∀ tr : List Event, storedTimestamps
      (Event.ValidateAndPrepareRDSInstance none ::
        Event.GetCheckpoint (rid ++ ":" ++ "audit") (.ok ck) :: tr) = storedTimestamps tr := by
    intro tr; rfl
  refine ⟨?_, ?_, ?_, ?_⟩
  · intro f hf
    simp only [List.nil_append] at hnew
    rw [hnew] at hf
    exact hdl f hf
  · intro t r hm hok
    simp only [List.mem_cons] at hm
    rcases hm with h | h | h
    · cases h
    · cases h
    · exact h2 t r h hok
  · simp only [hst]; exact h3
  · simp only [hst]; exact h4

/-- Witness of C4: the run over the remote side of the rotation test from the
checkpoint 1595256406000, which stores 1595259824000 and then 1595262837000. -/
theorem Process_watermark_increases_witness :
    ((checkpointBackends 1595256406000).ValidateAndPrepareRDSInstance 0).1 = none ∧
    ((checkpointBackends 1595256406000).GetCheckpoint ("my-rds-instance" ++ ":" ++ "audit")
        ((checkpointBackends 1595256406000).ValidateAndPrepareRDSInstance 0).2).1 =
      .ok (some { LogFileTimestamp := 1595256406000, Id := "my-rds-instance:audit" }) ∧
    storedTimestamps
      (Process (rdsCollaborators rotatingClients testCollector UTC
        (checkpointBackends 1595256406000)) "my-rds-instance" 3
        { state := 0, calls := [] }).2.1 = [1595259824000, 1595262837000] ∧
    (Process (rdsCollaborators rotatingClients testCollector UTC
        (checkpointBackends 1595256406000)) "my-rds-instance" 3
        { state := 0, calls := [] }).1 = some (.returned none) ∧
    ((∀ f, RdsCall.downloadLogFile f ∈
        (Process (rdsCollaborators rotatingClients testCollector UTC
          (checkpointBackends 1595256406000)) "my-rds-instance" 3
          { state := 0, calls := [] }).2.2.calls →
      f.IsRotatedFile = true ∧ f.LastWritten > 1595256406000) ∧
    (∀ t r, Event.GetLogs t (.returned r) ∈
        (Process (rdsCollaborators rotatingClients testCollector UTC
          (checkpointBackends 1595256406000)) "my-rds-instance" 3
          { state := 0, calls := [] }).2.1 →
      r.ok = true → r.logFileTimestamp > 1595256406000) ∧
    (storedTimestamps
      (Process (rdsCollaborators rotatingClients testCollector UTC
        (checkpointBackends 1595256406000)) "my-rds-instance" 3
        { state := 0, calls := [] }).2.1).Pairwise (fun x y => x < y) ∧
    ∀ v ∈ storedTimestamps
        (Process (rdsCollaborators rotatingClients testCollector UTC
          (checkpointBackends 1595256406000)) "my-rds-instance" 3
          { state := 0, calls := [] }).2.1,
      1595256406000 < v) :=
  ⟨rfl, rfl, by decide!, by decide!,
    Process_watermark_increases rotatingClients testCollector UTC
      (checkpointBackends 1595256406000) "my-rds-instance" 3 0
      (some { LogFileTimestamp := 1595256406000, Id := "my-rds-instance:audit" }) rfl rfl⟩

/-! ## The shape of a run of Process -/

theorem writeEntries_shape {σ : Type} (c : Collaborators σ) :
    ∀ (entries : List (Option LogEntry)) (s : σ),
      ((writeEntries c entries s).1 = .returned none ∧
        ∃ recs : List LogEntry, entries = recs.map some ∧
          (writeEntries c entries s).2.1 = recs.map writeOk) ∨
      ((writeEntries c entries s).1 = .panic ∧
        ∃ (written : List LogEntry) (rest : List (Option LogEntry)),
          entries = written.map some ++ none :: rest ∧
          (writeEntries c entries s).2.1 = written.map writeOk) ∨
      (∃ (written : List LogEntry) (entry : LogEntry) (rest : List (Option LogEntry))
          (err : String),
        (writeEntries c entries s).1 =
          .returned (some ("could not write log entry: " ++ err)) ∧
        entries = written.map some ++ some entry :: rest ∧
        (writeEntries c entries s).2.1 =
          written.map writeOk ++ [Event.WriteLogEntry entry (some err)])
  | [], s => Or.inl ⟨rfl, [], rfl, rfl⟩
  | none :: rest, s => Or.inr (Or.inl ⟨rfl, [], rest, rfl, rfl⟩)
  | some entry :: rest, s => by
    rw [writeEntries]
    split
    · rename_i err herr
      exact Or.inr (Or.inr ⟨[], entry, rest, err, rfl, rfl, rfl⟩)
    · rename_i herr
      rcases writeEntries_shape c rest (c.WriteLogEntry entry s).2 with
        ⟨h1, recs, h2, h3⟩ | ⟨h1, written, rest', h2, h3⟩ | ⟨written, e, rest', err, h1, h2, h3⟩
      · exact Or.inl ⟨h1, entry :: recs, by simp [h2], by simp [h3, writeOk]⟩
      · exact Or.inr (Or.inl ⟨h1, entry :: written, rest', by simp [h2], by simp [h3, writeOk]⟩)
      · exact Or.inr (Or.inr ⟨entry :: written, e, rest', err, h1, by simp [h2],
          by simp [h3, writeOk]⟩)

/-- Every run of the loop is a sequence of completed iterations followed by one of
the endings. -/
theorem processLoop_shape {σ : Type} (c : Collaborators σ) (id : String) :
    ∀ (fuel : Nat) (w : Int) (s : σ),
      ∃ its : List (GetLogsResult × List LogEntry),
        (∀ it ∈ its, CompletedIteration c it) ∧
        ∃ last, (processLoop c id fuel w s).2.1 = iterationsTrace id w its ++ last ∧
          LastIteration c id (lastTimestamp w its) (processLoop c id fuel w s).1 last := by
  intro fuel
  induction fuel with
  | zero =>
    intro w s
    exact ⟨[], by simp, [], rfl, LastIteration.outOfFuel⟩
  | succ n ih =>
    intro w s
    rw [processLoop]
    simp only []
    split
    · rename_i hres
      refine ⟨[], by simp, _, rfl, ?_⟩
      rw [hres]
      exact LastIteration.getLogsPanic
    · rename_i out res hres
      rw [hres]
      split
      · rename_i err herr
        exact ⟨[], by simp, _, rfl, LastIteration.getLogsError res err herr⟩
      · rename_i herr
        split
        · rename_i hok
          exact ⟨[], by simp, _, rfl, LastIteration.noMoreLogs res herr (by simpa using hok)⟩
        · rename_i hok
          have hok' : res.ok = true := by simpa using hok
          split
          · rename_i hreader
            exact ⟨[], by simp, _, rfl, LastIteration.nilReader res herr hok' hreader⟩
          · rename_i body hreader
            split
            · rename_i perr hparse
              exact ⟨[], by simp, _, rfl,
                LastIteration.parseError res body perr herr hok' hreader hparse⟩
            · rename_i logEntries hparse
              rcases writeEntries_shape c logEntries (c.GetLogs w s).2 with
                ⟨h1, recs, h2, h3⟩ | ⟨h1, written, rest, h2, h3⟩ |
                ⟨written, e, rest, err, h1, h2, h3⟩
              · rw [h1, h3]
                simp only []
                split
                · rename_i serr hserr
                  rw [hserr]
                  exact ⟨[], by simp, _, rfl, LastIteration.storeFailed res body recs serr herr
                    hok' hreader (h2 ▸ hparse)⟩
                · rename_i hserr
                  rw [hserr]
                  obtain ⟨its, hits, last, htr, hlast⟩ := ih res.logFileTimestamp
                    (c.StoreCheckpoint { LogFileTimestamp := res.logFileTimestamp, Id := id }
                      (writeEntries c logEntries (c.GetLogs w s).2).2.2).2
                  refine ⟨(res, recs) :: its, ?_, last, ?_, hlast⟩
                  · intro it hit
                    rcases List.mem_cons.mp hit with h | h
                    · rw [h]
                      exact ⟨hok', herr, body, hreader, h2 ▸ hparse⟩
                    · exact hits it h
                  · simp only [htr, iterationsTrace, List.append_assoc, List.cons_append]
              · rw [h1, h3]
                exact ⟨[], by simp, _, rfl, LastIteration.nilEntry res body written rest herr
                  hok' hreader (h2 ▸ hparse)⟩
              · rw [h1, h3]
                exact ⟨[], by simp, _, rfl, LastIteration.writeFailed res body written e rest
                  err herr hok' hreader (h2 ▸ hparse)⟩

theorem Process_shape {σ : Type} (c : Collaborators σ) (rid : String) (fuel : Nat) (s : σ) :
    ProcessRun c rid (Process c rid fuel s).1 (Process c rid fuel s).2.1 := by
  rw [Process]
  simp only []
  split
  · rename_i err herr
    rw [herr]
    exact ProcessRun.validateFailed err
  · rename_i herr
    rw [herr]
    split
    · rename_i err hg
      rw [hg]
      exact ProcessRun.getCheckpointFailed err
    · rename_i ck hg
      rw [hg]
      obtain ⟨its, hits, last, htr, hlast⟩ := processLoop_shape c (rid ++ ":" ++ "audit") fuel
        (startTimestamp ck) (c.GetCheckpoint (rid ++ ":" ++ "audit")
          (c.ValidateAndPrepareRDSInstance s).2).2
      have := ProcessRun.loop ck its _ last hits hlast
      rw [← htr] at this
      cases ck <;> exact this

/-- More iterations do not change a run that has ended. -/
theorem processLoop_fuel_succ {σ : Type} (c : Collaborators σ) (id : String) :
    ∀ (fuel : Nat) (w : Int) (s : σ), (processLoop c id fuel w s).1 = none ∨
      processLoop c id (fuel + 1) w s = processLoop c id fuel w s := by
  intro fuel
  induction fuel with
  | zero => intro w s; exact Or.inl rfl
  | succ n ih =>
    intro w s
    rw [processLoop]
    conv => rhs; lhs; rw [processLoop]
    simp only []
    split
    · exact Or.inr rfl
    · split
      · exact Or.inr rfl
      · split
        · exact Or.inr rfl
        · split
          · exact Or.inr rfl
          · split
            · exact Or.inr rfl
            · split
              · exact Or.inr rfl
              · exact Or.inr rfl
              · split
                · exact Or.inr rfl
                · rename_i res _ _ _ _ _ _ _ _ logEntries _ _ _ _ _
                  rcases ih res.logFileTimestamp
                    (c.StoreCheckpoint { LogFileTimestamp := res.logFileTimestamp, Id := id }
                      (writeEntries c logEntries (c.GetLogs w s).2).2.2).2 with h | h
                  · exact Or.inl h
                  · right
                    rw [h]

theorem processLoop_fuel_add {σ : Type} (c : Collaborators σ) (id : String)
    (fuel : Nat) (w : Int) (s : σ) (h : (processLoop c id fuel w s).1 ≠ none) :
    ∀ k, processLoop c id (fuel + k) w s = processLoop c id fuel w s := by
  intro k
  induction k with
  | zero => rfl
  | succ k ih =>
    rcases processLoop_fuel_succ c id (fuel + k) w s with h1 | h1
    · rw [ih] at h1; exact absurd h1 h
    · rw [← ih, ← h1]; rfl

theorem Process_fuel_add {σ : Type} (c : Collaborators σ) (rid : String)
    (fuel : Nat) (s : σ) (h : (Process c rid fuel s).1 ≠ none) :
    ∀ k, Process c rid (fuel + k) s = Process c rid fuel s := by
  intro k
  cases hv : (c.ValidateAndPrepareRDSInstance s).1 with
  | some err => simp only [Process, hv]
  | none =>
    cases hck : (c.GetCheckpoint (rid ++ ":" ++ "audit")
        (c.ValidateAndPrepareRDSInstance s).2).1 with
    | error err => simp only [Process, hv, hck]
    | ok ck =>
      simp only [Process, hv, hck] at h ⊢
      rw [processLoop_fuel_add c _ fuel _ _ h k]

/-! ## Runs of Process -/

theorem NoFailedWrite.nil : NoFailedWrite [] := by
  intro e he; cases he

theorem NoFailedWrite.append {a b : List Event} (ha : NoFailedWrite a) (hb : NoFailedWrite b) :
    NoFailedWrite (a ++ b) := by
  intro e he
  rcases List.mem_append.mp he with h | h
  · exact ha e h
  · exact hb e h

theorem NoFailedWrite.cons {e : Event} {a : List Event}
    (he : ∀ x err, e ≠ Event.WriteLogEntry x (some err)) (ha : NoFailedWrite a) :
    NoFailedWrite (e :: a) := by
  intro e' he'
  rcases List.mem_cons.mp he' with h | h
  · rw [h]; exact he
  · exact ha e' h

theorem NoFailedWrite.writes (recs : List LogEntry) : NoFailedWrite (recs.map writeOk) := by
  intro e he x err
  obtain ⟨r, _, rfl⟩ := List.mem_map.mp he
  simp [writeOk]

theorem NoFailedWrite.iterations (id : String) :
    ∀ (its : List (GetLogsResult × List LogEntry)) (w : Int),
      NoFailedWrite (iterationsTrace id w its)
  | [], w => NoFailedWrite.nil
  | (r, recs) :: rest, w => by
    rw [iterationsTrace]
    refine NoFailedWrite.append (NoFailedWrite.append ?_ ?_) (NoFailedWrite.iterations id rest _)
    · exact NoFailedWrite.cons (by intro x err h; cases h) (NoFailedWrite.writes recs)
    · exact NoFailedWrite.cons (by intro x err h; cases h) NoFailedWrite.nil

theorem NoFailedWrite.not_mem_split {tr pre post : List Event} {x : LogEntry} {err : String}
    (h : NoFailedWrite tr) (he : tr = pre ++ Event.WriteLogEntry x (some err) :: post) : False :=
  h (Event.WriteLogEntry x (some err)) (by rw [he]; simp) x err rfl

theorem split_at_last_failed_write :
    ∀ (a pre post : List Event) (e y : Event),
      NoFailedWrite a → (∃ x err, y = Event.WriteLogEntry x (some err)) →
      a ++ [e] = pre ++ y :: post → pre = a ∧ y = e ∧ post = []
  | [], pre, post, e, y, _, _, h => by
    cases pre with
    | nil =>
      simp only [List.nil_append, List.cons.injEq] at h
      exact ⟨rfl, h.1.symm, h.2.symm⟩
    | cons p pre =>
      simp only [List.nil_append, List.cons_append, List.cons.injEq] at h
      have := h.2
      cases pre <;> simp at this
  | b :: a, pre, post, e, y, ha, hy, h => by
    cases pre with
    | nil =>
      simp only [List.nil_append, List.cons_append, List.cons.injEq] at h
      obtain ⟨x, err, hx⟩ := hy
      exact absurd (h.1.trans hx) (ha b (List.mem_cons_self _ _) x err)
    | cons p pre =>
      simp only [List.cons_append, List.cons.injEq] at h
      obtain ⟨h1, h2, h3⟩ := split_at_last_failed_write a pre post e y
        (fun e' he' => ha e' (List.mem_cons_of_mem _ he')) hy h.2
      exact ⟨by rw [h.1, h1], h2, h3⟩

/-- C5. If `WriteLogEntry` fails for a record in a run of `Process`, that call is the
last call of the run and `Process` returns the error. Before it the run consists of
the readiness check, the reading of the checkpoint, a sequence of completed
iterations (each one: `GetLogs`, the successful writes of all the records of the
file, the successful `StoreCheckpoint` of its timestamp) and, for the file of the
failing record, the call of `GetLogs` and the successful writes of the records that
precede the failing one. So no later record of that file is written, there is no
`StoreCheckpoint` for that file and no further `GetLogs`, and the checkpoints stored
are those of the completed iterations. -/
theorem Process_stops_at_failed_write {σ : Type} (c : Collaborators σ) (rid : String)
    (fuel : Nat) (s : σ) (pre post : List Event) (entry : LogEntry) (err : String)
    (h : (Process c rid fuel s).2.1 = pre ++ Event.WriteLogEntry entry (some err) :: post) :
    post = [] ∧
    (Process c rid fuel s).1 = some (.returned (some ("could not write log entry: " ++ err))) ∧
    ∃ (ck : Option CheckpointRecord) (its : List (GetLogsResult × List LogEntry))
      (r : GetLogsResult) (body : List Nat) (written : List LogEntry)
      (rest : List (Option LogEntry)),
      (∀ it ∈ its, CompletedIteration c it) ∧
      pre = Event.ValidateAndPrepareRDSInstance none ::
        Event.GetCheckpoint (rid ++ ":" ++ "audit") (.ok ck) ::
        (iterationsTrace (rid ++ ":" ++ "audit") (startTimestamp ck) its ++
          Event.GetLogs (lastTimestamp (startTimestamp ck) its) (.returned r) ::
            written.map writeOk) ∧
      r.ok = true ∧ r.err = none ∧ r.reader = some body ∧
      c.ParseEntries body r.logFileTimestamp = .ok (written.map some ++ some entry :: rest) := by
  have hshape := Process_shape c rid fuel s
  generalize (Process c rid fuel s).1 = res at hshape ⊢
  generalize (Process c rid fuel s).2.1 = tr at hshape h
  have hV : ∀ o, ∀ x err, Event.ValidateAndPrepareRDSInstance o ≠
      Event.WriteLogEntry x (some err) := by intro o x err h; cases h
  have hG : ∀ i o, ∀ x err, Event.GetCheckpoint i o ≠
      Event.WriteLogEntry x (some err) := by intro i o x err h; cases h
  have hL : ∀ w o, ∀ x err, Event.GetLogs w o ≠
      Event.WriteLogEntry x (some err) := by intro w o x err h; cases h
  have hS : ∀ k o, ∀ x err, Event.StoreCheckpoint k o ≠
      Event.WriteLogEntry x (some err) := by intro k o x err h; cases h
  cases hshape with
  | validateFailed e =>
    exact (NoFailedWrite.not_mem_split (NoFailedWrite.cons (hV _) NoFailedWrite.nil) h).elim
  | getCheckpointFailed e =>
    exact (NoFailedWrite.not_mem_split
      (NoFailedWrite.cons (hV _) (NoFailedWrite.cons (hG _ _) NoFailedWrite.nil)) h).elim
  | loop ck its res last hits hlast =>
    have hI := NoFailedWrite.iterations (rid ++ ":" ++ "audit") its (startTimestamp ck)
    have hbad : ∀ l, NoFailedWrite l →
        Event.ValidateAndPrepareRDSInstance none ::
          Event.GetCheckpoint (rid ++ ":" ++ "audit") (.ok ck) ::
          (iterationsTrace (rid ++ ":" ++ "audit") (startTimestamp ck) its ++ l) =
          pre ++ Event.WriteLogEntry entry (some err) :: post → False := fun l hl he =>
      NoFailedWrite.not_mem_split
        (NoFailedWrite.cons (hV _) (NoFailedWrite.cons (hG _ _) (hI.append hl))) he
    cases hlast with
    | outOfFuel => exact (hbad _ NoFailedWrite.nil h).elim
    | getLogsPanic => exact (hbad _ (NoFailedWrite.cons (hL _ _) NoFailedWrite.nil) h).elim
    | getLogsError r e herr =>
      exact (hbad _ (NoFailedWrite.cons (hL _ _) NoFailedWrite.nil) h).elim
    | noMoreLogs r herr hok =>
      exact (hbad _ (NoFailedWrite.cons (hL _ _) NoFailedWrite.nil) h).elim
    | nilReader r herr hok hreader =>
      exact (hbad _ (NoFailedWrite.cons (hL _ _) NoFailedWrite.nil) h).elim
    | parseError r body e herr hok hreader hparse =>
      exact (hbad _ (NoFailedWrite.cons (hL _ _) NoFailedWrite.nil) h).elim
    | nilEntry r body written rest herr hok hreader hparse =>
      exact (hbad _ (NoFailedWrite.cons (hL _ _) (NoFailedWrite.writes written)) h).elim
    | storeFailed r body recs e herr hok hreader hparse =>
      exact (hbad _ (NoFailedWrite.cons (hL _ _) ((NoFailedWrite.writes recs).append
        (NoFailedWrite.cons (hS _ _) NoFailedWrite.nil))) h).elim
    | writeFailed r body written e rest err' herr hok hreader hparse =>
      have hA : NoFailedWrite (Event.ValidateAndPrepareRDSInstance none ::
          Event.GetCheckpoint (rid ++ ":" ++ "audit") (.ok ck) ::
          (iterationsTrace (rid ++ ":" ++ "audit") (startTimestamp ck) its ++
            Event.GetLogs (lastTimestamp (startTimestamp ck) its) (.returned r) ::
              written.map writeOk)) :=
        NoFailedWrite.cons (hV _) (NoFailedWrite.cons (hG _ _)
          (hI.append (NoFailedWrite.cons (hL _ _) (NoFailedWrite.writes written))))
      have h' : (Event.ValidateAndPrepareRDSInstance none ::
          Event.GetCheckpoint (rid ++ ":" ++ "audit") (.ok ck) ::
          (iterationsTrace (rid ++ ":" ++ "audit") (startTimestamp ck) its ++
            Event.GetLogs (lastTimestamp (startTimestamp ck) its) (.returned r) ::
              written.map writeOk)) ++ [Event.WriteLogEntry e (some err')] =
          pre ++ Event.WriteLogEntry entry (some err) :: post := by
        rw [← h]; simp
      obtain ⟨h1, h2, h3⟩ := split_at_last_failed_write _ pre post _ _ hA ⟨entry, err, rfl⟩ h'
      simp only [Event.WriteLogEntry.injEq, Option.some.injEq] at h2
      obtain ⟨he, herr'⟩ := h2
      subst he
      subst herr'
      exact ⟨h3, rfl, ck, its, r, body, written, rest, hits, h1, hok, herr, hreader, hparse⟩

/-! ## Runs of Process without failure -/

theorem parseLoop_logFileTimestamp (loc : Int → Int) (ts : Int) :
    ∀ (toks : List (List Nat)) (entries : List (Option LogEntry)) (cur : Option LogEntry)
      (out : List (Option LogEntry)),
      (∀ e, some e ∈ entries → e.LogFileTimestamp = ts) →
      (∀ e, cur = some e → e.LogFileTimestamp = ts) →
      parseLoop loc ts toks entries cur = .ok out →
      ∀ e, some e ∈ out → e.LogFileTimestamp = ts
  | [], entries, cur, out, he, hc, h => by
    rw [parseLoop] at h
    cases h
    intro e hm
    rcases List.mem_append.mp hm with h1 | h1
    · exact he e h1
    · exact hc e (List.mem_singleton.mp h1).symm
  | txt :: rest, entries, cur, out, he, hc, h => by
    rw [parseLoop] at h
    split at h
    · exact parseLoop_logFileTimestamp loc ts rest entries cur out he hc h
    · split at h
      · cases h
      · rename_i newTS _
        cases cur with
        | none =>
          refine parseLoop_logFileTimestamp loc ts rest _ _ out he ?_ h
          intro e hm
          cases hm
          rfl
        | some c0 =>
          have hc0 := hc c0 rfl
          by_cases hne : c0.Timestamp ≠ newTS
          · simp only [if_pos hne] at h
            refine parseLoop_logFileTimestamp loc ts rest _ _ out ?_ ?_ h
            · intro e hm
              rcases List.mem_append.mp hm with h1 | h1
              · exact he e h1
              · have : some e = some c0 := List.mem_singleton.mp h1
                cases this
                exact hc0
            · intro e hm
              cases hm
              rfl
          · simp only [if_neg hne] at h
            refine parseLoop_logFileTimestamp loc ts rest _ _ out he ?_ h
            intro e hm
            cases hm
            exact hc0

theorem ParseEntries_logFileTimestamp (loc : Int → Int) (data : List Nat) (ts : Int)
    (out : List (Option LogEntry)) (h : ParseEntries loc data ts = .ok out) :
    ∀ e, some e ∈ out → e.LogFileTimestamp = ts :=
  parseLoop_logFileTimestamp loc ts (scanLines data) [] none out
    (fun e he => by cases he) (fun e he => by cases he) h

theorem getLogsAnswers_append (a b : List Event) :
    getLogsAnswers (a ++ b) = getLogsAnswers a ++ getLogsAnswers b := by
  simp [getLogsAnswers, List.filterMap_append]

theorem getLogsAnswers_writes (recs : List LogEntry) :
    getLogsAnswers (recs.map writeOk) = [] := by
  induction recs with
  | nil => rfl
  | cons r rs ih =>
    rw [List.map_cons]
    exact ih

theorem getLogsAnswers_iterations (id : String) :
    ∀ (its : List (GetLogsResult × List LogEntry)) (w : Int),
      getLogsAnswers (iterationsTrace id w its) = its.map (fun it => Outcome.returned it.1)
  | [], w => rfl
  | (r, recs) :: rest, w => by
    rw [iterationsTrace, getLogsAnswers_append, getLogsAnswers_append,
      getLogsAnswers_iterations id rest]
    have h1 : getLogsAnswers (Event.GetLogs w (.returned r) :: recs.map writeOk) =
        [Outcome.returned r] := by
      show Outcome.returned r :: getLogsAnswers (recs.map writeOk) = _
      rw [getLogsAnswers_writes]
    rw [h1]
    rfl

theorem completed_iterations_of_files {σ : Type} (c : Collaborators σ) :
    ∀ (its : List (GetLogsResult × List LogEntry)) (files : List (List Nat × Int)),
      its.map (fun it => Outcome.returned it.1) =
        files.map (fun f => Outcome.returned (fileResult f)) →
      (∀ it ∈ its, CompletedIteration c it) →
      List.Forall₂ (fun f rs => c.ParseEntries f.1 f.2 = .ok (rs.map some)) files
        (its.map Prod.snd) ∧
      its = (files.map fileResult).zip (its.map Prod.snd)
  | [], [], _, _ => ⟨List.Forall₂.nil, rfl⟩
  | [], _ :: _, h, _ => by cases h
  | _ :: _, [], h, _ => by cases h
  | (r, recs) :: its, f :: files, h, hc => by
    simp only [List.map_cons, List.cons.injEq, Outcome.returned.injEq] at h
    obtain ⟨hr, hrest⟩ := h
    obtain ⟨ih1, ih2⟩ := completed_iterations_of_files c its files hrest
      (fun it hit => hc it (List.mem_cons_of_mem _ hit))
    obtain ⟨_, _, body, hb, hp⟩ := hc (r, recs) (List.mem_cons_self _ _)
    dsimp only at hr hb hp
    subst hr
    have hbody : body = f.1 := by
      simp only [fileResult, Option.some.injEq] at hb
      exact hb.symm
    subst hbody
    refine ⟨List.Forall₂.cons hp ih1, ?_⟩
    simp only [List.map_cons, List.zip_cons_cons, List.cons.injEq, true_and]
    exact ih2

theorem completed_not_appended {σ : Type} (c : Collaborators σ)
    (its : List (GetLogsResult × List LogEntry)) (pre : List (Outcome GetLogsResult))
    (final : GetLogsResult) (hok : final.ok = false)
    (hc : ∀ it ∈ its, CompletedIteration c it)
    (h : its.map (fun it => Outcome.returned it.1) = pre ++ [Outcome.returned final]) :
    False := by
  have hm : Outcome.returned final ∈ its.map (fun it => Outcome.returned it.1) := by
    rw [h]; simp
  obtain ⟨it, hit, he⟩ := List.mem_map.mp hm
  simp only [Outcome.returned.injEq] at he
  have := (hc it hit).1
  rw [he, hok] at this
  cases this

/-- C3. A run of `Process` in which `GetLogs` answers ok = true without error for the
files with bodies b_1..b_n and timestamps t_1..t_n and then answers ok = false
without error. Then every other call of the run succeeded and the run is: the
readiness check, the reading of the checkpoint, for each file i in order the call of
`GetLogs` with t_(i-1) (t_0 the value of the checkpoint read, 0 when there is none),
the successful write of each record of `ParseEntries(b_i, t_i)` once and in the order
of the parser, one successful `StoreCheckpoint` of (id, t_i), and after the last file
the call of `GetLogs` with t_n. `Process` returns no error, with any larger number of
iterations allowed as well. The records of file i carry `LogFileTimestamp` t_i when the
parser is `AuditLogParser`. For n = 0 the run is the first two calls and one call of
`GetLogs`: nothing is written and no checkpoint is stored. -/
theorem Process_run_without_failure {σ : Type} (c : Collaborators σ) (rid : String)
    (fuel : Nat) (s : σ) (files : List (List Nat × Int)) (final : GetLogsResult)
    (hok : final.ok = false) (herr : final.err = none)
    (h : getLogsAnswers (Process c rid fuel s).2.1 =
      files.map (fun f => Outcome.returned (fileResult f)) ++ [Outcome.returned final]) :
    ∃ (ck : Option CheckpointRecord) (recs : List (List LogEntry)),
      List.Forall₂ (fun f rs => c.ParseEntries f.1 f.2 = .ok (rs.map some)) files recs ∧
      (Process c rid fuel s).2.1 =
        Event.ValidateAndPrepareRDSInstance none ::
        Event.GetCheckpoint (rid ++ ":" ++ "audit") (.ok ck) ::
        (iterationsTrace (rid ++ ":" ++ "audit") (startTimestamp ck)
            ((files.map fileResult).zip recs) ++
          [Event.GetLogs
            (lastTimestamp (startTimestamp ck) ((files.map fileResult).zip recs))
            (.returned final)]) ∧
      (Process c rid fuel s).1 = some (.returned none) ∧
      (∀ k, Process c rid (fuel + k) s = Process c rid fuel s) ∧
      (∀ loc, c.ParseEntries = ParseEntries loc →
        List.Forall₂ (fun f rs => ∀ e ∈ rs, e.LogFileTimestamp = f.2) files recs) ∧
      (files = [] → (Process c rid fuel s).2.1 =
        [Event.ValidateAndPrepareRDSInstance none,
         Event.GetCheckpoint (rid ++ ":" ++ "audit") (.ok ck),
         Event.GetLogs (startTimestamp ck) (.returned final)]) := by
  have hshape := Process_shape c rid fuel s
  have hfuel := Process_fuel_add c rid fuel s
  generalize (Process c rid fuel s).1 = res at hshape hfuel ⊢
  generalize (Process c rid fuel s).2.1 = tr at hshape h ⊢
  cases hshape with
  | validateFailed e =>
    have := congrArg List.length h
    simp [getLogsAnswers] at this
  | getCheckpointFailed e =>
    have := congrArg List.length h
    simp [getLogsAnswers] at this
  | loop ck its res last hits hlast =>
    have hsplit : getLogsAnswers (Event.ValidateAndPrepareRDSInstance none ::
          Event.GetCheckpoint (rid ++ ":" ++ "audit") (.ok ck) ::
          (iterationsTrace (rid ++ ":" ++ "audit") (startTimestamp ck) its ++ last)) =
        its.map (fun it => Outcome.returned it.1) ++ getLogsAnswers last := by
      show getLogsAnswers (iterationsTrace (rid ++ ":" ++ "audit") (startTimestamp ck) its ++
        last) = _
      rw [getLogsAnswers_append, getLogsAnswers_iterations]
    rw [hsplit] at h
    have hone : ∀ (r : Outcome GetLogsResult) (l : List Event),
        getLogsAnswers l = [] →
        its.map (fun it => Outcome.returned it.1) ++
            getLogsAnswers (Event.GetLogs (lastTimestamp (startTimestamp ck) its) r :: l) =
          files.map (fun f => Outcome.returned (fileResult f)) ++ [Outcome.returned final] →
        its.map (fun it => Outcome.returned it.1) =
          files.map (fun f => Outcome.returned (fileResult f)) ∧ r = Outcome.returned final := by
      intro r l hl h
      have e : getLogsAnswers (Event.GetLogs (lastTimestamp (startTimestamp ck) its) r :: l) =
          [r] := by
        show r :: getLogsAnswers l = [r]
        rw [hl]
      rw [e] at h
      have := List.append_inj' h rfl
      exact ⟨this.1, by simpa using this.2⟩
    have hstore : ∀ (recs : List LogEntry) (e : Event), getLogsAnswers [e] = [] →
        getLogsAnswers (recs.map writeOk ++ [e]) = [] := by
      intro recs e he
      rw [getLogsAnswers_append, getLogsAnswers_writes, he]; rfl
    cases hlast with
    | outOfFuel =>
      rw [show getLogsAnswers ([] : List Event) = [] from rfl, List.append_nil] at h
      exact (completed_not_appended c its _ final hok hits h).elim
    | getLogsPanic =>
      have := (hone _ [] rfl h).2
      cases this
    | getLogsError r e he =>
      have := (hone _ [] rfl h).2
      simp only [Outcome.returned.injEq] at this
      rw [this, herr] at he
      cases he
    | nilReader r he hk hreader =>
      have := (hone _ [] rfl h).2
      simp only [Outcome.returned.injEq] at this
      rw [this, hok] at hk
      cases hk
    | parseError r body e he hk hreader hparse =>
      have := (hone _ [] rfl h).2
      simp only [Outcome.returned.injEq] at this
      rw [this, hok] at hk
      cases hk
    | nilEntry r body written rest he hk hreader hparse =>
      have := (hone _ _ (getLogsAnswers_writes written) h).2
      simp only [Outcome.returned.injEq] at this
      rw [this, hok] at hk
      cases hk
    | writeFailed r body written e rest err' he hk hreader hparse =>
      have := (hone _ _ (hstore written (Event.WriteLogEntry e (some err')) rfl) h).2
      simp only [Outcome.returned.injEq] at this
      rw [this, hok] at hk
      cases hk
    | storeFailed r body recs e he hk hreader hparse =>
      have := (hone _ _ (hstore recs (Event.StoreCheckpoint _ (some e)) rfl) h).2
      simp only [Outcome.returned.injEq] at this
      rw [this, hok] at hk
      cases hk
    | noMoreLogs r he hk =>
      obtain ⟨h1, h2⟩ := hone _ [] rfl h
      simp only [Outcome.returned.injEq] at h2
      subst h2
      obtain ⟨hf, hz⟩ := completed_iterations_of_files c its files h1 hits
      refine ⟨ck, its.map Prod.snd, hf, ?_, rfl, ?_, ?_, ?_⟩
      · rw [← hz]
      · exact hfuel (by intro h0; cases h0)
      · intro loc hp
        refine hf.imp ?_
        intro f rs hprs e hmem
        rw [hp] at hprs
        exact ParseEntries_logFileTimestamp loc f.1 f.2 _ hprs e
          (List.mem_map.mpr ⟨e, hmem, rfl⟩)
      · intro hnil
        subst hnil
        cases its with
        | nil => rfl
        | cons it its => cases h1

/-- Witness of C3: a run over the two files of the example, starting from the
checkpoint 1, and a run in which `GetLogs` has no file at all. -/
theorem Process_run_without_failure_witness :
    (getLogsAnswers (Process (scriptedCollaborators (some ⟨1, "db:audit"⟩) twoFiles
        (fun _ => false)) "db" 5 0).2.1 =
      twoBodies.map (fun f => Outcome.returned (fileResult f)) ++ [Outcome.returned noMoreLogs] ∧
     (Process (scriptedCollaborators (some ⟨1, "db:audit"⟩) twoFiles
        (fun _ => false)) "db" 5 0).2.1 =
      [Event.ValidateAndPrepareRDSInstance none,
       Event.GetCheckpoint "db:audit" (.ok (some ⟨1, "db:audit"⟩)),
       Event.GetLogs 1 (.returned (fileResult
         (ascii "1594710325000000,a\n1594713926000000,c", 2))),
       Event.WriteLogEntry ⟨⟨2020, 7, 14, 7⟩, ascii "1594710325000000,a\n", 2⟩ none,
       Event.WriteLogEntry ⟨⟨2020, 7, 14, 8⟩, ascii "1594713926000000,c\n", 2⟩ none,
       Event.StoreCheckpoint ⟨2, "db:audit"⟩ none,
       Event.GetLogs 2 (.returned (fileResult (ascii "1594717527000000,e", 3))),
       Event.WriteLogEntry ⟨⟨2020, 7, 14, 9⟩, ascii "1594717527000000,e\n", 3⟩ none,
       Event.StoreCheckpoint ⟨3, "db:audit"⟩ none,
       Event.GetLogs 3 (.returned noMoreLogs)] ∧
     (Process (scriptedCollaborators (some ⟨1, "db:audit"⟩) twoFiles
        (fun _ => false)) "db" 5 0).1 = some (.returned none) ∧
     ∀ k, Process (scriptedCollaborators (some ⟨1, "db:audit"⟩) twoFiles
        (fun _ => false)) "db" (5 + k) 0 =
       Process (scriptedCollaborators (some ⟨1, "db:audit"⟩) twoFiles (fun _ => false)) "db" 5 0) ∧
    (getLogsAnswers (Process (scriptedCollaborators none [] (fun _ => false)) "db" 1 0).2.1 =
      ([] : List (List Nat × Int)).map (fun f => Outcome.returned (fileResult f)) ++
        [Outcome.returned noMoreLogs] ∧
     (Process (scriptedCollaborators none [] (fun _ => false)) "db" 1 0).2.1 =
      [Event.ValidateAndPrepareRDSInstance none,
       Event.GetCheckpoint "db:audit" (.ok none),
       Event.GetLogs 0 (.returned noMoreLogs)] ∧
     (Process (scriptedCollaborators none [] (fun _ => false)) "db" 1 0).1 =
       some (.returned none)) := by
  have h2 : getLogsAnswers (Process (scriptedCollaborators (some ⟨1, "db:audit"⟩) twoFiles
        (fun _ => false)) "db" 5 0).2.1 =
      twoBodies.map (fun f => Outcome.returned (fileResult f)) ++
        [Outcome.returned noMoreLogs] := by decide!
  have h0 : getLogsAnswers (Process (scriptedCollaborators none [] (fun _ => false))
        "db" 1 0).2.1 =
      ([] : List (List Nat × Int)).map (fun f => Outcome.returned (fileResult f)) ++
        [Outcome.returned noMoreLogs] := by decide!
  obtain ⟨ck, recs, _, _, hres, hfuel, _, _⟩ := Process_run_without_failure
    (scriptedCollaborators (some ⟨1, "db:audit"⟩) twoFiles (fun _ => false)) "db" 5 0
    twoBodies noMoreLogs rfl rfl h2
  obtain ⟨ck0, recs0, _, _, hres0, _, _, hnil⟩ := Process_run_without_failure
    (scriptedCollaborators none [] (fun _ => false)) "db" 1 0 [] noMoreLogs rfl rfl h0
  have htr0 := hnil rfl
  have hck0 : ck0 = none := by
    have e : (Process (scriptedCollaborators none [] (fun _ => false)) "db" 1 0).2.1 =
        [Event.ValidateAndPrepareRDSInstance none,
         Event.GetCheckpoint "db:audit" (.ok none),
         Event.GetLogs 0 (.returned noMoreLogs)] := by decide!
    rw [e] at htr0
    simp only [List.cons.injEq, Event.GetCheckpoint.injEq, Except.ok.injEq] at htr0
    exact htr0.2.1.2.symm
  subst hck0
  exact ⟨⟨h2, by decide!, hres, hfuel⟩, h0, htr0, hres0⟩

/-- Witness of C5: over the three files of the example the writer fails on the
record of hour 9, the second record of the second file. The record of hour 10 is not
written, the only checkpoint stored is that of the first file, and the third file is
not asked for. -/
theorem Process_stops_at_failed_write_witness :
    (Process (scriptedCollaborators (some ⟨1, "db:audit"⟩) threeFiles
        (fun e => decide (e.Timestamp.Hour = 9))) "db" 5 0).2.1 =
      [Event.ValidateAndPrepareRDSInstance none,
       Event.GetCheckpoint "db:audit" (.ok (some ⟨1, "db:audit"⟩)),
       Event.GetLogs 1 (.returned (fileResult (ascii "1594710325000000,a", 2))),
       Event.WriteLogEntry ⟨⟨2020, 7, 14, 7⟩, ascii "1594710325000000,a\n", 2⟩ none,
       Event.StoreCheckpoint ⟨2, "db:audit"⟩ none,
       Event.GetLogs 2 (.returned (fileResult
         (ascii "1594713926000000,c\n1594717527000000,e\n1594721128000000,g", 3))),
       Event.WriteLogEntry ⟨⟨2020, 7, 14, 8⟩, ascii "1594713926000000,c\n", 3⟩ none] ++
      Event.WriteLogEntry ⟨⟨2020, 7, 14, 9⟩, ascii "1594717527000000,e\n", 3⟩
        (some "upload failed") :: [] ∧
    (Process (scriptedCollaborators (some ⟨1, "db:audit"⟩) threeFiles
        (fun e => decide (e.Timestamp.Hour = 9))) "db" 5 0).1 =
      some (.returned (some ("could not write log entry: " ++ "upload failed"))) ∧
    (scriptedCollaborators (some ⟨1, "db:audit"⟩) threeFiles
        (fun e => decide (e.Timestamp.Hour = 9))).ParseEntries
      (ascii "1594713926000000,c\n1594717527000000,e\n1594721128000000,g") 3 =
      .ok [some ⟨⟨2020, 7, 14, 8⟩, ascii "1594713926000000,c\n", 3⟩,
           some ⟨⟨2020, 7, 14, 9⟩, ascii "1594717527000000,e\n", 3⟩,
           some ⟨⟨2020, 7, 14, 10⟩, ascii "1594721128000000,g\n", 3⟩] :=
  have h : (Process (scriptedCollaborators (some ⟨1, "db:audit"⟩) threeFiles
        (fun e => decide (e.Timestamp.Hour = 9))) "db" 5 0).2.1 =
      [Event.ValidateAndPrepareRDSInstance none,
       Event.GetCheckpoint "db:audit" (.ok (some ⟨1, "db:audit"⟩)),
       Event.GetLogs 1 (.returned (fileResult (ascii "1594710325000000,a", 2))),
       Event.WriteLogEntry ⟨⟨2020, 7, 14, 7⟩, ascii "1594710325000000,a\n", 2⟩ none,
       Event.StoreCheckpoint ⟨2, "db:audit"⟩ none,
       Event.GetLogs 2 (.returned (fileResult
         (ascii "1594713926000000,c\n1594717527000000,e\n1594721128000000,g", 3))),
       Event.WriteLogEntry ⟨⟨2020, 7, 14, 8⟩, ascii "1594713926000000,c\n", 3⟩ none] ++
      Event.WriteLogEntry ⟨⟨2020, 7, 14, 9⟩, ascii "1594717527000000,e\n", 3⟩
        (some "upload failed") :: [] := by decide!
  ⟨h, (Process_stops_at_failed_write _ "db" 5 0 _ _ _ _ h).2.1, by decide!⟩

/-! ## A file without any non-empty line -/

theorem ParseEntries_no_content (loc : Int → Int) (data : List Nat) (ts : Int)
    (hblank : ∀ l ∈ splitOn 10 data, l = []) :
    ParseEntries loc data ts = .ok [none] := by
  have hshort : ∀ l ∈ splitOn 10 data, l.length < maxScanTokenSize := by
    intro l hl
    rw [hblank l hl]
    decide
  have hc : contentLines data = [] := by
    unfold contentLines
    rw [List.filter_eq_nil_iff]
    intro l hl
    obtain ⟨x, hx, rfl⟩ := List.mem_map.mp hl
    rw [hblank x hx]
    simp [dropCR]
  rw [ParseEntries_of_accepted loc data ts hshort (by rw [hc]; intro l hl; cases hl)]
  simp [hc]

theorem mem_iteration_getLogs (w w0 : Int) (r r0 : GetLogsResult) (recs : List LogEntry)
    (tail : List Event) (htail : ∀ x ∈ tail, ∀ a b, x ≠ Event.GetLogs a b)
    (h : Event.GetLogs w (.returned r) ∈
      Event.GetLogs w0 (.returned r0) :: recs.map writeOk ++ tail) :
    w = w0 ∧ r = r0 := by
  rcases List.mem_append.mp h with h | h
  · rcases List.mem_cons.mp h with h | h
    · simp only [Event.GetLogs.injEq, Outcome.returned.injEq] at h
      exact h
    · obtain ⟨x, _, hx⟩ := List.mem_map.mp h
      cases hx
  · exact absurd rfl (htail _ h w (.returned r))

theorem mem_iterationsTrace_getLogs (id : String) (w : Int) (r : GetLogsResult) :
    ∀ (its : List (GetLogsResult × List LogEntry)) (w0 : Int),
      Event.GetLogs w (.returned r) ∈ iterationsTrace id w0 its → ∃ recs, (r, recs) ∈ its
  | [], _, h => by cases h
  | (r0, recs0) :: rest, w0, h => by
    rw [iterationsTrace] at h
    rcases List.mem_append.mp h with h | h
    · have := mem_iteration_getLogs w w0 r r0 recs0 _
        (by intro x hx a b; rw [List.mem_singleton.mp hx]; intro e; cases e) h
      exact ⟨recs0, by rw [this.2]; exact List.mem_cons_self _ _⟩
    · obtain ⟨recs, hm⟩ := mem_iterationsTrace_getLogs id w r rest _ h
      exact ⟨recs, List.mem_cons_of_mem _ hm⟩

/-- C11. A run of `Process` with the parser `AuditLogParser` in which `GetLogs` answers
ok = true, without error, with a body that has no non-empty line. `ParseEntries`
returns the list of one nil pointer for that body, and `Process` dereferences it:
the run ends in a panic, the call of `GetLogs` is its last call (no write, no
`StoreCheckpoint` for that file, no further `GetLogs`), and a larger number of
iterations allowed changes nothing. -/
theorem Process_panics_on_blank_file {σ : Type} (c : Collaborators σ) (loc : Int → Int)
    (hparser : c.ParseEntries = ParseEntries loc) (rid : String) (fuel : Nat) (s : σ)
    (w : Int) (r : GetLogsResult) (body : List Nat)
    (hmem : Event.GetLogs w (.returned r) ∈ (Process c rid fuel s).2.1)
    (herr : r.err = none) (hok : r.ok = true) (hreader : r.reader = some body)
    (hblank : ∀ l ∈ splitOn 10 body, l = []) :
    c.ParseEntries body r.logFileTimestamp = .ok [none] ∧
    (Process c rid fuel s).1 = some .panic ∧
    (Process c rid fuel s).2.1.getLast? = some (Event.GetLogs w (.returned r)) ∧
    ∀ k, Process c rid (fuel + k) s = Process c rid fuel s := by
  have hparse : c.ParseEntries body r.logFileTimestamp = .ok [none] := by
    rw [hparser]; exact ParseEntries_no_content loc body _ hblank
  have hshape := Process_shape c rid fuel s
  have hfuel := Process_fuel_add c rid fuel s
  generalize (Process c rid fuel s).1 = res at hshape hfuel ⊢
  generalize (Process c rid fuel s).2.1 = tr at hshape hmem ⊢
  refine ⟨hparse, ?_⟩
  have key : res = some .panic ∧ tr.getLast? = some (Event.GetLogs w (.returned r)) := by
    cases hshape with
    | validateFailed e => simp at hmem
    | getCheckpointFailed e => simp at hmem
    | loop ck its res last hits hlast =>
      simp only [List.mem_cons, List.mem_append] at hmem
      rcases hmem with h | h | h | h
      · cases h
      · cases h
      · obtain ⟨recs, hm⟩ := mem_iterationsTrace_getLogs _ w r its _ h
        obtain ⟨_, _, b, hb, hp⟩ := hits _ hm
        dsimp only at hb hp
        rw [hreader] at hb
        cases hb
        rw [hparse] at hp
        simp only [Except.ok.injEq] at hp
        cases recs with
        | nil => cases hp
        | cons x xs => simp at hp
      · have hlastmem : ∀ (x : Event),
            (Event.ValidateAndPrepareRDSInstance none ::
              Event.GetCheckpoint (rid ++ ":" ++ "audit") (.ok ck) ::
              (iterationsTrace (rid ++ ":" ++ "audit") (startTimestamp ck) its ++
                [x])).getLast? = some x := by
          intro x
          rw [show ∀ (a b : Event) (t : List Event), a :: b :: (t ++ [x]) =
            (a :: b :: t) ++ [x] from fun a b t => by simp]
          exact List.getLast?_concat _
        cases hlast with
        | outOfFuel => cases h
        | getLogsPanic => simp at h
        | getLogsError r' e he =>
          simp only [List.mem_singleton, Event.GetLogs.injEq, Outcome.returned.injEq] at h
          rw [← h.2, herr] at he; cases he
        | noMoreLogs r' he hk =>
          simp only [List.mem_singleton, Event.GetLogs.injEq, Outcome.returned.injEq] at h
          rw [← h.2, hok] at hk; cases hk
        | nilReader r' he hk hr =>
          simp only [List.mem_singleton, Event.GetLogs.injEq, Outcome.returned.injEq] at h
          rw [← h.2, hreader] at hr; cases hr
        | parseError r' b e he hk hr hp =>
          simp only [List.mem_singleton, Event.GetLogs.injEq, Outcome.returned.injEq] at h
          rw [← h.2, hreader] at hr
          cases hr
          rw [← h.2, hparse] at hp
          cases hp
        | nilEntry r' b written rest he hk hr hp =>
          have hh := mem_iteration_getLogs w _ r r' written []
            (by intro x hx; cases hx) (by simpa using h)
          rw [← hh.2, hreader] at hr
          cases hr
          rw [← hh.2, hparse] at hp
          simp only [Except.ok.injEq] at hp
          cases written with
          | nil =>
            rw [hh.1, hh.2]
            exact ⟨rfl, hlastmem _⟩
          | cons x xs =>
            simp only [List.map_cons, List.cons_append, List.cons.injEq] at hp
            cases hp.1
        | writeFailed r' b written e rest err' he hk hr hp =>
          have hh := mem_iteration_getLogs w _ r r' written _
            (by intro x hx a b; rw [List.mem_singleton.mp hx]; intro e; cases e) h
          rw [← hh.2, hreader] at hr
          cases hr
          rw [← hh.2, hparse] at hp
          simp only [Except.ok.injEq] at hp
          cases written with
          | nil => simp at hp
          | cons x xs =>
            simp only [List.map_cons, List.cons_append, List.cons.injEq] at hp
            cases hp.1
        | storeFailed r' b recs e he hk hr hp =>
          have hh := mem_iteration_getLogs w _ r r' recs _
            (by intro x hx a b; rw [List.mem_singleton.mp hx]; intro e; cases e) h
          rw [← hh.2, hreader] at hr
          cases hr
          rw [← hh.2, hparse] at hp
          simp only [Except.ok.injEq] at hp
          cases recs with
          | nil => cases hp
          | cons x xs => simp at hp
  exact ⟨key.1, key.2, hfuel (by rw [key.1]; intro h0; cases h0)⟩

/-- Witness of C11: the first file is empty (zero bytes). The run ends in a panic right
after the first call of `GetLogs`. -/
theorem Process_panics_on_blank_file_witness :
    (Process (scriptedCollaborators (some ⟨1, "db:audit"⟩)
        (fileResult ([], 2) :: twoFiles) (fun _ => false)) "db" 5 0).2.1 =
      [Event.ValidateAndPrepareRDSInstance none,
       Event.GetCheckpoint "db:audit" (.ok (some ⟨1, "db:audit"⟩)),
       Event.GetLogs 1 (.returned (fileResult ([], 2)))] ∧
    ParseEntries UTC [] 2 = .ok [none] ∧
    (Process (scriptedCollaborators (some ⟨1, "db:audit"⟩)
        (fileResult ([], 2) :: twoFiles) (fun _ => false)) "db" 5 0).1 = some .panic :=
  have h : (Process (scriptedCollaborators (some ⟨1, "db:audit"⟩)
        (fileResult ([], 2) :: twoFiles) (fun _ => false)) "db" 5 0).2.1 =
      [Event.ValidateAndPrepareRDSInstance none,
       Event.GetCheckpoint "db:audit" (.ok (some ⟨1, "db:audit"⟩)),
       Event.GetLogs 1 (.returned (fileResult ([], 2)))] := by decide!
  have t := Process_panics_on_blank_file (scriptedCollaborators (some ⟨1, "db:audit"⟩)
      (fileResult ([], 2) :: twoFiles) (fun _ => false)) UTC rfl "db" 5 0 1
      (fileResult ([], 2)) [] (by rw [h]; simp) rfl rfl rfl (by decide)
  ⟨h, t.1, t.2.1⟩

/-! ## Lines without a comma, and empty lines -/

theorem mem_takeWhile_append (p : List Nat → Bool) (bad : List Nat) (hbad : p bad = true) :
    ∀ (pre rest : List (List Nat)), (∀ l ∈ pre, p l = true) →
      bad ∈ (pre ++ bad :: rest).takeWhile p
  | [], rest, _ => by simp [List.takeWhile_cons, hbad]
  | a :: pre, rest, h => by
    have ha := h a (List.mem_cons_self _ _)
    simp only [List.cons_append, List.takeWhile_cons, ha, if_true]
    exact List.mem_cons_of_mem _ (mem_takeWhile_append p bad hbad pre rest
      (fun l hl => h l (List.mem_cons_of_mem _ hl)))

theorem mem_dropCR (l : List Nat) : ∀ b ∈ dropCR l, b ∈ l := by
  intro b hb
  unfold dropCR at hb
  split at hb
  · exact List.mem_of_mem_dropLast hb
  · exact hb

theorem mem_scanLines_of_split (data : List Nat) (pre post : List (List Nat)) (bad : List Nat)
    (hsplit : splitOn 10 data = pre ++ bad :: post)
    (hpre : ∀ l ∈ pre, l.length < maxScanTokenSize) (hbad : bad.length < maxScanTokenSize)
    (hne : bad ≠ []) : dropCR bad ∈ scanLines data := by
  unfold scanLines
  apply List.mem_map_of_mem
  have hp : ∀ l ∈ pre, (fun l : List Nat => decide (l.length < maxScanTokenSize)) l = true :=
    fun l hl => by simpa using hpre l hl
  show bad ∈ List.takeWhile _ (if _ then _ else _)
  rw [hsplit]
  split
  · rename_i hlast
    have hpost : post ≠ [] := by
      intro h0
      rw [h0, List.getLast?_concat] at hlast
      exact hne (Option.some.inj hlast)
    rw [List.dropLast_append_of_ne_nil _ (by simp), List.dropLast_cons_of_ne_nil hpost]
    exact mem_takeWhile_append _ bad (by simpa using hbad) pre _ hp
  · exact mem_takeWhile_append _ bad (by simpa using hbad) pre _ hp

/-- C12, as amended. If a line of the input is non-empty after the removal of one
trailing carriage return and contains no comma, and that line and every line before
it are shorter than 65536 bytes, `ParseEntries` returns an error and therefore no
record, whatever the other lines are. -/
theorem ParseEntries_line_without_comma (loc : Int → Int) (data : List Nat) (ts : Int)
    (pre post : List (List Nat)) (bad : List Nat)
    (hsplit : splitOn 10 data = pre ++ bad :: post)
    (hpre : ∀ l ∈ pre, l.length < maxScanTokenSize) (hbad : bad.length < maxScanTokenSize)
    (hne : dropCR bad ≠ []) (hcomma : 44 ∉ bad) :
    ∃ e, ParseEntries loc data ts = .error e := by
  have hne' : bad ≠ [] := by
    intro h0; rw [h0] at hne; exact hne dropCR_nil
  have hmem := mem_scanLines_of_split data pre post bad hsplit hpre hbad hne'
  have hno : 44 ∉ dropCR bad := fun h => hcomma (mem_dropCR bad 44 h)
  rcases h : ParseEntries loc data ts with e | r
  · exact ⟨e, rfl⟩
  · rw [ParseEntries] at h
    obtain ⟨b, hb⟩ := parseLoop_ok_accepts loc ts _ _ _ _ h _ hmem hne
    rw [lineTimestamp_no_comma loc _ hno] at hb
    cases hb

/-- Witness of C12: a line without a comma between two well-formed lines. -/
theorem ParseEntries_line_without_comma_witness :
    splitOn 10 (ascii "1594710325000000,a\nno comma\n1594710326000000,b\n") =
      [ascii "1594710325000000,a"] ++ ascii "no comma" :: [ascii "1594710326000000,b", []] ∧
    ParseEntries UTC (ascii "1594710325000000,a\nno comma\n1594710326000000,b\n") 7 =
      .error "could not parse data" ∧
    ∃ e, ParseEntries UTC (ascii "1594710325000000,a\nno comma\n1594710326000000,b\n") 7 =
      .error e :=
  ⟨by decide, by decide!,
   ParseEntries_line_without_comma UTC
    (ascii "1594710325000000,a\nno comma\n1594710326000000,b\n") 7
    [ascii "1594710325000000,a"] [ascii "1594710326000000,b", []] (ascii "no comma")
    (by decide) (by decide) (by decide) (by decide) (by decide)⟩

/-- Counterexample to C12 as stated. A line that consists of a carriage return is not
empty and has no comma, yet the parse succeeds with the record of the other line; and
a line without a comma that comes after a line of 65536 bytes is never read, the
result being the single nil pointer without error. -/
theorem ParseEntries_accepts_line_without_comma :
    ParseEntries UTC (ascii "\r\n1594710325000000,a\n") 7 =
      .ok [some { Timestamp := NewLogEntryTimestamp 2020 7 14 7,
                  LogLine := ascii "1594710325000000,a\n", LogFileTimestamp := 7 }] ∧
    ParseEntries UTC (List.replicate 65536 44 ++ 10 :: ascii "no comma\n") 7 = .ok [none] := by
  refine ⟨by decide!, ?_⟩
  have h := scanLines_long_first (List.replicate 65536 44) (ascii "no comma\n")
    (fun hm => absurd (List.eq_of_mem_replicate hm) (by decide))
    (by rw [List.length_replicate]; decide)
  rw [ParseEntries, h]
  rfl

theorem splitOn_no_sep (sep : Nat) :
    ∀ (data : List Nat), ∀ l ∈ splitOn sep data, sep ∉ l
  | [], l, hl => by
    simp only [splitOn, List.mem_singleton] at hl
    rw [hl]; exact List.not_mem_nil _
  | b :: rest, l, hl => by
    have ih := splitOn_no_sep sep rest
    have hne := splitOn_ne_nil sep rest
    by_cases hb : b = sep
    · subst hb
      rw [splitOn_cons_sep] at hl
      rcases List.mem_cons.mp hl with h | h
      · rw [h]; exact List.not_mem_nil _
      · exact ih l h
    · rw [splitOn_cons_ne sep b rest hb] at hl
      cases hs : splitOn sep rest with
      | nil => exact absurd hs hne
      | cons a t =>
        rw [hs] at hl ih
        simp only [List.headD_cons, List.tail_cons] at hl
        rcases List.mem_cons.mp hl with h | h
        · rw [h]
          intro hm
          rcases List.mem_cons.mp hm with h1 | h1
          · exact hb h1.symm
          · exact ih a (List.mem_cons_self _ _) h1
        · exact ih l (List.mem_cons_of_mem _ h)

theorem splitOn_of_not_mem (sep : Nat) : ∀ (l : List Nat), sep ∉ l → splitOn sep l = [l]
  | [], _ => rfl
  | b :: l, h => by
    have hb : b ≠ sep := fun e => h (e ▸ List.mem_cons_self _ _)
    rw [splitOn_cons_ne sep b l hb,
      splitOn_of_not_mem sep l (fun e => h (List.mem_cons_of_mem _ e))]
    rfl

theorem splitOn_append (sep : Nat) (b : List Nat) :
    ∀ (a : List Nat), splitOn sep (a ++ sep :: b) = splitOn sep a ++ splitOn sep b
  | [] => by rw [List.nil_append, splitOn_cons_sep]; rfl
  | c :: a => by
    have ih := splitOn_append sep b a
    have hne := splitOn_ne_nil sep a
    by_cases hc : c = sep
    · subst hc
      rw [List.cons_append, splitOn_cons_sep, splitOn_cons_sep, ih]
      rfl
    · rw [List.cons_append, splitOn_cons_ne sep c _ hc, splitOn_cons_ne sep c _ hc, ih]
      cases hs : splitOn sep a with
      | nil => exact absurd hs hne
      | cons x t => rfl

theorem splitOn_intercalate (sep : Nat) :
    ∀ (ls : List (List Nat)), ls ≠ [] → (∀ l ∈ ls, sep ∉ l) →
      splitOn sep (List.intercalate [sep] ls) = ls
  | [], h, _ => absurd rfl h
  | [l], _, hl => by
    simp only [List.intercalate, List.intersperse_singleton, List.flatten_cons,
      List.flatten_nil, List.append_nil]
    exact splitOn_of_not_mem sep l (hl l (List.mem_cons_self _ _))
  | l :: l' :: ls, _, hl => by
    have ih := splitOn_intercalate sep (l' :: ls) (by simp)
      (fun x hx => hl x (List.mem_cons_of_mem _ hx))
    have e : List.intercalate [sep] (l :: l' :: ls) =
        l ++ sep :: List.intercalate [sep] (l' :: ls) := by
      simp [List.intercalate]
    rw [e, splitOn_append, splitOn_of_not_mem sep l (hl l (List.mem_cons_self _ _)), ih]
    rfl

theorem nonEmptyLines_removeEmptyLines (data : List Nat) :
    nonEmptyLines (removeEmptyLines data) = nonEmptyLines data := by
  by_cases h : nonEmptyLines data = []
  · unfold removeEmptyLines
    rw [h]
    rfl
  · have hs : splitOn 10 (removeEmptyLines data) = nonEmptyLines data :=
      splitOn_intercalate 10 _ h (fun l hl =>
        splitOn_no_sep 10 data l (List.mem_of_mem_filter hl))
    show (splitOn 10 (removeEmptyLines data)).filter _ = _
    rw [hs]
    unfold nonEmptyLines
    rw [List.filter_filter]
    simp

theorem nonEmptyLines_insert_empty (a b : List Nat) :
    nonEmptyLines (a ++ 10 :: 10 :: b) = nonEmptyLines (a ++ 10 :: b) := by
  unfold nonEmptyLines
  rw [splitOn_append, splitOn_append, splitOn_cons_sep]
  simp

theorem filter_takeWhile_of_imp {α : Type} (p q : α → Bool) (h : ∀ x, q x = false → p x = true) :
    ∀ l : List α, (l.takeWhile p).filter q = (l.filter q).takeWhile p
  | [] => rfl
  | a :: l => by
    have ih := filter_takeWhile_of_imp p q h l
    cases hq : q a
    · have hp := h a hq
      simp only [List.takeWhile_cons, hp, if_true, List.filter_cons, hq, Bool.false_eq_true,
        if_false]
      exact ih
    · cases hp : p a
      · simp [List.takeWhile_cons, hp, List.filter_cons, hq]
      · simp only [List.takeWhile_cons, hp, if_true, List.filter_cons, hq]
        rw [ih]

theorem filter_map_dropCR (L : List (List Nat)) :
    (L.map dropCR).filter (fun l => decide (l ≠ [])) =
      ((L.filter (fun l => decide (l ≠ []))).map dropCR).filter (fun l => decide (l ≠ [])) := by
  induction L with
  | nil => rfl
  | cons a L ih =>
    by_cases ha : a = []
    · subst ha
      simp only [List.map_cons, dropCR_nil, List.filter_cons, ne_eq, not_true_eq_false,
        decide_False, Bool.false_eq_true, if_false]
      exact ih
    · have hf : (a :: L).filter (fun l => decide (l ≠ [])) =
          a :: L.filter (fun l => decide (l ≠ [])) := by
        simp [List.filter_cons, ha]
      rw [hf, List.map_cons, List.map_cons, List.filter_cons, List.filter_cons, ih]

/-- The non-empty texts of the scanner are determined by the non-empty lines. -/
theorem scanLines_filter (data : List Nat) :
    (scanLines data).filter (fun l => decide (l ≠ [])) =
      (((nonEmptyLines data).takeWhile
        (fun l => decide (l.length < maxScanTokenSize))).map dropCR).filter
          (fun l => decide (l ≠ [])) := by
  have hlines : ∀ L : List (List Nat),
      ((L.takeWhile (fun l => decide (l.length < maxScanTokenSize))).map dropCR).filter
          (fun l => decide (l ≠ [])) =
        ((((L.filter (fun l => decide (l ≠ []))).takeWhile
          (fun l => decide (l.length < maxScanTokenSize))).map dropCR).filter
            (fun l => decide (l ≠ []))) := by
    intro L
    rw [filter_map_dropCR, filter_takeWhile_of_imp]
    intro x hx
    have : x = [] := by simpa using hx
    rw [this]
    decide
  unfold scanLines nonEmptyLines
  show List.filter _ (List.map dropCR (List.takeWhile _ (if _ then _ else _))) = _
  split
  · rename_i hlast
    rw [hlines]
    have hsplit : (splitOn 10 data).dropLast ++ [[]] = splitOn 10 data :=
      List.dropLast_append_getLast? [] (by simp [hlast])
    have : (splitOn 10 data).filter (fun l => decide (l ≠ [])) =
        (splitOn 10 data).dropLast.filter (fun l => decide (l ≠ [])) := by
      conv_lhs => rw [← hsplit]
      simp
    rw [this]
  · exact hlines _

theorem ParseEntries_of_nonEmptyLines (loc : Int → Int) (data data' : List Nat) (ts : Int)
    (h : nonEmptyLines data' = nonEmptyLines data) :
    ParseEntries loc data' ts = ParseEntries loc data ts := by
  rw [ParseEntries, ParseEntries, parseLoop_filter, parseLoop_filter loc ts (scanLines data),
    scanLines_filter, scanLines_filter, h]

theorem mem_scanLines_no_newline (data : List Nat) : ∀ l ∈ scanLines data, 10 ∉ l := by
  intro l hl
  unfold scanLines at hl
  obtain ⟨x, hx, rfl⟩ := List.mem_map.mp hl
  have hx1 := (List.takeWhile_sublist _).subset hx
  have hx2 : x ∈ splitOn 10 data := by
    revert hx1
    show x ∈ (if _ then _ else _) → _
    split
    · exact List.mem_of_mem_dropLast
    · exact id
  exact fun hm => splitOn_no_sep 10 data x hx2 (mem_dropCR x 10 hm)

/-- C13. The result of `ParseEntries` (the error, or the records with their buckets,
contents and order) is the same for an input and for that input with all empty lines
removed; more generally it is the same for any two inputs with the same non-empty
lines. An empty line put between two lines changes nothing, so it does not split a
record. And the content of every record returned is a non-empty sequence of non-empty
lines, each followed by one newline byte: it contains no empty line. -/
theorem ParseEntries_ignores_empty_lines (loc : Int → Int) (data : List Nat) (ts : Int) :
    ParseEntries loc (removeEmptyLines data) ts = ParseEntries loc data ts ∧
    (∀ data', nonEmptyLines data' = nonEmptyLines data →
      ParseEntries loc data' ts = ParseEntries loc data ts) ∧
    (∀ a b, data = a ++ 10 :: b →
      ParseEntries loc (a ++ 10 :: 10 :: b) ts = ParseEntries loc data ts) ∧
    (∀ entries, ParseEntries loc data ts = .ok entries → ∀ r, some r ∈ entries →
      ∃ g : List (List Nat), g ≠ [] ∧ (∀ l ∈ g, l ≠ [] ∧ 10 ∉ l) ∧
        r.LogLine = joinLines g) := by
  refine ⟨ParseEntries_of_nonEmptyLines loc data _ ts (nonEmptyLines_removeEmptyLines data),
    fun data' h => ParseEntries_of_nonEmptyLines loc data data' ts h, ?_, ?_⟩
  · intro a b hab
    rw [hab]
    exact ParseEntries_of_nonEmptyLines loc _ _ ts (nonEmptyLines_insert_empty a b)
  · intro entries h r hr
    rw [ParseEntries, parseLoop_filter] at h
    have hacc : ∀ l ∈ (scanLines data).filter (fun l => decide (l ≠ [])),
        l ≠ [] ∧ ∃ b, lineTimestamp loc l = .ok b := by
      intro l hl
      have hne : l ≠ [] := by simpa using (List.mem_filter.mp hl).2
      exact ⟨hne, parseLoop_ok_accepts loc ts _ _ _ _ h l hl hne⟩
    rw [parseLoop_start loc ts _ hacc] at h
    have he := (Except.ok.inj h).symm
    subst he
    split at hr
    · simp at hr
    · obtain ⟨g, hg, hgr⟩ := List.mem_map.mp hr
      have hr' : r = groupEntry ts g := (Option.some.inj hgr).symm
      refine ⟨g.2, (lineGroups_bucket loc _ g hg).1, ?_, by rw [hr']; rfl⟩
      intro l hl
      have hmem : l ∈ (scanLines data).filter (fun l => decide (l ≠ [])) := by
        rw [← lineGroups_flatten loc ((scanLines data).filter (fun l => decide (l ≠ [])))]
        exact List.mem_flatten.mpr ⟨g.2, List.mem_map.mpr ⟨g, hg, rfl⟩, hl⟩
      exact ⟨(hacc l hmem).1, mem_scanLines_no_newline data l (List.mem_of_mem_filter hmem)⟩

/-- Witness of C13: a file with empty lines at the start, between two lines of hour 7
and at the end gives the two records of the file without them. -/
theorem ParseEntries_ignores_empty_lines_witness :
    removeEmptyLines (ascii "\n1594710325000000,a\n\n\n1594710326000000,b\n1594713926000000,c\n\n") =
      ascii "1594710325000000,a\n1594710326000000,b\n1594713926000000,c" ∧
    ParseEntries UTC
        (ascii "\n1594710325000000,a\n\n\n1594710326000000,b\n1594713926000000,c\n\n") 7 =
      .ok [some { Timestamp := NewLogEntryTimestamp 2020 7 14 7,
                  LogLine := ascii "1594710325000000,a\n1594710326000000,b\n",
                  LogFileTimestamp := 7 },
           some { Timestamp := NewLogEntryTimestamp 2020 7 14 8,
                  LogLine := ascii "1594713926000000,c\n", LogFileTimestamp := 7 }] ∧
    ParseEntries UTC (removeEmptyLines
        (ascii "\n1594710325000000,a\n\n\n1594710326000000,b\n1594713926000000,c\n\n")) 7 =
      ParseEntries UTC
        (ascii "\n1594710325000000,a\n\n\n1594710326000000,b\n1594713926000000,c\n\n") 7 :=
  ⟨by decide!, by decide!,
   (ParseEntries_ignores_empty_lines UTC
    (ascii "\n1594710325000000,a\n\n\n1594710326000000,b\n1594713926000000,c\n\n") 7).1⟩

/-! ## One call of GetLogs -/

theorem downloadLogFile_ok {σ : Type} (cl : RdsClients σ) (c : RdsLogCollector)
    (f : LogFile) (w : World σ) (resp : Response σ) (s2 : σ)
    (hdo : cl.Do ("https://rds." ++ c.region ++ ".amazonaws.com")
      ("/v13/downloadCompleteLogFile/" ++ c.instanceIdentifier ++ "/" ++ f.LogFileName)
      w.state = (.ok resp, s2))
    (hstatus : resp.StatusCode = 200) :
    downloadLogFile cl c f w =
      (.ok resp,
        { state := s2
          calls := w.calls ++ [RdsCall.downloadLogFile f,
            RdsCall.Do ("https://rds." ++ c.region ++ ".amazonaws.com")
              ("/v13/downloadCompleteLogFile/" ++ c.instanceIdentifier ++ "/" ++
                f.LogFileName)] }) := by
  unfold downloadLogFile
  simp only [World.record, hdo, hstatus, ne_eq, not_true_eq_false, if_false,
    List.append_assoc, List.singleton_append]

theorem getCurrent_of_getLogFiles {σ : Type} (cl : RdsClients σ) (c : RdsLogCollector)
    (ts : Int) (w w1 : World σ) (files : List LogFile)
    (h : getLogFiles cl c maxRetries w = (.ok files, w1)) :
    getCurrentLogFileNewerThanTimestamp cl c ts w =
      (findLogFileNewerThanTimestamp files ts, w1) := by
  unfold getCurrentLogFileNewerThanTimestamp
  rw [h]

/-- C14. If the listing (`getLogFiles`) gives the same files before and after the
download, `findLogFileNewerThanTimestamp` selects the file f from them for the
timestamp, the GET request for the path
`/v13/downloadCompleteLogFile/<instance identifier>/<name of f>` is answered with
status 200 and the reading of its body succeeds, then `GetLogs` returns the complete
body as read, ok = true, the `LastWritten` of f and no error; and the calls it makes
are listing calls, the one download of f with the one request for that path, and
listing calls. -/
theorem GetLogs_downloads_selected_file {σ : Type} (cl : RdsClients σ) (c : RdsLogCollector)
    (ts : Int) (w w1 w3 : World σ) (s2 : σ) (files : List LogFile) (f : LogFile)
    (resp : Response σ)
    (hlist : getLogFiles cl c maxRetries w = (.ok files, w1))
    (hsel : findLogFileNewerThanTimestamp files ts = .ok (some f))
    (hdo : cl.Do ("https://rds." ++ c.region ++ ".amazonaws.com")
      ("/v13/downloadCompleteLogFile/" ++ c.instanceIdentifier ++ "/" ++ f.LogFileName)
      w1.state = (.ok resp, s2))
    (hstatus : resp.StatusCode = 200)
    (hlist' : getLogFiles cl c maxRetries
      { state := s2
        calls := w1.calls ++ [RdsCall.downloadLogFile f,
          RdsCall.Do ("https://rds." ++ c.region ++ ".amazonaws.com")
            ("/v13/downloadCompleteLogFile/" ++ c.instanceIdentifier ++ "/" ++
              f.LogFileName)] } = (.ok files, w3))
    (hread : (resp.Body w3.state).1.err = none) :
    GetLogs cl c ts w =
      (.returned { reader := some (resp.Body w3.state).1.data, ok := true,
                   logFileTimestamp := f.LastWritten, err := none },
        { w3 with state := (resp.Body w3.state).2 }) ∧
    ∃ before after : List RdsCall,
      (GetLogs cl c ts w).2.calls =
        w.calls ++ before ++
          [RdsCall.downloadLogFile f,
           RdsCall.Do ("https://rds." ++ c.region ++ ".amazonaws.com")
             ("/v13/downloadCompleteLogFile/" ++ c.instanceIdentifier ++ "/" ++
               f.LogFileName)] ++ after ∧
      ∀ x ∈ before ++ after, x = RdsCall.DescribeDBLogFilesPages c.instanceIdentifier := by
  have h1 := getCurrent_of_getLogFiles cl c ts w w1 files hlist
  rw [hsel] at h1
  have h2 := downloadLogFile_ok cl c f w1 resp s2 hdo hstatus
  have h3 := getCurrent_of_getLogFiles cl c ts _ w3 files hlist'
  rw [hsel] at h3
  have e := getLogs_attempt cl c ts maxRetries w w1 _ w3 f f resp h1 h2 h3
  simp only [ne_eq, not_true_eq_false, if_false, hread] at e
  have hG : GetLogs cl c ts w =
      (.returned { reader := some (resp.Body w3.state).1.data, ok := true,
                   logFileTimestamp := f.LastWritten, err := none },
        { w3 with state := (resp.Body w3.state).2 }) := e
  refine ⟨hG, ?_⟩
  obtain ⟨n1, e1, p1⟩ := getLogFiles_calls cl c maxRetries w
  obtain ⟨n3, e3, p3⟩ := getLogFiles_calls cl c maxRetries
    { state := s2
      calls := w1.calls ++ [RdsCall.downloadLogFile f,
        RdsCall.Do ("https://rds." ++ c.region ++ ".amazonaws.com")
          ("/v13/downloadCompleteLogFile/" ++ c.instanceIdentifier ++ "/" ++
            f.LogFileName)] }
  rw [hlist] at e1
  rw [hlist'] at e3
  refine ⟨n1, n3, ?_, ?_⟩
  · rw [hG]
    show w3.calls = _
    rw [e3]
    show (w1.calls ++ _) ++ n3 = _
    rw [e1]
  · intro x hx
    rcases List.mem_append.mp hx with h | h
    · exact p1 x h
    · exact p3 x h

/-- Witness of C14: the test `TestGetLogsZeroTimestamp`. For the timestamp 0 the file
`audit/server_audit.log.2` is selected and downloaded. -/
theorem GetLogs_downloads_selected_file_witness :
    GetLogs stableClients testCollector 0 { state := 0, calls := [] } =
      (.returned { reader := some (ascii "1594710325000000,a\n"), ok := true,
                   logFileTimestamp := 1595256406000, err := none },
        { state := 2,
          calls := [RdsCall.DescribeDBLogFilesPages "my-rds-instance",
            RdsCall.downloadLogFile
              { Size := 1000011, LogFileName := "audit/server_audit.log.2",
                LastWritten := 1595256406000, LastWrittenTime := 1595256406, Path := "" },
            RdsCall.Do "https://rds.eu-central-1.amazonaws.com"
              "/v13/downloadCompleteLogFile/my-rds-instance/audit/server_audit.log.2",
            RdsCall.DescribeDBLogFilesPages "my-rds-instance"] }) :=
  (GetLogs_downloads_selected_file stableClients testCollector 0 { state := 0, calls := [] }
    { state := 1, calls := [RdsCall.DescribeDBLogFilesPages "my-rds-instance"] }
    { state := 2,
      calls := [RdsCall.DescribeDBLogFilesPages "my-rds-instance",
        RdsCall.downloadLogFile
          { Size := 1000011, LogFileName := "audit/server_audit.log.2",
            LastWritten := 1595256406000, LastWrittenTime := 1595256406, Path := "" },
        RdsCall.Do "https://rds.eu-central-1.amazonaws.com"
          "/v13/downloadCompleteLogFile/my-rds-instance/audit/server_audit.log.2",
        RdsCall.DescribeDBLogFilesPages "my-rds-instance"] }
    1
    [{ Size := 901862, LogFileName := "audit/server_audit.log",
       LastWritten := 1595262837000, LastWrittenTime := 1595262837, Path := "" },
     { Size := 1000159, LogFileName := "audit/server_audit.log.1",
       LastWritten := 1595259824000, LastWrittenTime := 1595259824, Path := "" },
     { Size := 1000011, LogFileName := "audit/server_audit.log.2",
       LastWritten := 1595256406000, LastWrittenTime := 1595256406, Path := "" }]
    { Size := 1000011, LogFileName := "audit/server_audit.log.2",
      LastWritten := 1595256406000, LastWrittenTime := 1595256406, Path := "" }
    { StatusCode := 200
      Body := fun s => ({ data := ascii "1594710325000000,a\n", err := none }, s) }
    (by decide!) (by decide!) (Prod.ext (congrArg Except.ok
      (congrArg (fun n => ({ StatusCode := n, Body := fun s =>
        ({ data := ascii "1594710325000000,a\n", err := none }, s) } : Response Nat))
        (by decide!))) rfl)
    rfl (by decide!) rfl).1

/-- C15, as amended. If `getLogFiles` succeeds (a listing attempt gave at least one
file with the prefix of the audit log) and none of its files is both rotated and has
`LastWritten` greater than the timestamp, `GetLogs` returns (nil, false, 0) without
error, and the only calls it makes are listing calls: no download request. -/
theorem GetLogs_no_newer_file {σ : Type} (cl : RdsClients σ) (c : RdsLogCollector)
    (ts : Int) (w w1 : World σ) (files : List LogFile)
    (hlist : getLogFiles cl c maxRetries w = (.ok files, w1))
    (hnone : ∀ f ∈ files, ¬ (f.IsRotatedFile = true ∧ f.LastWritten > ts)) :
    GetLogs cl c ts w =
      (.returned { reader := none, ok := false, logFileTimestamp := 0, err := none }, w1) ∧
    ∃ new, w1.calls = w.calls ++ new ∧
      ∀ x ∈ new, x = RdsCall.DescribeDBLogFilesPages c.instanceIdentifier := by
  have h1 := getCurrent_of_getLogFiles cl c ts w w1 files hlist
  have hfind : findLogFileNewerThanTimestamp files ts = .ok none := by
    unfold findLogFileNewerThanTimestamp
    rw [((selectSpec_find ts files).1).mpr hnone]
  rw [hfind] at h1
  refine ⟨getLogs_select_none cl c ts maxRetries w w1 h1, ?_⟩
  obtain ⟨n1, e1, p1⟩ := getLogFiles_calls cl c maxRetries w
  rw [hlist] at e1
  exact ⟨n1, e1, p1⟩

/-- Witness of C15: the listing of the tests and the timestamp of the newest rotated
file; the active file is newer but not rotated. -/
theorem GetLogs_no_newer_file_witness :
    GetLogs stableClients testCollector 1595259824000 { state := 0, calls := [] } =
      (.returned { reader := none, ok := false, logFileTimestamp := 0, err := none },
        { state := 1, calls := [RdsCall.DescribeDBLogFilesPages "my-rds-instance"] }) :=
  (GetLogs_no_newer_file stableClients testCollector 1595259824000 { state := 0, calls := [] }
    { state := 1, calls := [RdsCall.DescribeDBLogFilesPages "my-rds-instance"] }
    [{ Size := 901862, LogFileName := "audit/server_audit.log",
       LastWritten := 1595262837000, LastWrittenTime := 1595262837, Path := "" },
     { Size := 1000159, LogFileName := "audit/server_audit.log.1",
       LastWritten := 1595259824000, LastWrittenTime := 1595259824, Path := "" },
     { Size := 1000011, LogFileName := "audit/server_audit.log.2",
       LastWritten := 1595256406000, LastWrittenTime := 1595256406, Path := "" }]
    (by decide!) (by decide!)).1

/-- Counterexample to C15 as stated. Every listing succeeds and contains the error log
only, so no audit file that is rotated and newer than the timestamp 0; `GetLogs`
returns an error, after six listing calls. -/
theorem GetLogs_error_without_audit_file :
    GetLogs noAuditClients testCollector 0 { state := 0, calls := [] } =
      (.returned (.failure ("could not get current log file: cannot get log files: " ++
          "No log file with the given prefix found. Number of log files: 1")),
        { state := 6,
          calls := List.replicate 6 (RdsCall.DescribeDBLogFilesPages "my-rds-instance") }) := by
  decide!

/-! ## The budget of one call of GetLogs -/

theorem getLogFiles_calls_count {σ : Type} (cl : RdsClients σ) (c : RdsLogCollector) :
    ∀ (retries : Nat) (w : World σ),
      ∃ new, (getLogFiles cl c retries w).2.calls = w.calls ++ new ∧
        new.length ≤ retries + 1 ∧
        ∀ x ∈ new, x = RdsCall.DescribeDBLogFilesPages c.instanceIdentifier := by
  intro retries
  induction retries with
  | zero =>
    intro w
    refine ⟨[RdsCall.DescribeDBLogFilesPages c.instanceIdentifier], ?_, by simp, by simp⟩
    rw [getLogFiles, ← listAndFilter_calls cl c w]
    split
    · rename_i h; rw [h]
    · rename_i h; rw [h]; split <;> rfl
  | succ r ih =>
    intro w
    rw [getLogFiles]
    split
    · rename_i e w1 h
      refine ⟨[RdsCall.DescribeDBLogFilesPages c.instanceIdentifier], ?_, by simp, by simp⟩
      rw [← listAndFilter_calls cl c w, h]
    · rename_i lf mlf w1 h
      have hc : w1.calls = w.calls ++ [RdsCall.DescribeDBLogFilesPages c.instanceIdentifier] := by
        rw [← listAndFilter_calls cl c w, h]
      split
      · obtain ⟨new, h1, h2, h3⟩ := ih w1
        refine ⟨RdsCall.DescribeDBLogFilesPages c.instanceIdentifier :: new, ?_, ?_, ?_⟩
        · rw [h1, hc]; simp
        · simp only [List.length_cons]; omega
        · intro x hx
          rcases List.mem_cons.mp hx with h | h
          · exact h
          · exact h3 x h
      · exact ⟨_, hc, by simp, by simp⟩

theorem countP_listing_calls (id : String) (new : List RdsCall)
    (h : ∀ x ∈ new, x = RdsCall.DescribeDBLogFilesPages id) :
    new.countP RdsCall.isDownload = 0 ∧ new.countP RdsCall.isSleep = 0 ∧
      new.countP RdsCall.isListing ≤ new.length := by
  refine ⟨?_, ?_, List.countP_le_length _⟩
  · rw [List.countP_eq_zero]
    intro x hx
    rw [h x hx]
    simp [RdsCall.isDownload]
  · rw [List.countP_eq_zero]
    intro x hx
    rw [h x hx]
    simp [RdsCall.isSleep]

/-- The calls of one selection: at most `maxRetries + 1` listing calls, nothing else. -/
theorem getCurrent_cost {σ : Type} (cl : RdsClients σ) (c : RdsLogCollector) (ts : Int)
    (w : World σ) :
    ∃ new, (getCurrentLogFileNewerThanTimestamp cl c ts w).2.calls = w.calls ++ new ∧
      new.countP RdsCall.isDownload = 0 ∧ new.countP RdsCall.isSleep = 0 ∧
      new.countP RdsCall.isListing ≤ maxRetries + 1 := by
  obtain ⟨new, h1, h2, h3⟩ := getLogFiles_calls_count cl c maxRetries w
  obtain ⟨a, b, d⟩ := countP_listing_calls c.instanceIdentifier new h3
  refine ⟨new, ?_, a, b, le_trans d h2⟩
  unfold getCurrentLogFileNewerThanTimestamp
  split
  · rename_i h; rw [h] at h1; exact h1
  · rename_i h; rw [h] at h1; exact h1

theorem WithinBudget.of_cost {σ : Type} {retries : Nat} {w w' : World σ} (new : List RdsCall)
    (h : w'.calls = w.calls ++ new)
    (hd : new.countP RdsCall.isDownload ≤ 1) (hs : new.countP RdsCall.isSleep = 0)
    (hl : new.countP RdsCall.isListing ≤ 2 * (maxRetries + 1)) :
    WithinBudget retries w w' := by
  refine ⟨new, h, by omega, ?_, by omega⟩
  have : 2 * (maxRetries + 1) ≤ 2 * (maxRetries + 1) * (retries + 1) :=
    Nat.le_mul_of_pos_right _ (by omega)
  omega

theorem WithinBudget.retry {σ : Type} {r : Nat} {w w' w'' : World σ} (new : List RdsCall)
    (h : w'.calls = w.calls ++ new)
    (hd : new.countP RdsCall.isDownload ≤ 1) (hs : new.countP RdsCall.isSleep ≤ 1)
    (hl : new.countP RdsCall.isListing ≤ 2 * (maxRetries + 1))
    (hrest : WithinBudget r w' w'') : WithinBudget (r + 1) w w'' := by
  obtain ⟨n2, e2, d2, l2, s2⟩ := hrest
  refine ⟨new ++ n2, by rw [e2, h, List.append_assoc], ?_, ?_, ?_⟩
  · rw [List.countP_append]; omega
  · rw [List.countP_append]
    have : 2 * (maxRetries + 1) * (r + 1 + 1) =
        2 * (maxRetries + 1) + 2 * (maxRetries + 1) * (r + 1) := by ring
    omega
  · rw [List.countP_append]; omega

theorem getLogs_within_budget {σ : Type} (cl : RdsClients σ) (c : RdsLogCollector) (ts : Int) :
    ∀ (retries : Nat) (w : World σ), WithinBudget retries w (getLogs cl c ts retries w).2 := by
  intro retries
  induction retries with
  | zero =>
    intro w
    obtain ⟨n1, e1, d1, s1, l1⟩ := getCurrent_cost cl c ts w
    rcases h1 : getCurrentLogFileNewerThanTimestamp cl c ts w with ⟨res1, w1⟩
    rw [h1] at e1
    have b1 : ∀ w' : World σ, w'.calls = w1.calls → WithinBudget 0 w w' := fun w' hw =>
      WithinBudget.of_cost n1 (by rw [hw]; exact e1) (by omega) s1 (by omega)
    match res1, h1 with
    | .error e, h1 =>
      rw [getLogs_select_error cl c ts 0 w w1 e h1]; exact b1 _ rfl
    | .ok none, h1 =>
      rw [getLogs_select_none cl c ts 0 w w1 h1]; exact b1 _ rfl
    | .ok (some f), h1 =>
      have e2 := downloadLogFile_calls cl c f w1
      rcases h2 : downloadLogFile cl c f w1 with ⟨res2, w2⟩
      rw [h2] at e2
      have b2 : ∀ (n3 : List RdsCall) (w' : World σ), w'.calls = w2.calls ++ n3 →
          n3.countP RdsCall.isDownload = 0 → n3.countP RdsCall.isSleep = 0 →
          n3.countP RdsCall.isListing ≤ maxRetries + 1 → WithinBudget 0 w w' := by
        intro n3 w' hw d3 s3 l3
        refine WithinBudget.of_cost (n1 ++ [RdsCall.downloadLogFile f,
          RdsCall.Do ("https://rds." ++ c.region ++ ".amazonaws.com")
            ("/v13/downloadCompleteLogFile/" ++ c.instanceIdentifier ++ "/" ++
              f.LogFileName)] ++ n3) ?_ ?_ ?_ ?_
        · rw [hw, e2, e1]; simp
        · simp only [List.countP_append, d1, d3]; simp [List.countP_cons, RdsCall.isDownload]
        · simp only [List.countP_append, s1, s3]; simp [List.countP_cons, RdsCall.isSleep]
        · simp only [List.countP_append]
          have : List.countP RdsCall.isListing [RdsCall.downloadLogFile f,
              RdsCall.Do ("https://rds." ++ c.region ++ ".amazonaws.com")
                ("/v13/downloadCompleteLogFile/" ++ c.instanceIdentifier ++ "/" ++
                  f.LogFileName)] = 0 := by
            simp [List.countP_cons, RdsCall.isListing]
          omega
      match res2, h2 with
      | .error e, h2 =>
        rw [getLogs_download_error cl c ts 0 w w1 w2 f e h1 h2]
        exact b2 [] _ (by simp) rfl rfl (by simp)
      | .ok resp, h2 =>
        obtain ⟨n3, e3, d3, s3, l3⟩ := getCurrent_cost cl c ts w2
        rcases h3 : getCurrentLogFileNewerThanTimestamp cl c ts w2 with ⟨res3, w3⟩
        rw [h3] at e3
        match res3, h3 with
        | .error e, h3 =>
          rw [getLogs_reselect_error cl c ts 0 w w1 w2 w3 f resp e h1 h2 h3]
          exact b2 n3 _ e3 d3 s3 l3
        | .ok none, h3 =>
          rw [getLogs_reselect_none cl c ts 0 w w1 w2 w3 f resp h1 h2 h3]
          exact b2 n3 _ e3 d3 s3 l3
        | .ok (some g), h3 =>
          rw [getLogs_attempt cl c ts 0 w w1 w2 w3 f g resp h1 h2 h3]
          split
          · exact b2 n3 _ e3 d3 s3 l3
          · split
            · exact b2 n3 _ e3 d3 s3 l3
            · exact b2 n3 _ e3 d3 s3 l3
  | succ r ih =>
    intro w
    obtain ⟨n1, e1, d1, s1, l1⟩ := getCurrent_cost cl c ts w
    rcases h1 : getCurrentLogFileNewerThanTimestamp cl c ts w with ⟨res1, w1⟩
    rw [h1] at e1
    have b1 : ∀ w' : World σ, w'.calls = w1.calls → WithinBudget (r + 1) w w' := fun w' hw =>
      WithinBudget.of_cost n1 (by rw [hw]; exact e1) (by omega) s1 (by omega)
    match res1, h1 with
    | .error e, h1 =>
      rw [getLogs_select_error cl c ts (r + 1) w w1 e h1]; exact b1 _ rfl
    | .ok none, h1 =>
      rw [getLogs_select_none cl c ts (r + 1) w w1 h1]; exact b1 _ rfl
    | .ok (some f), h1 =>
      have e2 := downloadLogFile_calls cl c f w1
      rcases h2 : downloadLogFile cl c f w1 with ⟨res2, w2⟩
      rw [h2] at e2
      have cost : ∀ (n3 tail : List RdsCall) (w' : World σ),
          w'.calls = w2.calls ++ n3 ++ tail →
          n3.countP RdsCall.isDownload = 0 → n3.countP RdsCall.isSleep = 0 →
          n3.countP RdsCall.isListing ≤ maxRetries + 1 →
          tail.countP RdsCall.isDownload = 0 → tail.countP RdsCall.isSleep ≤ 1 →
          tail.countP RdsCall.isListing = 0 →
          ∃ new, w'.calls = w.calls ++ new ∧ new.countP RdsCall.isDownload ≤ 1 ∧
            new.countP RdsCall.isSleep ≤ 1 ∧
            new.countP RdsCall.isListing ≤ 2 * (maxRetries + 1) ∧
            (tail.countP RdsCall.isSleep = 0 → new.countP RdsCall.isSleep = 0) := by
        intro n3 tail w' hw d3 s3 l3 dt st lt
        refine ⟨n1 ++ [RdsCall.downloadLogFile f,
          RdsCall.Do ("https://rds." ++ c.region ++ ".amazonaws.com")
            ("/v13/downloadCompleteLogFile/" ++ c.instanceIdentifier ++ "/" ++
              f.LogFileName)] ++ n3 ++ tail, ?_, ?_, ?_, ?_, ?_⟩
        · rw [hw, e2, e1]; simp
        · simp only [List.countP_append, d1, d3, dt]; simp [List.countP_cons, RdsCall.isDownload]
        · simp only [List.countP_append, s1, s3]
          simp only [List.countP_cons, RdsCall.isSleep, List.countP_nil]
          simpa using st
        · simp only [List.countP_append, lt]
          have : List.countP RdsCall.isListing [RdsCall.downloadLogFile f,
              RdsCall.Do ("https://rds." ++ c.region ++ ".amazonaws.com")
                ("/v13/downloadCompleteLogFile/" ++ c.instanceIdentifier ++ "/" ++
                  f.LogFileName)] = 0 := by
            simp [List.countP_cons, RdsCall.isListing]
          omega
        · intro st0
          simp only [List.countP_append, s1, s3, st0]
          simp [List.countP_cons, RdsCall.isSleep]
      have b2 : ∀ (n3 : List RdsCall) (w' : World σ), w'.calls = w2.calls ++ n3 →
          n3.countP RdsCall.isDownload = 0 → n3.countP RdsCall.isSleep = 0 →
          n3.countP RdsCall.isListing ≤ maxRetries + 1 → WithinBudget (r + 1) w w' := by
        intro n3 w' hw d3 s3 l3
        obtain ⟨new, hn, dn, _, ln, sn⟩ := cost n3 [] w' (by simpa using hw) d3 s3 l3 rfl
          (by simp) rfl
        exact WithinBudget.of_cost new hn dn (sn rfl) ln
      match res2, h2 with
      | .error e, h2 =>
        rw [getLogs_download_error cl c ts (r + 1) w w1 w2 f e h1 h2]
        exact b2 [] _ (by simp) rfl rfl (by simp)
      | .ok resp, h2 =>
        obtain ⟨n3, e3, d3, s3, l3⟩ := getCurrent_cost cl c ts w2
        rcases h3 : getCurrentLogFileNewerThanTimestamp cl c ts w2 with ⟨res3, w3⟩
        rw [h3] at e3
        match res3, h3 with
        | .error e, h3 =>
          rw [getLogs_reselect_error cl c ts (r + 1) w w1 w2 w3 f resp e h1 h2 h3]
          exact b2 n3 _ e3 d3 s3 l3
        | .ok none, h3 =>
          rw [getLogs_reselect_none cl c ts (r + 1) w w1 w2 w3 f resp h1 h2 h3]
          exact b2 n3 _ e3 d3 s3 l3
        | .ok (some g), h3 =>
          rw [getLogs_attempt cl c ts (r + 1) w w1 w2 w3 f g resp h1 h2 h3]
          split
          · obtain ⟨new, hn, dn, sn, ln, _⟩ := cost n3 [] w3 (by simpa using e3) d3 s3 l3 rfl
              (by simp) rfl
            exact WithinBudget.retry new hn dn sn ln (ih w3)
          · split
            · obtain ⟨new, hn, dn, sn, ln, _⟩ := cost n3 [RdsCall.Sleep 1]
                (({ w3 with state := (resp.Body w3.state).2 } : World σ).record (.Sleep 1))
                (by show w3.calls ++ _ = _; rw [e3]) d3 s3 l3 rfl
                (List.countP_le_length _) rfl
              exact WithinBudget.retry new hn dn sn ln (ih _)
            · exact b2 n3 _ e3 d3 s3 l3

theorem getLogs_shape_step {σ : Type} (cl : RdsClients σ) (c : RdsLogCollector) (ts : Int)
    (retries : Nat)
    (hrec : ∀ n, retries = n + 1 → ∀ (w : World σ) (r : GetLogsResult),
      (getLogs cl c ts n w).1 = .returned r → ResultShape r) :
    ∀ (w : World σ) (r : GetLogsResult),
      (getLogs cl c ts retries w).1 = .returned r → ResultShape r := by
  intro w r hr
  have hfail : ∀ e, Outcome.returned (GetLogsResult.failure e) = Outcome.returned r →
      ResultShape r := by
    intro e h
    cases h
    exact Or.inr ⟨rfl, rfl, rfl⟩
  rcases h1 : getCurrentLogFileNewerThanTimestamp cl c ts w with ⟨res1, w1⟩
  match res1, h1 with
  | .error e, h1 =>
    rw [getLogs_select_error cl c ts retries w w1 e h1] at hr
    exact hfail _ hr
  | .ok none, h1 =>
    rw [getLogs_select_none cl c ts retries w w1 h1] at hr
    cases hr
    exact Or.inr ⟨rfl, rfl, rfl⟩
  | .ok (some f), h1 =>
    rcases h2 : downloadLogFile cl c f w1 with ⟨res2, w2⟩
    match res2, h2 with
    | .error e, h2 =>
      rw [getLogs_download_error cl c ts retries w w1 w2 f e h1 h2] at hr
      exact hfail _ hr
    | .ok resp, h2 =>
      rcases h3 : getCurrentLogFileNewerThanTimestamp cl c ts w2 with ⟨res3, w3⟩
      match res3, h3 with
      | .error e, h3 =>
        rw [getLogs_reselect_error cl c ts retries w w1 w2 w3 f resp e h1 h2 h3] at hr
        exact hfail _ hr
      | .ok none, h3 =>
        rw [getLogs_reselect_none cl c ts retries w w1 w2 w3 f resp h1 h2 h3] at hr
        cases hr
      | .ok (some g), h3 =>
        rw [getLogs_attempt cl c ts retries w w1 w2 w3 f g resp h1 h2 h3] at hr
        split at hr
        · cases retries with
          | zero => exact hfail _ hr
          | succ n => exact hrec n rfl _ r hr
        · split at hr
          · cases retries with
            | zero => exact hfail _ hr
            | succ n => exact hrec n rfl _ r hr
          · cases hr
            exact Or.inl ⟨rfl, rfl, _, rfl⟩

theorem getLogs_shape {σ : Type} (cl : RdsClients σ) (c : RdsLogCollector) (ts : Int) :
    ∀ (retries : Nat) (w : World σ) (r : GetLogsResult),
      (getLogs cl c ts retries w).1 = .returned r → ResultShape r := by
  intro retries
  induction retries with
  | zero => exact getLogs_shape_step cl c ts 0 (fun n h => by cases h)
  | succ n ih => exact getLogs_shape_step cl c ts (n + 1) (fun m h => by cases h; exact ih)

/-- C16. `GetLogs` is `getLogs` with 5 retries and always comes to an end: whatever the
listing and download collaborators do, the calls it makes hold at most 6 download
attempts (and at most 72 listing calls and 5 pauses). An attempt that ends in a
rotation mismatch or in a failure to read the body uses up one retry of the same
count: with a retry left `getLogs` goes on as `getLogs` with one retry less, with none
left it returns an error. And whatever `GetLogs` returns is either bytes with
ok = true and no error, or no bytes with ok = false and the timestamp 0. -/
theorem GetLogs_within_retry_budget {σ : Type} (cl : RdsClients σ) (c : RdsLogCollector)
    (ts : Int) (w : World σ) :
    GetLogs cl c ts w = getLogs cl c ts 5 w ∧
    (∃ new, (GetLogs cl c ts w).2.calls = w.calls ++ new ∧
      new.countP RdsCall.isDownload ≤ 6 ∧ new.countP RdsCall.isListing ≤ 72 ∧
      new.countP RdsCall.isSleep ≤ 5) ∧
    (∀ r, (GetLogs cl c ts w).1 = .returned r →
      (r.ok = true ∧ r.err = none ∧ ∃ data, r.reader = some data) ∨
      (r.ok = false ∧ r.reader = none ∧ r.logFileTimestamp = 0)) ∧
    (∀ (retries : Nat) (w0 w1 w2 w3 : World σ) (f g : LogFile) (resp : Response σ),
      getCurrentLogFileNewerThanTimestamp cl c ts w0 = (.ok (some f), w1) →
      downloadLogFile cl c f w1 = (.ok resp, w2) →
      getCurrentLogFileNewerThanTimestamp cl c ts w2 = (.ok (some g), w3) →
      (g.LogFileName ≠ f.LogFileName →
        getLogs cl c ts (retries + 1) w0 = getLogs cl c ts retries w3 ∧
        getLogs cl c ts 0 w0 =
          (.returned (.failure "file was rotated when getting the logs"), w3)) ∧
      (∀ e, g.LogFileName = f.LogFileName → (resp.Body w3.state).1.err = some e →
        getLogs cl c ts (retries + 1) w0 =
          getLogs cl c ts retries
            (({ w3 with state := (resp.Body w3.state).2 } : World σ).record (.Sleep 1)) ∧
        getLogs cl c ts 0 w0 =
          (.returned (.failure ("could not read response from log data: " ++ e)),
            { w3 with state := (resp.Body w3.state).2 }))) := by
  refine ⟨rfl, ?_, fun r hr => getLogs_shape cl c ts maxRetries w r hr, ?_⟩
  · obtain ⟨new, h, d, l, s⟩ := getLogs_within_budget cl c ts maxRetries w
    exact ⟨new, h, d, l, s⟩
  · intro retries w0 w1 w2 w3 f g resp h1 h2 h3
    have e1 := getLogs_attempt cl c ts (retries + 1) w0 w1 w2 w3 f g resp h1 h2 h3
    have e0 := getLogs_attempt cl c ts 0 w0 w1 w2 w3 f g resp h1 h2 h3
    refine ⟨fun hn => ?_, fun e hn he => ?_⟩
    · rw [if_pos hn] at e1 e0
      exact ⟨e1, e0⟩
    · rw [if_neg (not_not.mpr hn), he] at e1 e0
      exact ⟨e1, e0⟩

/-- Witness of C16: on the failing remote side the first three attempts of `GetLogs`
see a rotation and the next three fail to read the body. The sixth failure is
returned as the error; six downloads were attempted. -/
theorem GetLogs_within_retry_budget_witness :
    (GetLogs failingClients testCollector 0 { state := 0, calls := [] }).1 =
      .returned (.failure "could not read response from log data: unexpected EOF") ∧
    (GetLogs failingClients testCollector 0 { state := 0, calls := [] }).2.calls.countP
      RdsCall.isDownload = 6 ∧
    (GetLogs failingClients testCollector 0 { state := 0, calls := [] }).2.calls.countP
      RdsCall.isListing = 12 ∧
    (GetLogs failingClients testCollector 0 { state := 0, calls := [] }).2.calls.countP
      RdsCall.isSleep = 2 ∧
    ∃ new, (GetLogs failingClients testCollector 0 { state := 0, calls := [] }).2.calls =
        [] ++ new ∧
      new.countP RdsCall.isDownload ≤ 6 ∧ new.countP RdsCall.isListing ≤ 72 ∧
      new.countP RdsCall.isSleep ≤ 5 :=
  ⟨by decide!, by decide!, by decide!, by decide!,
   (GetLogs_within_retry_budget failingClients testCollector 0 { state := 0, calls := [] }).2.1⟩

/-! ## The listing attempts of getLogFiles -/

theorem getLogFilesCallback_eq (logFiles : List LogFile)
    (output : List DescribeDBLogFilesDetails) (lastPage : Bool) :
    getLogFilesCallback logFiles output lastPage = (logFiles ++ output.map toLogFile, lastPage) :=
  rfl

theorem eachPage_single (page : List DescribeDBLogFilesDetails) :
    eachPage getLogFilesCallback [page] none [] = (page.map toLogFile, none) := by
  simp [eachPage, getLogFilesCallback_eq]

theorem eachPage_more (p q : List DescribeDBLogFilesDetails)
    (rest : List (List DescribeDBLogFilesDetails)) (err : Option String) :
    eachPage getLogFilesCallback (p :: q :: rest) err [] = (p.map toLogFile, none) := by
  simp [eachPage, getLogFilesCallback_eq]

theorem listAndFilter_of_pages {σ : Type} (cl : RdsClients σ) (c : RdsLogCollector)
    (w : World σ) (pages : List (List DescribeDBLogFilesDetails)) (err : Option String) (s : σ)
    (collected : List LogFile)
    (h : cl.DescribeDBLogFilesPages c.instanceIdentifier w.state = ((pages, err), s))
    (hp : eachPage getLogFilesCallback pages err [] = (collected, none)) :
    listAndFilter cl c w =
      (.ok (collected, collected.filter (fun lf => hasLogFilePrefix c lf.LogFileName)),
        { state := s,
          calls := w.calls ++ [RdsCall.DescribeDBLogFilesPages c.instanceIdentifier] }) := by
  unfold listAndFilter
  simp only [World.record, h, hp]
  rfl

theorem listAndFilter_matching {σ : Type} (cl : RdsClients σ) (c : RdsLogCollector)
    (w : World σ) (logFiles matching : List LogFile)
    (h : (listAndFilter cl c w).1 = .ok (logFiles, matching)) :
    matching = logFiles.filter (fun lf => hasLogFilePrefix c lf.LogFileName) := by
  unfold listAndFilter at h
  dsimp only at h
  cases hp : (eachPage getLogFilesCallback
      (cl.DescribeDBLogFilesPages c.instanceIdentifier
        (w.record (RdsCall.DescribeDBLogFilesPages c.instanceIdentifier)).state).1.1
      (cl.DescribeDBLogFilesPages c.instanceIdentifier
        (w.record (RdsCall.DescribeDBLogFilesPages c.instanceIdentifier)).state).1.2 []).2 with
  | some e =>
    rw [hp] at h
    cases h
  | none =>
    rw [hp] at h
    simp only [Except.ok.injEq, Prod.mk.injEq] at h
    rw [← h.2, ← h.1]
    rfl

theorem attemptWorld_succ {σ : Type} (cl : RdsClients σ) (c : RdsLogCollector) :
    ∀ (n : Nat) (w : World σ),
      attemptWorld cl c (n + 1) w = (listAndFilter cl c (attemptWorld cl c n w)).2
  | 0, _ => rfl
  | n + 1, w => by
    rw [attemptWorld, attemptWorld_succ cl c n]
    rfl

theorem attemptWorld_calls {σ : Type} (cl : RdsClients σ) (c : RdsLogCollector) :
    ∀ (n : Nat) (w : World σ),
      (attemptWorld cl c n w).calls =
        w.calls ++ List.replicate n (RdsCall.DescribeDBLogFilesPages c.instanceIdentifier)
  | 0, w => by simp [attemptWorld]
  | n + 1, w => by
    rw [attemptWorld, attemptWorld_calls cl c n, listAndFilter_calls, List.replicate_succ]
    simp

/-- The first attempt with a matching file decides `getLogFiles`. -/
theorem getLogFiles_first_match {σ : Type} (cl : RdsClients σ) (c : RdsLogCollector) :
    ∀ (k retries : Nat) (w : World σ) (logFiles matching : List LogFile), k ≤ retries →
      (∀ i < k, ∃ all, (listAndFilter cl c (attemptWorld cl c i w)).1 = .ok (all, [])) →
      (listAndFilter cl c (attemptWorld cl c k w)).1 = .ok (logFiles, matching) →
      matching ≠ [] →
      getLogFiles cl c retries w = (.ok matching, attemptWorld cl c (k + 1) w)
  | 0, retries, w, logFiles, matching, _, _, hm, hne => by
    have hw : listAndFilter cl c w = (.ok (logFiles, matching), (listAndFilter cl c w).2) :=
      Prod.ext hm rfl
    have hlen : ¬ matching.length = 0 := fun h => hne (List.length_eq_zero.mp h)
    cases retries <;> rw [getLogFiles] <;> rw [hw] <;> simp only [hlen, if_false] <;> rfl
  | k + 1, 0, _, _, _, hk, _, _, _ => by omega
  | k + 1, retries + 1, w, logFiles, matching, hk, he, hm, hne => by
    obtain ⟨all, h0⟩ := he 0 (by omega)
    have hw : listAndFilter cl c w = (.ok (all, []), (listAndFilter cl c w).2) :=
      Prod.ext h0 rfl
    rw [getLogFiles, hw]
    simp only [List.length_nil, if_true]
    exact getLogFiles_first_match cl c k retries _ logFiles matching (by omega)
      (fun i hi => he (i + 1) (by omega)) hm hne

/-- Attempts without a matching file use up the retries. -/
theorem getLogFiles_no_match {σ : Type} (cl : RdsClients σ) (c : RdsLogCollector) :
    ∀ (retries : Nat) (w : World σ) (all : List LogFile),
      (∀ i < retries, ∃ a, (listAndFilter cl c (attemptWorld cl c i w)).1 = .ok (a, [])) →
      (listAndFilter cl c (attemptWorld cl c retries w)).1 = .ok (all, []) →
      getLogFiles cl c retries w =
        (.error ("No log file with the given prefix found. Number of log files: " ++
          toString all.length), attemptWorld cl c (retries + 1) w)
  | 0, w, all, _, hl => by
    have hw : listAndFilter cl c w = (.ok (all, []), (listAndFilter cl c w).2) :=
      Prod.ext hl rfl
    rw [getLogFiles, hw]
    rfl
  | retries + 1, w, all, he, hl => by
    obtain ⟨a, h0⟩ := he 0 (by omega)
    have hw : listAndFilter cl c w = (.ok (a, []), (listAndFilter cl c w).2) :=
      Prod.ext h0 rfl
    rw [getLogFiles, hw]
    simp only [List.length_nil, if_true]
    exact getLogFiles_no_match cl c retries _ all (fun i hi => he (i + 1) (by omega)) hl

/-- C17. If the list-and-filter attempts of `getLogFiles` (called with `maxRetries`) all
succeed, the attempts before attempt k give no file with the prefix of the audit log
and attempt k, one of the first six, gives at least one, then `getLogFiles` returns
without error exactly the files of attempt k that have the prefix, in the order of
the listing, after k + 1 listing calls. When the listing of that attempt comes in one
page, these are the entries of the page with the prefix, with name, size and
`LastWritten` unchanged. -/
theorem getLogFiles_returns_first_match {σ : Type} (cl : RdsClients σ) (c : RdsLogCollector)
    (w : World σ) (k : Nat) (logFiles matching : List LogFile) (hk : k ≤ maxRetries)
    (hempty : ∀ i < k, ∃ all, (listAndFilter cl c (attemptWorld cl c i w)).1 = .ok (all, []))
    (hmatch : (listAndFilter cl c (attemptWorld cl c k w)).1 = .ok (logFiles, matching))
    (hne : matching ≠ []) :
    getLogFiles cl c maxRetries w = (.ok matching, attemptWorld cl c (k + 1) w) ∧
    matching = logFiles.filter (fun lf => hasLogFilePrefix c lf.LogFileName) ∧
    (attemptWorld cl c (k + 1) w).calls =
      w.calls ++ List.replicate (k + 1) (RdsCall.DescribeDBLogFilesPages c.instanceIdentifier) ∧
    (∀ (page : List DescribeDBLogFilesDetails) (s : σ),
      cl.DescribeDBLogFilesPages c.instanceIdentifier (attemptWorld cl c k w).state =
        (([page], none), s) →
      matching =
        (page.filter (fun d => hasLogFilePrefix c d.LogFileName)).map toLogFile) := by
  have hm := listAndFilter_matching cl c _ logFiles matching hmatch
  refine ⟨getLogFiles_first_match cl c k maxRetries w logFiles matching hk hempty hmatch hne,
    hm, attemptWorld_calls cl c (k + 1) w, ?_⟩
  intro page s hpage
  have h := listAndFilter_of_pages cl c (attemptWorld cl c k w) [page] none s _ hpage
    (eachPage_single page)
  rw [h] at hmatch
  simp only [Except.ok.injEq, Prod.mk.injEq] at hmatch
  rw [← hmatch.2, List.filter_map]
  rfl

/-- Witness of C17: the tests `TestGetLogFiles` (a match in the first attempt) and
`TestGetLogFilesWithRetry` (a match in the second attempt, after one empty listing). -/
theorem getLogFiles_returns_first_match_witness :
    getLogFiles mixedClients testCollector maxRetries { state := 0, calls := [] } =
      (.ok [{ Size := 901862, LogFileName := "audit/server_audit.log",
              LastWritten := 1595262837000, LastWrittenTime := 1595262837, Path := "" },
            { Size := 1000159, LogFileName := "audit/server_audit.log.1",
              LastWritten := 1595259824000, LastWrittenTime := 1595259824, Path := "" },
            { Size := 1000011, LogFileName := "audit/server_audit.log.2",
              LastWritten := 1595256406000, LastWrittenTime := 1595256406, Path := "" }],
        attemptWorld mixedClients testCollector 1 { state := 0, calls := [] }) ∧
    getLogFiles retryClients testCollector maxRetries { state := 0, calls := [] } =
      (.ok [{ Size := 901862, LogFileName := "audit/server_audit.log",
              LastWritten := 1595262837000, LastWrittenTime := 1595262837, Path := "" },
            { Size := 1000159, LogFileName := "audit/server_audit.log.1",
              LastWritten := 1595259824000, LastWrittenTime := 1595259824, Path := "" }],
        attemptWorld retryClients testCollector 2 { state := 0, calls := [] }) ∧
    (attemptWorld retryClients testCollector 2 { state := 0, calls := [] }).calls =
      [RdsCall.DescribeDBLogFilesPages "my-rds-instance",
       RdsCall.DescribeDBLogFilesPages "my-rds-instance"] :=
  ⟨(getLogFiles_returns_first_match mixedClients testCollector { state := 0, calls := [] } 0
      (mixedListing.map toLogFile) _ (by decide) (fun i hi => absurd hi (Nat.not_lt_zero i))
      (by decide!) (by simp)).1,
   (getLogFiles_returns_first_match retryClients testCollector { state := 0, calls := [] } 1
      ((listingBeforeRotation.take 2).map toLogFile) _ (by decide)
      (fun i hi => ⟨[], by
        have : i = 0 := by omega
        subst this
        decide!⟩)
      (by decide!) (by simp)).1,
   by decide!⟩

/-- C18, as amended. If every list-and-filter attempt of `getLogFiles` (called with
`maxRetries`) succeeds and none gives a file with the prefix of the audit log,
`getLogFiles` makes exactly six attempts, the first one and `maxRetries` = 5 retries,
and then fails with the error that no log file with the given prefix was found. -/
theorem getLogFiles_gives_up_after_six {σ : Type} (cl : RdsClients σ) (c : RdsLogCollector)
    (w : World σ)
    (hempty : ∀ i ≤ maxRetries,
      ∃ all, (listAndFilter cl c (attemptWorld cl c i w)).1 = .ok (all, [])) :
    ∃ all, (listAndFilter cl c (attemptWorld cl c 5 w)).1 = .ok (all, []) ∧
      getLogFiles cl c maxRetries w =
        (.error ("No log file with the given prefix found. Number of log files: " ++
          toString all.length), attemptWorld cl c 6 w) ∧
      (attemptWorld cl c 6 w).calls =
        w.calls ++ List.replicate 6 (RdsCall.DescribeDBLogFilesPages c.instanceIdentifier) := by
  obtain ⟨all, hall⟩ := hempty maxRetries (Nat.le_refl _)
  exact ⟨all, hall,
    getLogFiles_no_match cl c maxRetries w all (fun i hi => hempty i (Nat.le_of_lt hi)) hall,
    attemptWorld_calls cl c 6 w⟩

/-- Witness of C18: the remote side whose listing has the error log only. -/
theorem getLogFiles_gives_up_after_six_witness :
    ∃ all, (listAndFilter noAuditClients testCollector
        (attemptWorld noAuditClients testCollector 5 { state := 0, calls := [] })).1 =
          .ok (all, []) ∧
      getLogFiles noAuditClients testCollector maxRetries { state := 0, calls := [] } =
        (.error ("No log file with the given prefix found. Number of log files: " ++
          toString all.length),
          attemptWorld noAuditClients testCollector 6 { state := 0, calls := [] }) ∧
      (attemptWorld noAuditClients testCollector 6 { state := 0, calls := [] }).calls =
        [] ++ List.replicate 6 (RdsCall.DescribeDBLogFilesPages testCollector.instanceIdentifier) :=
  getLogFiles_gives_up_after_six noAuditClients testCollector { state := 0, calls := [] }
    (fun i hi => ⟨[toLogFile ⟨1595262600000, "error/mysql-error.log", 0⟩], by
      have hi' : i ≤ 5 := hi
      interval_cases i <;> decide!⟩)

/-- Counterexample to C18 as stated: on the remote side whose listing has the error log
only, `getLogFiles` called with `maxRetries` fails after six listing calls, not
five. -/
theorem getLogFiles_makes_six_attempts :
    getLogFiles noAuditClients testCollector maxRetries { state := 0, calls := [] } =
      (.error "No log file with the given prefix found. Number of log files: 1",
        { state := 6,
          calls := List.replicate 6 (RdsCall.DescribeDBLogFilesPages "my-rds-instance") }) ∧
    (getLogFiles noAuditClients testCollector maxRetries
      { state := 0, calls := [] }).2.calls.length ≠ 5 := by
  refine ⟨by decide!, by decide!⟩

/-- C19. When the listing comes in two or more pages, one listing attempt of
`getLogFiles` takes the files of the first page only: the callback returns `lastPage`,
which is false on the first page, and the paging stops there. The result of the
attempt is the first page filtered by the prefix, not the concatenation of the
pages. -/
theorem getLogFiles_reads_first_page_only {σ : Type} (cl : RdsClients σ)
    (c : RdsLogCollector) (w : World σ) (p q : List DescribeDBLogFilesDetails)
    (rest : List (List DescribeDBLogFilesDetails)) (err : Option String) (s : σ)
    (h : cl.DescribeDBLogFilesPages c.instanceIdentifier w.state = ((p :: q :: rest, err), s)) :
    listAndFilter cl c w =
      (.ok (p.map toLogFile,
          (p.filter (fun d => hasLogFilePrefix c d.LogFileName)).map toLogFile),
        { state := s,
          calls := w.calls ++ [RdsCall.DescribeDBLogFilesPages c.instanceIdentifier] }) := by
  rw [listAndFilter_of_pages cl c w (p :: q :: rest) err s _ h (eachPage_more p q rest err),
    List.filter_map]
  rfl

/-- Witness of C19: the listing of the tests delivered in two pages. `getLogFiles`
returns the two files of the first page; the older rotated file of the second page is
missing, and `GetLogs` with the timestamp 0 downloads the newer rotated file. -/
theorem getLogFiles_reads_first_page_only_witness :
    listAndFilter pagedClients testCollector { state := 0, calls := [] } =
      (.ok ((listingBeforeRotation.take 2).map toLogFile,
          ((listingBeforeRotation.take 2).filter
            (fun d => hasLogFilePrefix testCollector d.LogFileName)).map toLogFile),
        { state := 1, calls := [] ++ [RdsCall.DescribeDBLogFilesPages "my-rds-instance"] }) ∧
    (getLogFiles pagedClients testCollector maxRetries { state := 0, calls := [] }).1 =
      .ok [{ Size := 901862, LogFileName := "audit/server_audit.log",
             LastWritten := 1595262837000, LastWrittenTime := 1595262837, Path := "" },
           { Size := 1000159, LogFileName := "audit/server_audit.log.1",
             LastWritten := 1595259824000, LastWrittenTime := 1595259824, Path := "" }] ∧
    (GetLogs pagedClients testCollector 0 { state := 0, calls := [] }).1 =
      .returned { reader := some (ascii "1594710325000000,a\n"), ok := true,
                  logFileTimestamp := 1595259824000, err := none } :=
  ⟨getLogFiles_reads_first_page_only pagedClients testCollector { state := 0, calls := [] }
      (listingBeforeRotation.take 2) (listingBeforeRotation.drop 2) [] none 1 rfl,
   by decide!, by decide!⟩

/-! ## Rotated files -/

theorem matchesRotationSuffix_iff (t : List Char) :
    matchesRotationSuffix t = true ↔
      ∃ digits : List Char, t = ".log.".toList ++ digits ∧ digits ≠ [] ∧
        ∀ ch ∈ digits, isDigit ch = true := by
  unfold matchesRotationSuffix
  simp only [Bool.and_eq_true, List.isPrefixOf_iff_prefix, Bool.not_eq_true',
    List.isEmpty_eq_false, List.all_eq_true]
  constructor
  · rintro ⟨⟨⟨rest, hrest⟩, hne⟩, hall⟩
    have hdrop : t.drop 5 = rest := by
      rw [← hrest]
      exact List.drop_left' (by decide)
    rw [hdrop] at hne hall
    exact ⟨rest, hrest.symm, hne, hall⟩
  · rintro ⟨digits, ht, hne, hall⟩
    have hdrop : t.drop 5 = digits := by
      rw [ht]
      exact List.drop_left' (by decide)
    rw [hdrop]
    exact ⟨⟨⟨digits, ht.symm⟩, hne⟩, hall⟩

/-- C20, as amended. `IsRotatedFile` returns true for a log file exactly when its name
ends with `.log.` followed by one or more decimal digits: a numeric suffix counts
only right after `.log`. The active file `audit/server_audit.log` is not rotated and
`audit/server_audit.log.1` is. -/
theorem IsRotatedFile_iff (l : LogFile) :
    (l.IsRotatedFile = true ↔
      ∃ (pre digits : List Char),
        l.LogFileName.toList = pre ++ ['.', 'l', 'o', 'g', '.'] ++ digits ∧ digits ≠ [] ∧
        ∀ ch ∈ digits, '0' ≤ ch ∧ ch ≤ '9') ∧
    (fileNamed "audit/server_audit.log").IsRotatedFile = false ∧
    (fileNamed "audit/server_audit.log.1").IsRotatedFile = true := by
  refine ⟨?_, by decide, by decide⟩
  have hd : ∀ ch : Char, isDigit ch = true ↔ '0' ≤ ch ∧ ch ≤ '9' := by
    intro ch
    simp [isDigit]
  unfold LogFile.IsRotatedFile
  rw [List.any_eq_true]
  constructor
  · rintro ⟨t, ht, hm⟩
    obtain ⟨pre, hpre⟩ := (List.mem_tails _ _).mp ht
    obtain ⟨digits, hdt, hne, hall⟩ := (matchesRotationSuffix_iff t).mp hm
    refine ⟨pre, digits, ?_, hne, fun ch hch => (hd ch).mp (hall ch hch)⟩
    rw [← hpre, hdt, List.append_assoc]
    rfl
  · rintro ⟨pre, digits, hname, hne, hall⟩
    refine ⟨".log.".toList ++ digits, ?_, ?_⟩
    · rw [List.mem_tails]
      exact ⟨pre, by rw [hname, List.append_assoc]; rfl⟩
    · exact (matchesRotationSuffix_iff _).mpr
        ⟨digits, rfl, hne, fun ch hch => (hd ch).mpr (hall ch hch)⟩

/-- Counterexample to C20 as stated: a name that ends with a dot followed by a digit,
but not with `.log.` and digits, is not a rotated file for `IsRotatedFile`. -/
theorem IsRotatedFile_needs_log_suffix :
    (fileNamed "audit/server_audit.1").IsRotatedFile = false ∧
    (fileNamed "audit/server_audit.1").LogFileName.toList =
      "audit/server_audit".toList ++ '.' :: ['1'] ∧
    (fileNamed "audit/server_audit.log-2020.1").IsRotatedFile = false := by
  decide

/-! ## The checkpoint id and the readiness check -/

theorem mem_iterationsTrace_store (id : String) (cp : CheckpointRecord) (err : Option String) :
    ∀ (its : List (GetLogsResult × List LogEntry)) (w0 : Int),
      Event.StoreCheckpoint cp err ∈ iterationsTrace id w0 its → cp.Id = id
  | [], _, h => by cases h
  | (r0, recs0) :: rest, w0, h => by
    rw [iterationsTrace] at h
    rcases List.mem_append.mp h with h | h
    · rcases List.mem_append.mp h with h | h
      · rcases List.mem_cons.mp h with h | h
        · cases h
        · obtain ⟨x, _, hx⟩ := List.mem_map.mp h
          cases hx
      · rw [List.mem_singleton] at h
        cases h
        rfl
    · exact mem_iterationsTrace_store id cp err rest _ h

theorem mem_lastIteration_store {σ : Type} {c : Collaborators σ} {id : String} {w : Int}
    {res : ProcessResult} {last : List Event} (hlast : LastIteration c id w res last)
    (cp : CheckpointRecord) (err : Option String)
    (h : Event.StoreCheckpoint cp err ∈ last) : cp.Id = id := by
  cases hlast with
  | outOfFuel => cases h
  | getLogsPanic => simp at h
  | getLogsError r e he => simp at h
  | noMoreLogs r he hk => simp at h
  | nilReader r he hk hr => simp at h
  | parseError r b e he hk hr hp => simp at h
  | nilEntry r b written rest he hk hr hp =>
    rcases List.mem_cons.mp h with h | h
    · cases h
    · obtain ⟨x, _, hx⟩ := List.mem_map.mp h
      cases hx
  | writeFailed r b written e rest err' he hk hr hp =>
    rcases List.mem_append.mp h with h | h
    · rcases List.mem_cons.mp h with h | h
      · cases h
      · obtain ⟨x, _, hx⟩ := List.mem_map.mp h
        cases hx
    · rw [List.mem_singleton] at h
      cases h
  | storeFailed r b recs e he hk hr hp =>
    rcases List.mem_append.mp h with h | h
    · rcases List.mem_cons.mp h with h | h
      · cases h
      · obtain ⟨x, _, hx⟩ := List.mem_map.mp h
        cases hx
    · rw [List.mem_singleton] at h
      cases h
      rfl

theorem mem_iterationsTrace_not_getCheckpoint (id : String) (i : String)
    (res : Except String (Option CheckpointRecord)) :
    ∀ (its : List (GetLogsResult × List LogEntry)) (w0 : Int),
      Event.GetCheckpoint i res ∉ iterationsTrace id w0 its
  | [], _, h => by cases h
  | (r0, recs0) :: rest, w0, h => by
    rw [iterationsTrace] at h
    rcases List.mem_append.mp h with h | h
    · rcases List.mem_append.mp h with h | h
      · rcases List.mem_cons.mp h with h | h
        · cases h
        · obtain ⟨x, _, hx⟩ := List.mem_map.mp h
          cases hx
      · rw [List.mem_singleton] at h
        cases h
    · exact mem_iterationsTrace_not_getCheckpoint id i res rest _ h

theorem mem_lastIteration_not_getCheckpoint {σ : Type} {c : Collaborators σ} {id : String}
    {w : Int} {res : ProcessResult} {last : List Event} (hlast : LastIteration c id w res last)
    (i : String) (r0 : Except String (Option CheckpointRecord)) :
    Event.GetCheckpoint i r0 ∉ last := by
  intro h
  cases hlast with
  | outOfFuel => cases h
  | getLogsPanic => simp at h
  | getLogsError r e he => simp at h
  | noMoreLogs r he hk => simp at h
  | nilReader r he hk hr => simp at h
  | parseError r b e he hk hr hp => simp at h
  | nilEntry r b written rest he hk hr hp =>
    rcases List.mem_cons.mp h with h | h
    · cases h
    · obtain ⟨x, _, hx⟩ := List.mem_map.mp h
      cases hx
  | writeFailed r b written e rest err' he hk hr hp =>
    rcases List.mem_append.mp h with h | h
    · rcases List.mem_cons.mp h with h | h
      · cases h
      · obtain ⟨x, _, hx⟩ := List.mem_map.mp h
        cases hx
    · rw [List.mem_singleton] at h
      cases h
  | storeFailed r b recs e he hk hr hp =>
    rcases List.mem_append.mp h with h | h
    · rcases List.mem_cons.mp h with h | h
      · cases h
      · obtain ⟨x, _, hx⟩ := List.mem_map.mp h
        cases hx
    · rw [List.mem_singleton] at h
      cases h

theorem processLoop_first_call {σ : Type} (c : Collaborators σ) (id : String) (fuel : Nat)
    (ts : Int) (st : σ) :
    ∃ rest, (processLoop c id (fuel + 1) ts st).2.1 =
      Event.GetLogs ts (c.GetLogs ts st).1 :: rest := by
  rw [processLoop]
  dsimp only
  iterate 8 (any_goals (first | exact ⟨_, rfl⟩ | split))

/-- C22. In every run of `Process` the checkpoint is read with the id
`<RdsInstanceIdentifier>:audit` and every call of `StoreCheckpoint` carries that same
id. When the readiness check succeeds and `GetCheckpoint` answers without error, the
next call is `GetLogs` with the `LogFileTimestamp` of the record when there is one and
with 0 when there is none: a missing record is not an error. -/
theorem Process_checkpoint_id {σ : Type} (c : Collaborators σ) (rid : String) (fuel : Nat)
    (s : σ) :
    (∀ id res, Event.GetCheckpoint id res ∈ (Process c rid fuel s).2.1 →
      id = rid ++ ":" ++ "audit") ∧
    (∀ cp err, Event.StoreCheckpoint cp err ∈ (Process c rid fuel s).2.1 →
      cp.Id = rid ++ ":" ++ "audit") ∧
    (∀ ck, (c.ValidateAndPrepareRDSInstance s).1 = none →
      (c.GetCheckpoint (rid ++ ":" ++ "audit") (c.ValidateAndPrepareRDSInstance s).2).1 =
        .ok ck →
      ∃ rest, (Process c rid (fuel + 1) s).2.1 =
        Event.ValidateAndPrepareRDSInstance none ::
        Event.GetCheckpoint (rid ++ ":" ++ "audit") (.ok ck) ::
        Event.GetLogs (startTimestamp ck)
          (c.GetLogs (startTimestamp ck)
            (c.GetCheckpoint (rid ++ ":" ++ "audit")
              (c.ValidateAndPrepareRDSInstance s).2).2).1 :: rest) ∧
    startTimestamp none = 0 ∧
    (∀ r : CheckpointRecord, startTimestamp (some r) = r.LogFileTimestamp) := by
  refine ⟨?_, ?_, ?_, rfl, fun _ => rfl⟩
  · intro id res hm
    have hshape := Process_shape c rid fuel s
    generalize (Process c rid fuel s).1 = r at hshape
    generalize (Process c rid fuel s).2.1 = tr at hshape hm
    cases hshape with
    | validateFailed e => simp at hm
    | getCheckpointFailed e =>
      simp only [List.mem_cons, Event.GetCheckpoint.injEq, List.mem_singleton,
        List.not_mem_nil, or_false] at hm
      rcases hm with h | h
      · cases h
      · exact h.1
    | loop ck its res0 last hits hlast =>
      rcases List.mem_cons.mp hm with h | h
      · cases h
      · rcases List.mem_cons.mp h with h | h
        · simp only [Event.GetCheckpoint.injEq] at h
          exact h.1
        · rcases List.mem_append.mp h with h | h
          · exact absurd h (mem_iterationsTrace_not_getCheckpoint _ id res its _)
          · exact absurd h (mem_lastIteration_not_getCheckpoint hlast id res)
  · intro cp err hm
    have hshape := Process_shape c rid fuel s
    generalize (Process c rid fuel s).1 = r at hshape
    generalize (Process c rid fuel s).2.1 = tr at hshape hm
    cases hshape with
    | validateFailed e => simp at hm
    | getCheckpointFailed e => simp at hm
    | loop ck its res0 last hits hlast =>
      rcases List.mem_cons.mp hm with h | h
      · cases h
      · rcases List.mem_cons.mp h with h | h
        · cases h
        · rcases List.mem_append.mp h with h | h
          · exact mem_iterationsTrace_store _ cp err its _ h
          · exact mem_lastIteration_store hlast cp err h
  · intro ck hv hck
    obtain ⟨rest, hrest⟩ := processLoop_first_call c (rid ++ ":" ++ "audit") fuel
      (startTimestamp ck)
      (c.GetCheckpoint (rid ++ ":" ++ "audit") (c.ValidateAndPrepareRDSInstance s).2).2
    refine ⟨rest, ?_⟩
    have hP : (Process c rid (fuel + 1) s).2.1 =
        Event.ValidateAndPrepareRDSInstance none ::
        Event.GetCheckpoint (rid ++ ":" ++ "audit") (.ok ck) ::
        (processLoop c (rid ++ ":" ++ "audit") (fuel + 1) (startTimestamp ck)
          (c.GetCheckpoint (rid ++ ":" ++ "audit")
            (c.ValidateAndPrepareRDSInstance s).2).2).2.1 := by
      simp only [Process, hv, hck]
      cases ck <;> rfl
    rw [hP, hrest]

/-- Witness of C22: without a checkpoint record the first call of `GetLogs` gets 0, with
the record of timestamp 1 it gets 1; the checkpoints stored carry the id `db:audit`. -/
theorem Process_checkpoint_id_witness :
    (∃ rest, (Process (scriptedCollaborators none twoFiles (fun _ => false)) "db" (0 + 1) 0).2.1 =
      Event.ValidateAndPrepareRDSInstance none ::
      Event.GetCheckpoint ("db" ++ ":" ++ "audit") (.ok none) ::
      Event.GetLogs (startTimestamp none)
        ((scriptedCollaborators none twoFiles (fun _ => false)).GetLogs (startTimestamp none)
          ((scriptedCollaborators none twoFiles (fun _ => false)).GetCheckpoint
            ("db" ++ ":" ++ "audit")
            ((scriptedCollaborators none twoFiles
              (fun _ => false)).ValidateAndPrepareRDSInstance 0).2).2).1 :: rest) ∧
    (Process (scriptedCollaborators (some ⟨1, "db:audit"⟩) twoFiles (fun _ => false))
        "db" 5 0).2.1 =
      [Event.ValidateAndPrepareRDSInstance none,
       Event.GetCheckpoint "db:audit" (.ok (some ⟨1, "db:audit"⟩)),
       Event.GetLogs 1 (.returned (fileResult
         (ascii "1594710325000000,a\n1594713926000000,c", 2))),
       Event.WriteLogEntry ⟨⟨2020, 7, 14, 7⟩, ascii "1594710325000000,a\n", 2⟩ none,
       Event.WriteLogEntry ⟨⟨2020, 7, 14, 8⟩, ascii "1594713926000000,c\n", 2⟩ none,
       Event.StoreCheckpoint ⟨2, "db:audit"⟩ none,
       Event.GetLogs 2 (.returned (fileResult (ascii "1594717527000000,e", 3))),
       Event.WriteLogEntry ⟨⟨2020, 7, 14, 9⟩, ascii "1594717527000000,e\n", 3⟩ none,
       Event.StoreCheckpoint ⟨3, "db:audit"⟩ none,
       Event.GetLogs 3 (.returned noMoreLogs)] :=
  ⟨(Process_checkpoint_id (scriptedCollaborators none twoFiles (fun _ => false)) "db" 0
      0).2.2.1 none rfl rfl,
   by decide!⟩

/-- C23. If `ValidateAndPrepareRDSInstance` fails, `Process` returns the error and the
readiness check is the only call of the run: no `GetCheckpoint`, `GetLogs`,
`WriteLogEntry` or `StoreCheckpoint`, the state being the one the readiness check
left. -/
theorem Process_stops_when_validation_fails {σ : Type} (c : Collaborators σ) (rid : String)
    (fuel : Nat) (s : σ) (err : String)
    (h : (c.ValidateAndPrepareRDSInstance s).1 = some err) :
    Process c rid fuel s =
      (some (.returned (some ("error validating RDS instance: " ++ err))),
        [Event.ValidateAndPrepareRDSInstance (some err)],
        (c.ValidateAndPrepareRDSInstance s).2) := by
  unfold Process
  simp only [h]

/-- Witness of C23: a processor whose readiness check fails. -/
theorem Process_stops_when_validation_fails_witness :
    Process unreadyCollaborators "db" 5 0 =
      (some (.returned (some ("error validating RDS instance: " ++
          "could not find db instance: db"))),
        [Event.ValidateAndPrepareRDSInstance (some "could not find db instance: db")],
        (unreadyCollaborators.ValidateAndPrepareRDSInstance 0).2) :=
  Process_stops_when_validation_fails unreadyCollaborators "db" 5 0
    "could not find db instance: db" rfl

/-- C25. When the selection repeated after the download finds no qualifying file,
`getLogs` compares `newCurrentLogFile.LogFileName` all the same: the nil pointer is
dereferenced and `GetLogs` does not return, it panics. Here the listing succeeds
before and after the download, the file f is selected and downloaded with status 200,
and no file of the second listing is rotated and newer than the timestamp. -/
theorem GetLogs_panics_when_file_vanishes {σ : Type} (cl : RdsClients σ) (c : RdsLogCollector)
    (ts : Int) (w w1 w3 : World σ) (s2 : σ) (files files2 : List LogFile) (f : LogFile)
    (resp : Response σ)
    (hlist : getLogFiles cl c maxRetries w = (.ok files, w1))
    (hsel : findLogFileNewerThanTimestamp files ts = .ok (some f))
    (hdo : cl.Do ("https://rds." ++ c.region ++ ".amazonaws.com")
      ("/v13/downloadCompleteLogFile/" ++ c.instanceIdentifier ++ "/" ++ f.LogFileName)
      w1.state = (.ok resp, s2))
    (hstatus : resp.StatusCode = 200)
    (hlist2 : getLogFiles cl c maxRetries
      { state := s2
        calls := w1.calls ++ [RdsCall.downloadLogFile f,
          RdsCall.Do ("https://rds." ++ c.region ++ ".amazonaws.com")
            ("/v13/downloadCompleteLogFile/" ++ c.instanceIdentifier ++ "/" ++
              f.LogFileName)] } = (.ok files2, w3))
    (hnone : ∀ g ∈ files2, ¬ (g.IsRotatedFile = true ∧ g.LastWritten > ts)) :
    GetLogs cl c ts w = (.panic, w3) ∧
    ∀ retries, getLogs cl c ts retries w = (.panic, w3) := by
  have h1 := getCurrent_of_getLogFiles cl c ts w w1 files hlist
  rw [hsel] at h1
  have h2 := downloadLogFile_ok cl c f w1 resp s2 hdo hstatus
  have h3 := getCurrent_of_getLogFiles cl c ts _ w3 files2 hlist2
  have hfind : findLogFileNewerThanTimestamp files2 ts = .ok none := by
    unfold findLogFileNewerThanTimestamp
    rw [((selectSpec_find ts files2).1).mpr hnone]
  rw [hfind] at h3
  exact ⟨getLogs_reselect_none cl c ts maxRetries w w1 _ w3 f resp h1 h2 h3,
    fun retries => getLogs_reselect_none cl c ts retries w w1 _ w3 f resp h1 h2 h3⟩

/-- Witness of C25: the rotated files are gone from the listing after the download. -/
theorem GetLogs_panics_when_file_vanishes_witness :
    GetLogs vanishingClients testCollector 0 { state := 0, calls := [] } =
      (.panic,
        { state := 2,
          calls := [RdsCall.DescribeDBLogFilesPages "my-rds-instance",
            RdsCall.downloadLogFile
              { Size := 1000011, LogFileName := "audit/server_audit.log.2",
                LastWritten := 1595256406000, LastWrittenTime := 1595256406, Path := "" },
            RdsCall.Do "https://rds.eu-central-1.amazonaws.com"
              "/v13/downloadCompleteLogFile/my-rds-instance/audit/server_audit.log.2",
            RdsCall.DescribeDBLogFilesPages "my-rds-instance"] }) :=
  (GetLogs_panics_when_file_vanishes vanishingClients testCollector 0
    { state := 0, calls := [] }
    { state := 1, calls := [RdsCall.DescribeDBLogFilesPages "my-rds-instance"] }
    { state := 2,
      calls := [RdsCall.DescribeDBLogFilesPages "my-rds-instance",
        RdsCall.downloadLogFile
          { Size := 1000011, LogFileName := "audit/server_audit.log.2",
            LastWritten := 1595256406000, LastWrittenTime := 1595256406, Path := "" },
        RdsCall.Do "https://rds.eu-central-1.amazonaws.com"
          "/v13/downloadCompleteLogFile/my-rds-instance/audit/server_audit.log.2",
        RdsCall.DescribeDBLogFilesPages "my-rds-instance"] }
    1
    [{ Size := 901862, LogFileName := "audit/server_audit.log",
       LastWritten := 1595262837000, LastWrittenTime := 1595262837, Path := "" },
     { Size := 1000159, LogFileName := "audit/server_audit.log.1",
       LastWritten := 1595259824000, LastWrittenTime := 1595259824, Path := "" },
     { Size := 1000011, LogFileName := "audit/server_audit.log.2",
       LastWritten := 1595256406000, LastWrittenTime := 1595256406, Path := "" }]
    [{ Size := 901862, LogFileName := "audit/server_audit.log",
       LastWritten := 1595262837000, LastWrittenTime := 1595262837, Path := "" }]
    { Size := 1000011, LogFileName := "audit/server_audit.log.2",
      LastWritten := 1595256406000, LastWrittenTime := 1595256406, Path := "" }
    { StatusCode := 200
      Body := fun s => ({ data := ascii "1594710325000000,a\n", err := none }, s) }
    (by decide!) (by decide!) rfl rfl (by decide!) (by decide!)).1

/-! ## The key of a record -/

theorem fmtDigits_eq_toDigitsCore :
    ∀ (fuel u : Nat) (buf : List Char), fmtDigits fuel u buf = Nat.toDigitsCore 10 fuel u buf
  | 0, _, _ => rfl
  | fuel + 1, u, buf => by
    rw [fmtDigits, Nat.toDigitsCore]
    by_cases h : u ≥ 10
    · have h0 : ¬ u / 10 = 0 := by omega
      simp only [h, if_true, h0, if_false]
      exact fmtDigits_eq_toDigitsCore fuel _ _
    · have h0 : u / 10 = 0 := by omega
      have hm : u % 10 = u := by omega
      simp only [h, if_false, h0, if_true, hm]

theorem fmtDigits_eq_toString (u : Nat) : String.mk (fmtDigits (u + 1) u []) = toString u := by
  rw [fmtDigits_eq_toDigitsCore]
  rfl

theorem fmtDigits_length (u : Nat) : (fmtDigits (u + 1) u []).length = (toString u).length := by
  rw [← fmtDigits_eq_toString]
  rfl

theorem String.mk_append_mk (a b : List Char) : String.mk (a ++ b) = String.mk a ++ String.mk b :=
  rfl

theorem fmtInteger_eq_zeroPadded (n : Int) (w : Nat) :
    String.mk (fmtInteger n w) = zeroPadded w n := by
  unfold fmtInteger zeroPadded
  by_cases h : n < 0
  · have h0 : ¬ 0 ≤ n := by omega
    simp only [h, decide_True, if_true, h0, if_false]
    rw [fmtDigits_length, ← fmtDigits_eq_toString]
    rfl
  · have h0 : 0 ≤ n := by omega
    have hn : n.natAbs = n.toNat := by omega
    simp only [h, decide_False, Bool.false_eq_true, if_false, h0, if_true]
    rw [hn, fmtDigits_length, ← fmtDigits_eq_toString]
    rfl

theorem fmtInteger_eq_toString (n : Int) : String.mk (fmtInteger n 0) = toString n := by
  unfold fmtInteger
  cases n with
  | ofNat m =>
    have h : ¬ (Int.ofNat m < 0) := by simp
    simp only [h, decide_False, Bool.false_eq_true, if_false, Nat.zero_sub,
      List.replicate_zero, List.nil_append]
    exact fmtDigits_eq_toString m
  | negSucc m =>
    have h : Int.negSucc m < 0 := Int.negSucc_lt_zero m
    simp only [h, decide_True, if_true, Nat.zero_sub, List.replicate_zero, List.nil_append]
    show String.mk ('-' :: fmtDigits (m + 1 + 1) (m + 1) []) = "-" ++ toString (m + 1)
    rw [← fmtDigits_eq_toString]
    rfl

theorem generateKey_eq_keyOfRecord (s3Prefix : String) (ts : LogEntryTimestamp)
    (logFileTimestamp : Int) :
    generateKey s3Prefix ts logFileTimestamp = keyOfRecord s3Prefix ts logFileTimestamp := by
  unfold generateKey keyOfRecord
  rw [fmtInteger_eq_toString]
  simp only [fmtInteger_eq_zeroPadded]
  apply String.ext
  simp only [String.data_append, List.append_assoc]
  rfl

/-- C21. For every record `WriteLogEntry` makes one call of `Upload` with the configured
bucket, the content of the record as body and the key
`{s3Prefix}/year={Y:04}/month={M:02}/day={D:02}/hour={H:02}/{logFileTimestamp}.log`:
year, month, day and hour in decimal with zeros in front up to 4, 2, 2 and 2 digits
(for a negative number, which no record of the parser has, the sign counts in the
width), the timestamp in plain decimal. It returns an error exactly when that upload
fails, and the error wraps the error of the upload. The bucket (2020, 7, 13, 14) with
the timestamp 1595494263000 gives `year=2020/month=07/day=13/hour=14/1595494263000.log`
under the prefix. -/
theorem WriteLogEntry_uploads_under_key {σ : Type} (s : s3Writer)
    (uploader : UploadInput → σ → Option String × σ) (data : LogEntry) (st : σ) :
    s.WriteLogEntry uploader data st =
      ((uploader { Bucket := s.bucketName,
                   Key := keyOfRecord s.s3Prefix data.Timestamp data.LogFileTimestamp,
                   Body := data.LogLine } st).1.map
          (fun err => "could not upload file to S3: " ++ ("failed to upload file, " ++ err)),
        (uploader { Bucket := s.bucketName,
                    Key := keyOfRecord s.s3Prefix data.Timestamp data.LogFileTimestamp,
                    Body := data.LogLine } st).2) ∧
    ((s.WriteLogEntry uploader data st).1 = none ↔
      (uploader { Bucket := s.bucketName,
                  Key := keyOfRecord s.s3Prefix data.Timestamp data.LogFileTimestamp,
                  Body := data.LogLine } st).1 = none) ∧
    (∀ (w : Nat) (n : Int), 0 ≤ n →
      zeroPadded w n =
        String.mk (List.replicate (w - (toString n.toNat).length) '0') ++ toString n.toNat) ∧
    keyOfRecord "my-rds-instance/audit-logs" (NewLogEntryTimestamp 2020 7 13 14) 1595494263000 =
      "my-rds-instance/audit-logs/year=2020/month=07/day=13/hour=14/1595494263000.log" := by
  have hw : s.WriteLogEntry uploader data st =
      ((uploader { Bucket := s.bucketName,
                   Key := keyOfRecord s.s3Prefix data.Timestamp data.LogFileTimestamp,
                   Body := data.LogLine } st).1.map
          (fun err => "could not upload file to S3: " ++ ("failed to upload file, " ++ err)),
        (uploader { Bucket := s.bucketName,
                    Key := keyOfRecord s.s3Prefix data.Timestamp data.LogFileTimestamp,
                    Body := data.LogLine } st).2) := by
    unfold s3Writer.WriteLogEntry s3Writer.upload
    rw [generateKey_eq_keyOfRecord]
    dsimp only
    cases h : (uploader { Bucket := s.bucketName,
                          Key := keyOfRecord s.s3Prefix data.Timestamp data.LogFileTimestamp,
                          Body := data.LogLine } st).1 <;> rfl
  refine ⟨hw, ?_, ?_, by decide!⟩
  · rw [hw]
    simp
  · intro w n hn
    unfold zeroPadded
    rw [if_pos hn]

/-- Witness of C21: the test `TestWriteLogEntry`. The record of the bucket
(2020, 7, 13, 14) and the timestamp 1595494263000 is uploaded to `my-bucket` under the
expected key, and a write whose upload fails returns the error. -/
theorem WriteLogEntry_uploads_under_key_witness :
    ((testWriter.WriteLogEntry recordingUploader
        { Timestamp := NewLogEntryTimestamp 2020 7 13 14,
          LogLine := ascii "20200713 14:18:10,ip-172-27-2-141,monolith-web",
          LogFileTimestamp := 1595494263000 } []).1 = none ↔
      (recordingUploader
        { Bucket := testWriter.bucketName,
          Key := keyOfRecord testWriter.s3Prefix (NewLogEntryTimestamp 2020 7 13 14)
            1595494263000,
          Body := ascii "20200713 14:18:10,ip-172-27-2-141,monolith-web" } []).1 = none) ∧
    testWriter.WriteLogEntry recordingUploader
        { Timestamp := NewLogEntryTimestamp 2020 7 13 14,
          LogLine := ascii "20200713 14:18:10,ip-172-27-2-141,monolith-web",
          LogFileTimestamp := 1595494263000 } [] =
      (none,
        [{ Bucket := "my-bucket",
           Key := "my-rds-instance/audit-logs/year=2020/month=07/day=13/hour=14/1595494263000.log",
           Body := ascii "20200713 14:18:10,ip-172-27-2-141,monolith-web" }]) ∧
    (testWriter.WriteLogEntry recordingUploader
        { Timestamp := NewLogEntryTimestamp 2020 7 13 14, LogLine := [],
          LogFileTimestamp := 1595494263000 } []).1 =
      some "could not upload file to S3: failed to upload file, empty body" :=
  ⟨(WriteLogEntry_uploads_under_key testWriter recordingUploader
      { Timestamp := NewLogEntryTimestamp 2020 7 13 14,
        LogLine := ascii "20200713 14:18:10,ip-172-27-2-141,monolith-web",
        LogFileTimestamp := 1595494263000 } []).2.1,
   by decide!, by decide!⟩

/-! ## Distinct keys -/

theorem digitChar_facts (d : Nat) (h : d < 10) :
    (Nat.digitChar d).toNat - 48 = d ∧ Nat.digitChar d ≠ '/' ∧ Nat.digitChar d ≠ '-' := by
  interval_cases d <;> decide

theorem fmtDigits_append :
    ∀ (fuel u : Nat) (buf : List Char), fmtDigits fuel u buf = fmtDigits fuel u [] ++ buf
  | 0, _, _ => rfl
  | fuel + 1, u, buf => by
    rw [fmtDigits, fmtDigits]
    split
    · rw [fmtDigits_append fuel _ (_ :: buf), fmtDigits_append fuel _ [_]]
      simp
    · rfl

theorem charsValue_append_singleton (l : List Char) (ch : Char) :
    charsValue (l ++ [ch]) = charsValue l * 10 + (ch.toNat - 48) := by
  simp [charsValue, List.foldl_append]

theorem charsValue_fmtDigits :
    ∀ (fuel u : Nat), u < fuel → charsValue (fmtDigits fuel u []) = u
  | 0, _, h => by omega
  | fuel + 1, u, h => by
    rw [fmtDigits]
    split
    · rw [fmtDigits_append, charsValue_append_singleton,
        charsValue_fmtDigits fuel (u / 10) (by omega),
        (digitChar_facts (u % 10) (Nat.mod_lt _ (by omega))).1]
      omega
    · have := (digitChar_facts u (by omega)).1
      simp [charsValue, this]

theorem fmtDigits_chars :
    ∀ (fuel u : Nat) (buf : List Char), ∀ ch ∈ fmtDigits fuel u buf,
      ch ∈ buf ∨ (ch ≠ '/' ∧ ch ≠ '-')
  | 0, _, _, ch, h => Or.inl h
  | fuel + 1, u, buf, ch, h => by
    rw [fmtDigits] at h
    split at h
    · rcases fmtDigits_chars fuel _ _ ch h with h1 | h1
      · rcases List.mem_cons.mp h1 with h2 | h2
        · rw [h2]
          exact Or.inr (digitChar_facts (u % 10) (Nat.mod_lt _ (by omega))).2
        · exact Or.inl h2
      · exact Or.inr h1
    · rcases List.mem_cons.mp h with h2 | h2
      · rw [h2]
        exact Or.inr (digitChar_facts u (by omega)).2
      · exact Or.inl h2

theorem charsValue_zeros (l : List Char) :
    ∀ k : Nat, charsValue (List.replicate k '0' ++ l) = charsValue l
  | 0 => rfl
  | k + 1 => by
    have ih := charsValue_zeros l k
    unfold charsValue at ih ⊢
    rw [List.replicate_succ, List.cons_append, List.foldl_cons]
    exact ih

/-- The zeros and digits that `fmtInteger` writes after the sign. -/
theorem padded_facts (u k : Nat) :
    charsValue (List.replicate k '0' ++ fmtDigits (u + 1) u []) = u ∧
    ∀ ch ∈ List.replicate k '0' ++ fmtDigits (u + 1) u [], ch ≠ '/' ∧ ch ≠ '-' := by
  refine ⟨by rw [charsValue_zeros, charsValue_fmtDigits _ _ (by omega)], ?_⟩
  intro ch h
  rcases List.mem_append.mp h with h1 | h1
  · rw [List.eq_of_mem_replicate h1]
    decide
  · rcases fmtDigits_chars _ _ _ ch h1 with h2 | h2
    · cases h2
    · exact h2

theorem fmtInteger_no_slash (n : Int) (w : Nat) : '/' ∉ fmtInteger n w := by
  intro h
  unfold fmtInteger at h
  dsimp only at h
  split at h
  · rcases List.mem_cons.mp h with h1 | h1
    · exact absurd h1 (by decide)
    · exact ((padded_facts _ _).2 _ h1).1 rfl
  · exact ((padded_facts _ _).2 _ h).1 rfl

theorem fmtInteger_injective (w : Nat) (n m : Int) (h : fmtInteger n w = fmtInteger m w) :
    n = m := by
  unfold fmtInteger at h
  dsimp only at h
  by_cases hn : n < 0 <;> by_cases hm : m < 0
  · simp only [hn, hm, decide_True, if_true, List.cons.injEq, true_and] at h
    have := congrArg charsValue h
    rw [(padded_facts _ _).1, (padded_facts _ _).1] at this
    omega
  · simp only [hn, hm, decide_True, decide_False, if_true, Bool.false_eq_true, if_false] at h
    have hmem : '-' ∈ List.replicate (w - (fmtDigits (m.natAbs + 1) m.natAbs []).length) '0' ++
        fmtDigits (m.natAbs + 1) m.natAbs [] := by
      rw [← h]; exact List.mem_cons_self _ _
    exact absurd rfl ((padded_facts _ _).2 _ hmem).2
  · simp only [hn, hm, decide_True, decide_False, if_true, Bool.false_eq_true, if_false] at h
    have hmem : '-' ∈ List.replicate (w - (fmtDigits (n.natAbs + 1) n.natAbs []).length) '0' ++
        fmtDigits (n.natAbs + 1) n.natAbs [] := by
      rw [h]; exact List.mem_cons_self _ _
    exact absurd rfl ((padded_facts _ _).2 _ hmem).2
  · simp only [hn, hm, decide_False, Bool.false_eq_true, if_false] at h
    have := congrArg charsValue h
    rw [(padded_facts _ _).1, (padded_facts _ _).1] at this
    omega

theorem append_sep_inj {α : Type} (c : α) :
    ∀ (a b x y : List α), c ∉ a → c ∉ b → a ++ c :: x = b ++ c :: y → a = b ∧ x = y
  | [], [], x, y, _, _, h => by
    simp only [List.nil_append, List.cons.injEq, true_and] at h
    exact ⟨rfl, h⟩
  | [], b0 :: b, x, y, _, hb, h => by
    simp only [List.nil_append, List.cons_append, List.cons.injEq] at h
    exact absurd (h.1 ▸ List.mem_cons_self _ _) hb
  | a0 :: a, [], x, y, ha, _, h => by
    simp only [List.nil_append, List.cons_append, List.cons.injEq] at h
    exact absurd (h.1 ▸ List.mem_cons_self _ _) ha
  | a0 :: a, b0 :: b, x, y, ha, hb, h => by
    simp only [List.cons_append, List.cons.injEq] at h
    obtain ⟨h1, h2⟩ := append_sep_inj c a b x y
      (fun hm => ha (List.mem_cons_of_mem _ hm)) (fun hm => hb (List.mem_cons_of_mem _ hm)) h.2
    exact ⟨by rw [h.1, h1], h2⟩

/-- Equal keys under the same prefix and the same timestamp come from equal buckets. -/
theorem generateKey_injective (s3Prefix : String) (t : Int) (b1 b2 : LogEntryTimestamp)
    (h : generateKey s3Prefix b1 t = generateKey s3Prefix b2 t) : b1 = b2 := by
  have hd := congrArg String.data h
  unfold generateKey at hd
  simp only [String.data_append, List.append_assoc] at hd
  have e1 := List.append_cancel_left hd
  have e2 : ∀ (Y R Y2 R2 : List Char),
      "/".data ++ ("year=".data ++ (Y ++ R)) = "/".data ++ ("year=".data ++ (Y2 ++ R2)) →
      Y ++ R = Y2 ++ R2 := fun Y R Y2 R2 e =>
    List.append_cancel_left (List.append_cancel_left e)
  have e3 := e2 _ _ _ _ e1
  have s1 := append_sep_inj '/' _ _ _ _ (fmtInteger_no_slash b1.Year 4)
    (fmtInteger_no_slash b2.Year 4) e3
  have e4 : (fmtInteger b1.Month 2) ++ '/' :: _ = (fmtInteger b2.Month 2) ++ '/' :: _ :=
    @List.append_cancel_left Char "month=".data _ _ s1.2
  have s2 := append_sep_inj '/' _ _ _ _ (fmtInteger_no_slash b1.Month 2)
    (fmtInteger_no_slash b2.Month 2) e4
  have e5 : (fmtInteger b1.Day 2) ++ '/' :: _ = (fmtInteger b2.Day 2) ++ '/' :: _ :=
    @List.append_cancel_left Char "day=".data _ _ s2.2
  have s3 := append_sep_inj '/' _ _ _ _ (fmtInteger_no_slash b1.Day 2)
    (fmtInteger_no_slash b2.Day 2) e5
  have e6 : (fmtInteger b1.Hour 2) ++ '/' :: _ = (fmtInteger b2.Hour 2) ++ '/' :: _ :=
    @List.append_cancel_left Char "hour=".data _ _ s3.2
  have s4 := append_sep_inj '/' _ _ _ _ (fmtInteger_no_slash b1.Hour 2)
    (fmtInteger_no_slash b2.Hour 2) e6
  have hY := fmtInteger_injective 4 _ _ s1.1
  have hM := fmtInteger_injective 2 _ _ s2.1
  have hD := fmtInteger_injective 2 _ _ s3.1
  have hH := fmtInteger_injective 2 _ _ s4.1
  cases b1
  cases b2
  simp only at hY hM hD hH
  rw [hY, hM, hD, hH]

theorem runHeads_subset :
    ∀ (l : List LogEntryTimestamp), ∀ x ∈ runHeads l, x ∈ l
  | [], x, h => by cases h
  | [a], x, h => h
  | a :: b :: l, x, h => by
    rw [runHeads] at h
    split at h
    · exact List.mem_cons_of_mem _ (runHeads_subset (b :: l) x h)
    · rcases List.mem_cons.mp h with h1 | h1
      · rw [h1]; exact List.mem_cons_self _ _
      · exact List.mem_cons_of_mem _ (runHeads_subset (b :: l) x h1)

theorem runHeads_nodup :
    ∀ (l : List LogEntryTimestamp), ContiguousRuns l → (runHeads l).Nodup
  | [], _ => by simp [runHeads]
  | [a], _ => by simp [runHeads]
  | a :: b :: l, h => by
    have ih := runHeads_nodup (b :: l) h.2
    rw [runHeads]
    split
    · exact ih
    · rename_i hab
      refine List.nodup_cons.mpr ⟨?_, ih⟩
      intro hm
      have hmem := runHeads_subset (b :: l) a hm
      have hd : (b :: l).dropWhile (fun x => decide (x = a)) = b :: l := by
        rw [List.dropWhile_cons]
        have : decide (b = a) = false := by simp [Ne.symm hab]
        rw [this]
        rfl
      exact h.1 (by rw [hd]; exact hmem)

/-- C26, as amended. For an input of well-formed lines (at least one non-empty line,
every line shorter than 65536 bytes, every non-empty line well formed) in which the
lines of each hour bucket are consecutive, as in a file whose lines are in time order,
the records that `ParseEntries` returns have pairwise distinct buckets, and under
`generateKey` with the same prefix and their common `LogFileTimestamp` pairwise
distinct keys. -/
theorem ParseEntries_distinct_keys (loc : Int → Int) (data : List Nat) (ts : Int)
    (s3Prefix : String)
    (hshort : ∀ l ∈ splitOn 10 data, l.length < maxScanTokenSize)
    (hwf : ∀ l ∈ contentLines data, WellFormedLine loc l)
    (hne : contentLines data ≠ [])
    (hruns : ContiguousRuns
      ((contentLines data).map (fun l => hourBucket (Unix loc (lineSeconds l))))) :
    ∃ records : List LogEntry,
      ParseEntries loc data ts = .ok (records.map some) ∧
      (∀ r ∈ records, r.LogFileTimestamp = ts) ∧
      (records.map (fun r => r.Timestamp)).Nodup ∧
      (records.map (fun r => generateKey s3Prefix r.Timestamp r.LogFileTimestamp)).Nodup := by
  refine ⟨(lineGroups loc (contentLines data)).map (groupEntry ts),
    ParseEntries_of_wellFormed loc data ts hshort hwf hne, ?_, ?_, ?_⟩
  · intro r hr
    obtain ⟨g, _, rfl⟩ := List.mem_map.mp hr
    rfl
  · have hheads : ((lineGroups loc (contentLines data)).map (groupEntry ts)).map
        (fun r => r.Timestamp) =
        runHeads ((contentLines data).map (fun l => hourBucket (Unix loc (lineSeconds l)))) := by
      rw [← map_bucketOf_wellFormed loc (contentLines data) hwf, ← lineGroups_heads,
        List.map_map]
      rfl
    rw [hheads]
    exact runHeads_nodup _ hruns
  · have hheads : ((lineGroups loc (contentLines data)).map (groupEntry ts)).map
        (fun r => r.Timestamp) =
        runHeads ((contentLines data).map (fun l => hourBucket (Unix loc (lineSeconds l)))) := by
      rw [← map_bucketOf_wellFormed loc (contentLines data) hwf, ← lineGroups_heads,
        List.map_map]
      rfl
    have hnd := runHeads_nodup _ hruns
    rw [← hheads] at hnd
    have hkeys : ((lineGroups loc (contentLines data)).map (groupEntry ts)).map
        (fun r => generateKey s3Prefix r.Timestamp r.LogFileTimestamp) =
        (((lineGroups loc (contentLines data)).map (groupEntry ts)).map
          (fun r => r.Timestamp)).map (fun b => generateKey s3Prefix b ts) := by
      simp only [List.map_map]
      rfl
    rw [hkeys]
    exact hnd.map (fun b1 b2 hb => generateKey_injective s3Prefix ts b1 b2 hb)

/-- Witness of C26: the file `fiveLines` (hours 7, 7, 8, 8, 9) gives three records with
three keys. -/
theorem ParseEntries_distinct_keys_witness :
    ∃ records : List LogEntry,
      ParseEntries UTC fiveLines 1 = .ok (records.map some) ∧
      (∀ r ∈ records, r.LogFileTimestamp = 1) ∧
      (records.map (fun r => r.Timestamp)).Nodup ∧
      (records.map (fun r => generateKey "p" r.Timestamp r.LogFileTimestamp)).Nodup :=
  ParseEntries_distinct_keys UTC fiveLines 1 "p" (by decide!) (by decide!) (by decide!)
    (by decide!)

/-- Counterexample to C26 as stated: in the file `unorderedLines` the hours are 7, 8
and 7. `ParseEntries` returns three records, the first and the third with the same
bucket, and `generateKey` gives both the same key: the third record overwrites the
first in the sink. -/
theorem ParseEntries_same_key_twice :
    ParseEntries UTC unorderedLines 1 =
      .ok [some { Timestamp := NewLogEntryTimestamp 2020 7 14 7,
                  LogLine := ascii "1594710325000000,a\n", LogFileTimestamp := 1 },
           some { Timestamp := NewLogEntryTimestamp 2020 7 14 8,
                  LogLine := ascii "1594713926000000,c\n", LogFileTimestamp := 1 },
           some { Timestamp := NewLogEntryTimestamp 2020 7 14 7,
                  LogLine := ascii "1594710326000000,b\n", LogFileTimestamp := 1 }] ∧
    (∀ l ∈ contentLines unorderedLines, WellFormedLine UTC l) ∧
    generateKey "p" (NewLogEntryTimestamp 2020 7 14 7) 1 =
      "p/year=2020/month=07/day=14/hour=07/1.log" := by
  refine ⟨by decide!, by decide!, by decide!⟩

/-! ## A run over a catalog that does not change -/

theorem processLoop_no_more_logs {σ : Type} (c : Collaborators σ) (id : String) (fuel : Nat)
    (ts : Int) (s s1 : σ) (r : GetLogsResult)
    (hg : c.GetLogs ts s = (.returned r, s1)) (herr : r.err = none) (hok : r.ok = false) :
    processLoop c id (fuel + 1) ts s =
      (some (.returned none), [Event.GetLogs ts (.returned r)], s1) := by
  rw [processLoop]
  simp only [hg, herr, hok]
  rfl

theorem processLoop_file {σ : Type} (c : Collaborators σ) (id : String) (fuel : Nat)
    (ts : Int) (s s1 s2 s3 : σ) (r : GetLogsResult) (body : List Nat)
    (entries : List (Option LogEntry)) (evs : List Event)
    (hg : c.GetLogs ts s = (.returned r, s1)) (herr : r.err = none) (hok : r.ok = true)
    (hreader : r.reader = some body)
    (hparse : c.ParseEntries body r.logFileTimestamp = .ok entries)
    (hwrite : writeEntries c entries s1 = (.returned none, evs, s2))
    (hstore : c.StoreCheckpoint { LogFileTimestamp := r.logFileTimestamp, Id := id } s2 =
      (none, s3)) :
    processLoop c id (fuel + 1) ts s =
      ((processLoop c id fuel r.logFileTimestamp s3).1,
        (Event.GetLogs ts (.returned r) :: evs ++
          [Event.StoreCheckpoint { LogFileTimestamp := r.logFileTimestamp, Id := id } none]) ++
          (processLoop c id fuel r.logFileTimestamp s3).2.1,
        (processLoop c id fuel r.logFileTimestamp s3).2.2) := by
  rw [processLoop]
  simp only [hg, herr, hok, hreader, hparse, hwrite, hstore]
  rfl

theorem insertByLastWritten_perm (a : LogFile) :
    ∀ l : List LogFile, (insertByLastWritten a l).Perm (a :: l)
  | [] => List.Perm.refl _
  | b :: l => by
    rw [insertByLastWritten]
    split
    · exact ((insertByLastWritten_perm a l).cons b).trans (List.Perm.swap a b l)
    · exact List.Perm.refl _

theorem sortSliceStable_perm : ∀ l : List LogFile, (sortSliceStable l).Perm l
  | [] => List.Perm.refl _
  | a :: l => (insertByLastWritten_perm a _).trans ((sortSliceStable_perm l).cons a)

theorem find?_of_filter_cons {α : Type} (p : α → Bool) (q : α) (rest : List α) :
    ∀ l : List α, l.filter p = q :: rest → l.find? p = some q
  | [], h => by cases h
  | a :: l, h => by
    cases hp : p a
    · rw [List.filter_cons_of_neg (by simp [hp])] at h
      rw [List.find?_cons_of_neg _ (by simp [hp])]
      exact find?_of_filter_cons p q rest l h
    · rw [List.filter_cons_of_pos hp] at h
      rw [List.find?_cons_of_pos _ hp]
      cases h
      rfl

theorem find?_of_filter_nil {α : Type} (p : α → Bool) (l : List α) (h : l.filter p = []) :
    l.find? p = none := by
  rw [List.find?_eq_none]
  intro x hx hpx
  have : x ∈ l.filter p := List.mem_filter.mpr ⟨hx, hpx⟩
  rw [h] at this
  cases this

/-- After the first of the qualifying files the qualifying files are the others, when
the `LastWritten` values increase strictly. -/
theorem filter_qualifies_next (S : List LogFile) (ts : Int) (q : LogFile) (rest : List LogFile)
    (h : S.filter (qualifies ts) = q :: rest)
    (hlt : (q :: rest).Pairwise (fun x y => x.LastWritten < y.LastWritten)) :
    S.filter (qualifies q.LastWritten) = rest := by
  have hq : qualifies ts q = true := by
    have : q ∈ S.filter (qualifies ts) := by rw [h]; exact List.mem_cons_self _ _
    exact (List.mem_filter.mp this).2
  have hqts : q.LastWritten > ts := ((qualifies_iff ts q).mp hq).2
  have hfun : ∀ f : LogFile, qualifies q.LastWritten f =
      (decide (f.LastWritten > q.LastWritten) && qualifies ts f) := by
    intro f
    unfold qualifies
    by_cases hf : f.LastWritten > q.LastWritten
    · have : f.LastWritten > ts := lt_trans hqts hf
      simp [hf, this]
    · simp [hf]
  have e : S.filter (qualifies q.LastWritten) =
      (S.filter (qualifies ts)).filter (fun f => decide (f.LastWritten > q.LastWritten)) := by
    rw [List.filter_filter]
    exact List.filter_congr (fun f _ => hfun f)
  rw [e, h, List.filter_cons_of_neg (by simp)]
  rw [List.filter_eq_self]
  intro f hf
  have := (List.pairwise_cons.mp hlt).1 f hf
  simpa using this

theorem pairwise_lt_of_nodup (l : List LogFile)
    (hle : l.Pairwise (fun x y => x.LastWritten ≤ y.LastWritten))
    (hnd : (l.map (fun f => f.LastWritten)).Nodup) :
    l.Pairwise (fun x y => x.LastWritten < y.LastWritten) := by
  have hne : l.Pairwise (fun x y => x.LastWritten ≠ y.LastWritten) :=
    List.pairwise_map.mp hnd
  exact (hle.and hne).imp (fun h => lt_of_le_of_ne h.1 h.2)

theorem writeEntries_all_ok {σ : Type} (c : Collaborators σ)
    (hw : ∀ e st, (c.WriteLogEntry e st).1 = none) :
    ∀ (recs : List LogEntry) (s : σ), (writeEntries c (recs.map some) s).1 = .returned none
  | [], s => rfl
  | r :: recs, s => by
    rw [List.map_cons, writeEntries]
    simp only [hw r s]
    exact writeEntries_all_ok c hw recs _

theorem downloadedFiles_append (a b : List RdsCall) :
    downloadedFiles (a ++ b) = downloadedFiles a ++ downloadedFiles b := by
  simp [downloadedFiles, List.filterMap_append]

theorem getLogFiles_of_one_page {σ : Type} (cl : RdsClients σ) (c : RdsLogCollector)
    (w : World σ) (page : List DescribeDBLogFilesDetails)
    (hcat : (cl.DescribeDBLogFilesPages c.instanceIdentifier w.state).1 = ([page], none))
    (hne : catalogFiles c page ≠ []) :
    getLogFiles cl c maxRetries w =
      (.ok (catalogFiles c page),
        { state := (cl.DescribeDBLogFilesPages c.instanceIdentifier w.state).2,
          calls := w.calls ++ [RdsCall.DescribeDBLogFilesPages c.instanceIdentifier] }) := by
  have h : cl.DescribeDBLogFilesPages c.instanceIdentifier w.state =
      (([page], none), (cl.DescribeDBLogFilesPages c.instanceIdentifier w.state).2) :=
    Prod.ext hcat rfl
  have hl := listAndFilter_of_pages cl c w [page] none _ _ h (eachPage_single page)
  have hm : (listAndFilter cl c (attemptWorld cl c 0 w)).1 =
      .ok (page.map toLogFile, catalogFiles c page) := by
    rw [attemptWorld, hl]
    rfl
  rw [getLogFiles_first_match cl c 0 maxRetries w _ _ (Nat.zero_le _)
    (fun i hi => absurd hi (Nat.not_lt_zero i)) hm hne]
  rw [attemptWorld, attemptWorld, hl]

theorem GetLogs_stable_none {σ : Type} (cl : RdsClients σ) (c : RdsLogCollector)
    (page : List DescribeDBLogFilesDetails) (ts : Int) (w : World σ)
    (hcat : ∀ st, (cl.DescribeDBLogFilesPages c.instanceIdentifier st).1 = ([page], none))
    (hne : catalogFiles c page ≠ [])
    (hfind : (sortSliceStable (catalogFiles c page)).find? (qualifies ts) = none) :
    ∃ w1 : World σ,
      GetLogs cl c ts w =
        (.returned { reader := none, ok := false, logFileTimestamp := 0, err := none }, w1) ∧
      downloadedFiles w1.calls = downloadedFiles w.calls := by
  have h1 := getCurrent_of_getLogFiles cl c ts w _ _
    (getLogFiles_of_one_page cl c w page (hcat _) hne)
  have hf : findLogFileNewerThanTimestamp (catalogFiles c page) ts = .ok none := by
    unfold findLogFileNewerThanTimestamp
    rw [hfind]
  rw [hf] at h1
  refine ⟨_, getLogs_select_none cl c ts maxRetries w _ h1, ?_⟩
  rw [downloadedFiles_append]
  simp [downloadedFiles]

theorem GetLogs_stable_some {σ : Type} (cl : RdsClients σ) (c : RdsLogCollector)
    (loc : Int → Int) (page : List DescribeDBLogFilesDetails) (ts : Int) (w : World σ)
    (f : LogFile)
    (hcat : ∀ st, (cl.DescribeDBLogFilesPages c.instanceIdentifier st).1 = ([page], none))
    (hne : catalogFiles c page ≠ [])
    (hfind : (sortSliceStable (catalogFiles c page)).find? (qualifies ts) = some f)
    (hdl : DownloadSucceeds cl c loc f) :
    ∃ (body : List Nat) (w4 : World σ) (recs : List LogEntry),
      GetLogs cl c ts w =
        (.returned { reader := some body, ok := true, logFileTimestamp := f.LastWritten,
                     err := none }, w4) ∧
      downloadedFiles w4.calls = downloadedFiles w.calls ++ [f] ∧
      ParseEntries loc body f.LastWritten = .ok (recs.map some) := by
  have h1 := getCurrent_of_getLogFiles cl c ts w _ _
    (getLogFiles_of_one_page cl c w page (hcat _) hne)
  have hf : findLogFileNewerThanTimestamp (catalogFiles c page) ts = .ok (some f) := by
    unfold findLogFileNewerThanTimestamp
    rw [hfind]
  rw [hf] at h1
  obtain ⟨resp, hdo, hstatus, hbody⟩ :=
    hdl (cl.DescribeDBLogFilesPages c.instanceIdentifier w.state).2
  have h2 := downloadLogFile_ok cl c f
    { state := (cl.DescribeDBLogFilesPages c.instanceIdentifier w.state).2,
      calls := w.calls ++ [RdsCall.DescribeDBLogFilesPages c.instanceIdentifier] }
    resp _ (Prod.ext hdo rfl) hstatus
  have h3 := getCurrent_of_getLogFiles cl c ts _ _ _
    (getLogFiles_of_one_page cl c
      { state := (cl.Do ("https://rds." ++ c.region ++ ".amazonaws.com")
          ("/v13/downloadCompleteLogFile/" ++ c.instanceIdentifier ++ "/" ++ f.LogFileName)
          (cl.DescribeDBLogFilesPages c.instanceIdentifier w.state).2).2,
        calls := (w.calls ++ [RdsCall.DescribeDBLogFilesPages c.instanceIdentifier]) ++
          [RdsCall.downloadLogFile f,
            RdsCall.Do ("https://rds." ++ c.region ++ ".amazonaws.com")
              ("/v13/downloadCompleteLogFile/" ++ c.instanceIdentifier ++ "/" ++
                f.LogFileName)] }
      page (hcat _) hne)
  rw [hf] at h3
  have e := getLogs_attempt cl c ts maxRetries w _ _ _ f f resp h1 h2 h3
  obtain ⟨hread, recs, hparse⟩ := hbody
    (cl.DescribeDBLogFilesPages c.instanceIdentifier
      (cl.Do ("https://rds." ++ c.region ++ ".amazonaws.com")
        ("/v13/downloadCompleteLogFile/" ++ c.instanceIdentifier ++ "/" ++ f.LogFileName)
        (cl.DescribeDBLogFilesPages c.instanceIdentifier w.state).2).2).2
  simp only [ne_eq, not_true_eq_false, if_false] at e
  rw [hread] at e
  refine ⟨_, _, recs, e, ?_, hparse⟩
  simp [downloadedFiles, List.filterMap_append]

/-- The loop of `Process` over a catalog that does not change, entered with a timestamp
for which the qualifying files, in sorted order, are `Q`. -/
theorem processLoop_stable {σ : Type} (cl : RdsClients σ) (c : RdsLogCollector)
    (loc : Int → Int) (b : Backends σ) (id : String) (page : List DescribeDBLogFilesDetails)
    (hcat : ∀ st, (cl.DescribeDBLogFilesPages c.instanceIdentifier st).1 = ([page], none))
    (hne : catalogFiles c page ≠ [])
    (hw : ∀ e st, (b.WriteLogEntry e st).1 = none)
    (hs : ∀ cp st, (b.StoreCheckpoint cp st).1 = none) :
    ∀ (Q : List LogFile) (ts : Int) (w : World σ) (fuel : Nat),
      (sortSliceStable (catalogFiles c page)).filter (qualifies ts) = Q →
      Q.Pairwise (fun x y => x.LastWritten < y.LastWritten) →
      (∀ f ∈ Q, DownloadSucceeds cl c loc f) →
      Q.length < fuel →
      (processLoop (rdsCollaborators cl c loc b) id fuel ts w).1 = some (.returned none) ∧
      downloadedFiles (processLoop (rdsCollaborators cl c loc b) id fuel ts w).2.2.calls =
        downloadedFiles w.calls ++ Q ∧
      storedTimestamps (processLoop (rdsCollaborators cl c loc b) id fuel ts w).2.1 =
        Q.map (fun f => f.LastWritten)
  | [], ts, w, fuel, hQ, _, _, hfuel => by
    obtain ⟨n, rfl⟩ : ∃ n, fuel = n + 1 := ⟨fuel - 1, by simp at hfuel; omega⟩
    obtain ⟨w1, hg, hd⟩ := GetLogs_stable_none cl c page ts w hcat hne
      (find?_of_filter_nil _ _ hQ)
    have hg2 : (rdsCollaborators cl c loc b).GetLogs ts w =
        (.returned { reader := none, ok := false, logFileTimestamp := 0, err := none }, w1) := hg
    rw [processLoop_no_more_logs _ id n ts w w1 _ hg2 rfl rfl]
    exact ⟨rfl, by rw [hd]; simp, rfl⟩
  | q :: rest, ts, w, fuel, hQ, hlt, hdl, hfuel => by
    obtain ⟨n, rfl⟩ : ∃ n, fuel = n + 1 := ⟨fuel - 1, by simp at hfuel; omega⟩
    obtain ⟨body, w4, recs, hg, hd, hparse⟩ := GetLogs_stable_some cl c loc page ts w q hcat hne
      (find?_of_filter_cons _ q rest _ hQ) (hdl q (List.mem_cons_self _ _))
    have hg2 : (rdsCollaborators cl c loc b).GetLogs ts w =
        (.returned { reader := some body, ok := true, logFileTimestamp := q.LastWritten,
                     err := none }, w4) := hg
    have hwr := writeEntries_all_ok (rdsCollaborators cl c loc b)
      (fun e st => hw e st.state) recs w4
    have hwc := writeEntries_rds_calls cl c loc b (recs.map some) w4
    have hwe := writeEntries_events (rdsCollaborators cl c loc b) (recs.map some) w4
    have hstore : (rdsCollaborators cl c loc b).StoreCheckpoint
        { LogFileTimestamp := q.LastWritten, Id := id }
        (writeEntries (rdsCollaborators cl c loc b) (recs.map some) w4).2.2 =
        (none, ((rdsCollaborators cl c loc b).StoreCheckpoint
          { LogFileTimestamp := q.LastWritten, Id := id }
          (writeEntries (rdsCollaborators cl c loc b) (recs.map some) w4).2.2).2) :=
      Prod.ext (hs _ _) rfl
    have hstep := processLoop_file (rdsCollaborators cl c loc b) id n ts w w4 _ _ _ body
      (recs.map some) _ hg2 rfl rfl rfl hparse (Prod.ext hwr rfl) hstore
    have ih := processLoop_stable cl c loc b id page hcat hne hw hs rest q.LastWritten
      ((rdsCollaborators cl c loc b).StoreCheckpoint
        { LogFileTimestamp := q.LastWritten, Id := id }
        (writeEntries (rdsCollaborators cl c loc b) (recs.map some) w4).2.2).2 n
      (filter_qualifies_next _ ts q rest hQ hlt) (List.pairwise_cons.mp hlt).2
      (fun f hf => hdl f (List.mem_cons_of_mem _ hf))
      (by simp only [List.length_cons] at hfuel; omega)
    rw [hstep]
    refine ⟨ih.1, ?_, ?_⟩
    · rw [ih.2.1]
      have hc : ((rdsCollaborators cl c loc b).StoreCheckpoint
          { LogFileTimestamp := q.LastWritten, Id := id }
          (writeEntries (rdsCollaborators cl c loc b) (recs.map some) w4).2.2).2.calls =
          w4.calls := hwc
      rw [hc, hd]
      simp
    · show storedTimestamps ((Event.GetLogs ts _ :: _ ++ [Event.StoreCheckpoint _ none]) ++ _) = _
      rw [storedTimestamps_iteration ts _ _ _ _ none hwe, ih.2.2]
      rfl

/-- C24, as amended. A run of `Process` over the `RdsLogCollector`, started from the
checkpoint T with no call made yet, over a remote catalog that does not change: every
listing is the same single page, with at least one file of the audit log. The rotated
audit files with `LastWritten` above T have pairwise distinct `LastWritten`, every
download of such a file succeeds and its body is parsed into records, and the
readiness check, the reading of the checkpoint and every write and `StoreCheckpoint`
succeed. Then with more iterations allowed than there are such files the run ends
without error, the files downloaded are exactly the rotated audit files with
`LastWritten` above T, each once and in ascending order of `LastWritten`, and the
checkpoints stored are their `LastWritten` values in that order. -/
theorem Process_processes_all_newer_files {σ : Type} (cl : RdsClients σ)
    (c : RdsLogCollector) (loc : Int → Int) (b : Backends σ) (rid : String) (s : σ)
    (ck : Option CheckpointRecord) (page : List DescribeDBLogFilesDetails) (fuel : Nat)
    (hcat : ∀ st, (cl.DescribeDBLogFilesPages c.instanceIdentifier st).1 = ([page], none))
    (haudit : catalogFiles c page ≠ [])
    (hdistinct : ((filesToProcess c page (startTimestamp ck)).map
      (fun f => f.LastWritten)).Nodup)
    (hdl : ∀ f ∈ filesToProcess c page (startTimestamp ck), DownloadSucceeds cl c loc f)
    (hv : (b.ValidateAndPrepareRDSInstance s).1 = none)
    (hck : (b.GetCheckpoint (rid ++ ":" ++ "audit")
      (b.ValidateAndPrepareRDSInstance s).2).1 = .ok ck)
    (hw : ∀ e st, (b.WriteLogEntry e st).1 = none)
    (hs : ∀ cp st, (b.StoreCheckpoint cp st).1 = none)
    (hfuel : (filesToProcess c page (startTimestamp ck)).length < fuel) :
    (Process (rdsCollaborators cl c loc b) rid fuel { state := s, calls := [] }).1 =
      some (.returned none) ∧
    downloadedFiles
      (Process (rdsCollaborators cl c loc b) rid fuel { state := s, calls := [] }).2.2.calls =
      filesToProcess c page (startTimestamp ck) ∧
    storedTimestamps
      (Process (rdsCollaborators cl c loc b) rid fuel { state := s, calls := [] }).2.1 =
      (filesToProcess c page (startTimestamp ck)).map (fun f => f.LastWritten) ∧
    (filesToProcess c page (startTimestamp ck)).Perm
      ((catalogFiles c page).filter
        (fun f => f.IsRotatedFile && decide (f.LastWritten > startTimestamp ck))) ∧
    (filesToProcess c page (startTimestamp ck)).Pairwise
      (fun x y => x.LastWritten < y.LastWritten) := by
  have hP : Process (rdsCollaborators cl c loc b) rid fuel { state := s, calls := [] } =
      ((processLoop (rdsCollaborators cl c loc b) (rid ++ ":" ++ "audit") fuel
          (startTimestamp ck)
          { state := (b.GetCheckpoint (rid ++ ":" ++ "audit")
              (b.ValidateAndPrepareRDSInstance s).2).2, calls := [] }).1,
        Event.ValidateAndPrepareRDSInstance none ::
          Event.GetCheckpoint (rid ++ ":" ++ "audit") (.ok ck) ::
          (processLoop (rdsCollaborators cl c loc b) (rid ++ ":" ++ "audit") fuel
            (startTimestamp ck)
            { state := (b.GetCheckpoint (rid ++ ":" ++ "audit")
                (b.ValidateAndPrepareRDSInstance s).2).2, calls := [] }).2.1,
        (processLoop (rdsCollaborators cl c loc b) (rid ++ ":" ++ "audit") fuel
            (startTimestamp ck)
            { state := (b.GetCheckpoint (rid ++ ":" ++ "audit")
                (b.ValidateAndPrepareRDSInstance s).2).2, calls := [] }).2.2) := by
    simp only [Process, rdsCollaborators, hv, hck]
    cases ck <;> rfl
  have hsorted : (filesToProcess c page (startTimestamp ck)).Pairwise
      (fun x y => x.LastWritten < y.LastWritten) :=
    pairwise_lt_of_nodup _
      ((pairwise_sortSliceStable (catalogFiles c page)).sublist (List.filter_sublist _))
      hdistinct
  obtain ⟨h1, h2, h3⟩ := processLoop_stable cl c loc b (rid ++ ":" ++ "audit") page hcat haudit
    hw hs (filesToProcess c page (startTimestamp ck)) (startTimestamp ck)
    { state := (b.GetCheckpoint (rid ++ ":" ++ "audit")
        (b.ValidateAndPrepareRDSInstance s).2).2, calls := [] }
    fuel rfl hsorted hdl hfuel
  rw [hP]
  refine ⟨h1, ?_, ?_, ?_, hsorted⟩
  · rw [h2]; rfl
  · show storedTimestamps (processLoop _ _ _ _ _).2.1 = _
    exact h3
  · have hq : (fun f : LogFile =>
        f.IsRotatedFile && decide (f.LastWritten > startTimestamp ck)) =
        qualifies (startTimestamp ck) := by
      funext f
      unfold qualifies
      exact Bool.and_comm _ _
    rw [hq]
    exact (sortSliceStable_perm (catalogFiles c page)).filter _

/-- Witness of C24: the catalog of the tests and the checkpoint 0. The two rotated
files are downloaded, the older one first, and their timestamps are stored. -/
theorem Process_processes_all_newer_files_witness :
    filesToProcess testCollector listingBeforeRotation 0 =
      [{ Size := 1000011, LogFileName := "audit/server_audit.log.2",
         LastWritten := 1595256406000, LastWrittenTime := 1595256406, Path := "" },
       { Size := 1000159, LogFileName := "audit/server_audit.log.1",
         LastWritten := 1595259824000, LastWrittenTime := 1595259824, Path := "" }] ∧
    (Process (rdsCollaborators stableClients testCollector UTC (checkpointBackends 0))
        "my-rds-instance" 3 { state := 0, calls := [] }).1 = some (.returned none) ∧
    downloadedFiles
      (Process (rdsCollaborators stableClients testCollector UTC (checkpointBackends 0))
        "my-rds-instance" 3 { state := 0, calls := [] }).2.2.calls =
      filesToProcess testCollector listingBeforeRotation
        (startTimestamp (some { LogFileTimestamp := 0, Id := "my-rds-instance:audit" })) ∧
    storedTimestamps
      (Process (rdsCollaborators stableClients testCollector UTC (checkpointBackends 0))
        "my-rds-instance" 3 { state := 0, calls := [] }).2.1 =
      (filesToProcess testCollector listingBeforeRotation
        (startTimestamp (some { LogFileTimestamp := 0, Id := "my-rds-instance:audit" }))).map
        (fun f => f.LastWritten) := by
  have hfiles : filesToProcess testCollector listingBeforeRotation 0 =
      [{ Size := 1000011, LogFileName := "audit/server_audit.log.2",
         LastWritten := 1595256406000, LastWrittenTime := 1595256406, Path := "" },
       { Size := 1000159, LogFileName := "audit/server_audit.log.1",
         LastWritten := 1595259824000, LastWrittenTime := 1595259824, Path := "" }] := by
    decide!
  have hdl : ∀ f ∈ filesToProcess testCollector listingBeforeRotation
      (startTimestamp (some { LogFileTimestamp := 0, Id := "my-rds-instance:audit" })),
      DownloadSucceeds stableClients testCollector UTC f := by
    intro f hf
    have hf2 : f ∈ filesToProcess testCollector listingBeforeRotation 0 := hf
    rw [hfiles] at hf2
    simp only [List.mem_cons, List.mem_singleton, List.not_mem_nil, or_false] at hf2
    rcases hf2 with h | h
    · subst h
      intro st
      refine ⟨_, rfl, by decide, fun st2 => ⟨rfl,
        [{ Timestamp := NewLogEntryTimestamp 2020 7 14 7,
           LogLine := ascii "1594710325000000,a\n", LogFileTimestamp := 1595256406000 }], ?_⟩⟩
      show ParseEntries UTC (ascii "1594710325000000,a\n") 1595256406000 = _
      decide!
    · subst h
      intro st
      refine ⟨_, rfl, by decide, fun st2 => ⟨rfl,
        [{ Timestamp := NewLogEntryTimestamp 2020 7 14 7,
           LogLine := ascii "1594710325000000,a\n", LogFileTimestamp := 1595259824000 }], ?_⟩⟩
      show ParseEntries UTC (ascii "1594710325000000,a\n") 1595259824000 = _
      decide!
  have t := Process_processes_all_newer_files stableClients testCollector UTC
    (checkpointBackends 0) "my-rds-instance" 0
    (some { LogFileTimestamp := 0, Id := "my-rds-instance:audit" }) listingBeforeRotation 3
    (fun _ => rfl) (by decide!) (by decide!) hdl rfl rfl (fun _ _ => rfl) (fun _ _ => rfl)
    (by decide!)
  exact ⟨hfiles, t.1, t.2.1, t.2.2.1⟩

/-- Counterexample to C24 as stated: the catalog does not change and has two rotated
files with the same `LastWritten`, both newer than the checkpoint 0, and every call
succeeds. The run ends without error after downloading the first of the two only:
the second is skipped. -/
theorem Process_skips_file_with_equal_timestamp :
    (Process (rdsCollaborators tiedClients testCollector UTC (checkpointBackends 0))
        "my-rds-instance" 5 { state := 0, calls := [] }).1 = some (.returned none) ∧
    downloadedFiles
      (Process (rdsCollaborators tiedClients testCollector UTC (checkpointBackends 0))
        "my-rds-instance" 5 { state := 0, calls := [] }).2.2.calls =
      [{ Size := 1000159, LogFileName := "audit/server_audit.log.1",
         LastWritten := 1595259824000, LastWrittenTime := 1595259824, Path := "" }] ∧
    storedTimestamps
      (Process (rdsCollaborators tiedClients testCollector UTC (checkpointBackends 0))
        "my-rds-instance" 5 { state := 0, calls := [] }).2.1 = [1595259824000] ∧
    (fileNamed "audit/server_audit.log.2").IsRotatedFile = true ∧
    (1595259824000 : Int) > 0 := by
  refine ⟨by decide!, by decide!, by decide!, by decide, by decide⟩

end RdsAuditLogsS3
